import Mathlib

/-!
# MooseFS: producer/consumer queue and chunk-server job pool

Shallow embedding of `mfscommon/pcqueue.c` and `mfschunkserver/bgjobs.c`.

* `uint32_t` fields are natural numbers, every C operation that can wrap is
  written with an explicit `% 2^32`.
* Pointers are natural numbers, `0` is `NULL`.
* The singly linked list `head ... *tail` of a queue is the list `entries`
  (head first); writing through `tail` appends at the end.
* A call that enters `pthread_cond_wait` is reported as `Outcome.blocked`
  together with the state it leaves behind (the waiter counter incremented);
  a resumed call is the same function applied to the state it wakes up in.
-/

namespace MooseFS

/-! ## pcqueue.c -/

/-- Modulus of `uint32_t` arithmetic. -/
def U32 : Nat := 2 ^ 32

/-- The `errno` values set by the queue functions. -/
inductive Errno where
  | EDEADLK
  | EIO
  | EBUSY
deriving DecidableEq, Repr

/-- How a queue call ends: return value `0`, return value `-1` with `errno`,
suspended in `pthread_cond_wait`, or a dereference of a `NULL` head. -/
inductive Outcome where
  | ok
  | err (e : Errno)
  | blocked
  | fault
deriving DecidableEq, Repr

/-- The C `struct _qentry` without its `next` link. -/
structure qentry where
  id : Nat
  op : Nat
  data : Nat
  leng : Nat
deriving DecidableEq, Repr

/-- The C `struct _queue`; `entries` stands for the chain `head ... *tail`. -/
structure queue where
  entries : List qentry
  elements : Nat
  size : Nat
  maxsize : Nat
  freewaiting : Nat
  fullwaiting : Nat
  closed : Nat
deriving DecidableEq, Repr

/-- The record `(0,0,NULL,0)` stored in the out-parameters on failure. -/
def qentry_zero : qentry := ⟨0, 0, 0, 0⟩

def queue_new (size : Nat) : queue :=
  { entries := [], elements := 0, size := 0, maxsize := size,
    freewaiting := 0, fullwaiting := 0, closed := 0 }

def queue_close (q : queue) : queue :=
  { q with closed := 1, freewaiting := 0, fullwaiting := 0 }

def queue_isempty (q : queue) : Nat :=
  if q.elements = 0 then 1 else 0

def queue_elements (q : queue) : Nat := q.elements

def queue_isfull (q : queue) : Nat :=
  if q.maxsize > 0 ∧ q.maxsize ≤ q.size then 1 else 0

def queue_sizeleft (q : queue) : Nat :=
  if q.maxsize > 0 then (q.maxsize + U32 - q.size) % U32 else 0xFFFFFFFF

/-- The common tail of `queue_put` and `queue_tryput`: link the new entry
behind `*tail`, bump the counters, wake one waiting consumer. -/
def queue_link (q : queue) (qe : qentry) : queue :=
  { q with
    elements := (q.elements + 1) % U32
    size := (q.size + qe.leng) % U32
    entries := q.entries ++ [qe]
    freewaiting := if q.freewaiting > 0 then q.freewaiting - 1 else q.freewaiting }

def queue_put (q : queue) (id op data leng : Nat) : queue × Outcome :=
  if q.maxsize ≠ 0 then
    if leng > q.maxsize then
      (q, Outcome.err Errno.EDEADLK)
    else if (q.size + leng) % U32 > q.maxsize ∧ q.closed = 0 then
      ({ q with fullwaiting := (q.fullwaiting + 1) % U32 }, Outcome.blocked)
    else if q.closed ≠ 0 then
      (q, Outcome.err Errno.EIO)
    else
      (queue_link q ⟨id, op, data, leng⟩, Outcome.ok)
  else
    (queue_link q ⟨id, op, data, leng⟩, Outcome.ok)

def queue_tryput (q : queue) (id op data leng : Nat) : queue × Outcome :=
  if q.maxsize ≠ 0 then
    if leng > q.maxsize then
      (q, Outcome.err Errno.EDEADLK)
    else if (q.size + leng) % U32 > q.maxsize then
      (q, Outcome.err Errno.EBUSY)
    else
      (queue_link q ⟨id, op, data, leng⟩, Outcome.ok)
  else
    (queue_link q ⟨id, op, data, leng⟩, Outcome.ok)

/-- The common tail of `queue_get` and `queue_tryget`: unlink the head entry,
lower the counters, wake one waiting producer. With a `NULL` head the C code
dereferences it: `Outcome.fault`. -/
def queue_unlink (q : queue) : queue × Outcome × qentry :=
  match q.entries with
  | [] => (q, Outcome.fault, qentry_zero)
  | qe :: rest =>
    ({ q with
       entries := rest
       elements := (q.elements + U32 - 1) % U32
       size := (q.size + U32 - qe.leng % U32) % U32
       fullwaiting := if q.fullwaiting > 0 then q.fullwaiting - 1 else q.fullwaiting },
     Outcome.ok, qe)

def queue_get (q : queue) : queue × Outcome × qentry :=
  if q.elements = 0 ∧ q.closed = 0 then
    ({ q with freewaiting := (q.freewaiting + 1) % U32 }, Outcome.blocked, qentry_zero)
  else if q.closed ≠ 0 then
    (q, Outcome.err Errno.EIO, qentry_zero)
  else
    queue_unlink q

def queue_tryget (q : queue) : queue × Outcome × qentry :=
  if q.elements = 0 then
    (q, Outcome.err Errno.EBUSY, qentry_zero)
  else
    queue_unlink q

/-- One call of the queue interface by some thread. -/
inductive QCall where
  | put (id op data leng : Nat)
  | tryput (id op data leng : Nat)
  | get
  | tryget
  | close
deriving DecidableEq, Repr

/-- What a call reports: its outcome and, for the getters, the record stored
in the out-parameters. -/
structure QEvent where
  call : QCall
  outcome : Outcome
  out : qentry
deriving DecidableEq, Repr

def queue_call (q : queue) : QCall → queue × QEvent
  | QCall.put id op data leng =>
    let r := queue_put q id op data leng
    (r.1, ⟨QCall.put id op data leng, r.2, qentry_zero⟩)
  | QCall.tryput id op data leng =>
    let r := queue_tryput q id op data leng
    (r.1, ⟨QCall.tryput id op data leng, r.2, qentry_zero⟩)
  | QCall.get =>
    let r := queue_get q
    (r.1, ⟨QCall.get, r.2.1, r.2.2⟩)
  | QCall.tryget =>
    let r := queue_tryget q
    (r.1, ⟨QCall.tryget, r.2.1, r.2.2⟩)
  | QCall.close => (queue_close q, ⟨QCall.close, Outcome.ok, qentry_zero⟩)

/-- Run a sequence of calls, one after the other under the queue lock. -/
def queue_run (q : queue) : List QCall → queue × List QEvent
  | [] => (q, [])
  | c :: cs =>
    let r := queue_call q c
    let rs := queue_run r.1 cs
    (rs.1, r.2 :: rs.2)

/-- The record handed in by a put that returned `0`. -/
def QEvent.putRecord (e : QEvent) : Option qentry :=
  match e.call, e.outcome with
  | QCall.put id op data leng, Outcome.ok => some ⟨id, op, data, leng⟩
  | QCall.tryput id op data leng, Outcome.ok => some ⟨id, op, data, leng⟩
  | _, _ => none

/-- The record handed out by a get that returned `0`. -/
def QEvent.getRecord (e : QEvent) : Option qentry :=
  match e.call, e.outcome with
  | QCall.get, Outcome.ok => some e.out
  | QCall.tryget, Outcome.ok => some e.out
  | _, _ => none

/-- Sum of the lengths of the entries held, as an unbounded integer. -/
def queue_held (q : queue) : Nat := (q.entries.map qentry.leng).sum

/-- The aggregate-size invariant of a bounded queue. -/
def queue_size_inv (q : queue) : Prop := q.size = queue_held q ∧ queue_held q ≤ q.maxsize

/-! ## bgjobs.c -/

def JHASHSIZE : Nat := 0x400

/-- The C macro `JHASHPOS(id)`. -/
def JHASHPOS (id : Nat) : Nat := id &&& 0x3FF

def JSTATE_DISABLED : Nat := 0
def JSTATE_ENABLED : Nat := 1
def JSTATE_INPROGRESS : Nat := 2

def OP_EXIT : Nat := 0
def OP_INVAL : Nat := 1
def OP_CHUNKOP : Nat := 2
def OP_SERV_READ : Nat := 3
def OP_SERV_WRITE : Nat := 4
def OP_REPLICATE : Nat := 5
def OP_GETBLOCKS : Nat := 6
def OP_GETCHECKSUM : Nat := 7
def OP_GETCHECKSUMTAB : Nat := 8
def OP_CHUNKMOVE : Nat := 9

/-- The C `struct _job` without its `next` link; `callback` is a function
pointer (`0` is `NULL`), `extra` and `args` are pointers. -/
structure job where
  jobid : Nat
  callback : Nat
  extra : Nat
  args : Nat
  jstate : Nat
deriving DecidableEq, Repr

/-- The C `struct _jobpool`. `jobhash b` is the chain of bucket `b` as the
list of the addresses of its jobs, head first; `heap p` is the content of the
`job` block at address `p`; `pipe` holds the bytes written to `wpipe` and not
yet read from `rpipe`. Mutexes, the condition variable and `fdpdescpos` are
left out. `free` is not modelled: a freed block keeps its content and is no
longer referenced by any chain. -/
structure jobpool where
  pipe : List Nat
  workers_max : Nat
  workers_himark : Nat
  workers_lomark : Nat
  workers_max_idle : Nat
  workers_avail : Nat
  workers_total : Nat
  workers_term_waiting : Nat
  jobqueue : queue
  statusqueue : queue
  jobhash : Nat → List Nat
  heap : Nat → job
  nextjobid : Nat

/-- One invocation `callback(status,extra)` of a job's completion callback. -/
structure CbCall where
  callback : Nat
  status : Nat
  extra : Nat
deriving DecidableEq, Repr

/-- One call of a collaborator from the worker's `switch`: the operation that
selects the collaborator and the job's `args` block it is applied to. -/
structure OpCall where
  op : Nat
  args : Nat
deriving DecidableEq, Repr

/-- The code outside `bgjobs.c` that the worker relies on: the two status
constants of `MFSCommunication.h` and the collaborators called by the
`switch`, each a function from the job's `args` block to its return value. -/
structure Collab where
  MFS_ERROR_EINVAL : Nat
  MFS_ERROR_NOTDONE : Nat
  hdd_chunkop : Nat → Nat
  mainserv_read : Nat → Nat
  mainserv_write : Nat → Nat
  replicate : Nat → Nat
  hdd_get_blocks : Nat → Nat
  hdd_get_checksum : Nat → Nat
  hdd_get_checksum_tab : Nat → Nat
  hdd_move : Nat → Nat

/-- The C `job_send_status`: a wake byte is written when the status queue is
empty, then the status is queued. The return value of `queue_put` is not
tested; on the unbounded status queue it always links the record. -/
def job_send_status (jp : jobpool) (jobid status : Nat) : jobpool :=
  { jp with
    pipe := if queue_isempty jp.statusqueue ≠ 0 then jp.pipe ++ [status] else jp.pipe
    statusqueue := (queue_put jp.statusqueue jobid status 0 1).1 }

/-- Result of `job_receive_status`: the pool, the return value (`1` = not
last), and the two out-parameters. -/
structure StatusMsg where
  jp : jobpool
  notlast : Nat
  jobid : Nat
  status : Nat

/-- The C `job_receive_status`; `none` when the call does not return: the
`queue_get` blocks or faults, or the `read` finds the pipe empty. The return
value of `queue_get` is not tested, so its failure yields the zero record. -/
def job_receive_status (jp : jobpool) : Option StatusMsg :=
  let r := queue_get jp.statusqueue
  match r.2.1 with
  | Outcome.blocked => none
  | Outcome.fault => none
  | _ =>
    if queue_isempty r.1 ≠ 0 then
      match jp.pipe with
      | [] => none
      | _ :: rest =>
        some ⟨{ jp with statusqueue := r.1, pipe := rest }, 0, r.2.2.id, r.2.2.op % 256⟩
    else
      some ⟨{ jp with statusqueue := r.1 }, 1, r.2.2.id, r.2.2.op % 256⟩

/-- The C `job_spawn_worker`; `created` tells whether `lwt_minthread_create`
succeeded. -/
def job_spawn_worker (jp : jobpool) (created : Bool) : jobpool :=
  if created then
    { jp with
      workers_avail := (jp.workers_avail + 1) % U32
      workers_total := (jp.workers_total + 1) % U32 }
  else jp

def job_close_worker (jp : jobpool) : jobpool :=
  { jp with
    workers_avail := (jp.workers_avail + U32 - 1) % U32
    workers_total := (jp.workers_total + U32 - 1) % U32
    workers_term_waiting :=
      if (jp.workers_total + U32 - 1) % U32 = 0 ∧ jp.workers_term_waiting ≠ 0
      then (jp.workers_term_waiting + U32 - 1) % U32 else jp.workers_term_waiting }

/-- The walk `while ((jptr = *jhandle))` over a bucket chain shared by
`job_new` and `job_pool_check_jobs`: the first job whose `jobid` matches, if
any, and the chain with that job unlinked. -/
def job_unlink (heap : Nat → job) (jobid : Nat) : List Nat → Option Nat × List Nat
  | [] => (none, [])
  | p :: ps =>
    if (heap p).jobid = jobid then (some p, ps)
    else ((job_unlink heap jobid ps).1, p :: (job_unlink heap jobid ps).2)

/-- What the dequeued record makes of the worker (first half of one turn of
the loop of `job_worker`). -/
inductive Taken where
  | retired
  | running (jstate : Nat)
deriving DecidableEq, Repr

/-- The worker counters in `job_worker` once a record has been taken:
`workers_avail--`, and a new worker when none is left available and the pool
is below `workers_max`. -/
def job_worker_occupy (jp : jobpool) (created : Bool) : jobpool :=
  if (jp.workers_avail + U32 - 1) % U32 = 0 ∧ jp.workers_total < jp.workers_max then
    job_spawn_worker { jp with workers_avail := (jp.workers_avail + U32 - 1) % U32 } created
  else { jp with workers_avail := (jp.workers_avail + U32 - 1) % U32 }

/-- The read of the job's state in `job_worker` and the promotion of an
Enabled job to InProgress; a `NULL` job counts as Disabled. Returns the local
`jstate`. -/
def job_worker_promote (jp : jobpool) (jptr : Nat) : jobpool × Nat :=
  if jptr ≠ 0 then
    if (jp.heap jptr).jstate = JSTATE_ENABLED then
      ({ jp with
          heap := (Function.update jp.heap jptr
            { jp.heap jptr with jstate := JSTATE_INPROGRESS }) },
        (jp.heap jptr).jstate)
    else (jp, (jp.heap jptr).jstate)
  else (jp, JSTATE_DISABLED)

/-- The C `job_worker` from after `queue_get` to the `switch`: the section
under `jobslock` for the dequeued record `(jobid,op,jptr)`. -/
def job_worker_take (jp : jobpool) (jobid op jptr : Nat) (created : Bool) : jobpool × Taken :=
  if jobid = 0 ∧ op = 0 ∧ jptr = 0 then
    (job_close_worker jp, Taken.retired)
  else
    ((job_worker_promote (job_worker_occupy jp created) jptr).1,
      Taken.running (job_worker_promote (job_worker_occupy jp created) jptr).2)

/-- One arm of the `switch` for a data-touching operation. -/
def job_worker_arm (c : Collab) (f : Nat → Nat) (op jstate args : Nat) : Nat × List OpCall :=
  if jstate = JSTATE_DISABLED then (c.MFS_ERROR_NOTDONE % 256, [])
  else (f args % 256, [⟨op, args⟩])

/-- The `switch (op)` of `job_worker`: the `uint8_t status` it computes and the
collaborator calls it makes, `none` for the `default` arm (the worker
retires). `args` is `jptr->args`. -/
def job_worker_switch (c : Collab) (op jstate args : Nat) : Option (Nat × List OpCall) :=
  match op with
  | 1 => some (c.MFS_ERROR_EINVAL % 256, [])
  | 2 => some (job_worker_arm c c.hdd_chunkop op jstate args)
  | 3 => some (job_worker_arm c c.mainserv_read op jstate args)
  | 4 => some (job_worker_arm c c.mainserv_write op jstate args)
  | 5 => some (job_worker_arm c c.replicate op jstate args)
  | 6 => some (job_worker_arm c c.hdd_get_blocks op jstate args)
  | 7 => some (job_worker_arm c c.hdd_get_checksum op jstate args)
  | 8 => some (job_worker_arm c c.hdd_get_checksum_tab op jstate args)
  | 9 => some (job_worker_arm c c.hdd_move op jstate args)
  | _ => none

/-- The C `job_worker` after the `switch`: report the status, become available
again, retire when too many workers are idle. The flag tells whether the
worker goes on. -/
def job_worker_done (jp : jobpool) (jobid status : Nat) : jobpool × Bool :=
  let jp1 := job_send_status jp jobid status
  let jp2 := { jp1 with workers_avail := (jp1.workers_avail + 1) % U32 }
  if jp2.workers_avail > jp2.workers_max_idle then (job_close_worker jp2, false)
  else (jp2, true)

/-- The C `job_new`; `jptr` is the block returned by `malloc(sizeof(job))`. -/
def job_new (jp : jobpool) (op args callback extra errstatus returnonfull jptr : Nat) :
    jobpool × Nat :=
  let jobid := jp.nextjobid
  let jhpos := JHASHPOS jobid
  let jp1 := { jp with
    nextjobid := if (jp.nextjobid + 1) % U32 = 0 then 1 else (jp.nextjobid + 1) % U32
    heap := Function.update jp.heap jptr ⟨jobid, callback, extra, args, JSTATE_ENABLED⟩
    jobhash := Function.update jp.jobhash jhpos (jptr :: jp.jobhash jhpos) }
  let r := queue_tryput jp1.jobqueue jobid op jptr 1
  let jp2 := { jp1 with jobqueue := r.1 }
  if r.2 ≠ Outcome.ok then
    if returnonfull ≠ 0 then
      ({ jp2 with
          jobhash := (Function.update jp2.jobhash jhpos
            (job_unlink jp2.heap jobid (jp2.jobhash jhpos)).2) }, 0)
    else
      (job_send_status jp2 jobid errstatus, jobid)
  else
    (jp2, jobid)

/-- The C `job_pool_new`; the fields it leaves uninitialised (`workers_max`,
the two marks, `workers_max_idle`, the content of the heap) are taken from
`junk`. -/
def job_pool_new (junk : jobpool) (jobs : Nat) (created : Bool) : jobpool :=
  job_spawn_worker
    { junk with
      pipe := []
      workers_avail := 0
      workers_total := 0
      workers_term_waiting := 0
      jobqueue := queue_new jobs
      statusqueue := queue_new 0
      jobhash := fun _ => []
      nextjobid := 1 }
    created

def job_pool_jobs_count (jp : jobpool) : Nat :=
  ((jp.workers_total + U32 - jp.workers_avail) % U32 + queue_elements jp.jobqueue) % U32

/-- The loop body of `job_pool_disable_job` for the job at `p`. -/
def job_disable_at (jobid : Nat) (heap : Nat → job) (p : Nat) : Nat → job :=
  if (heap p).jobid = jobid ∧ (heap p).jstate = JSTATE_ENABLED then
    Function.update heap p { heap p with jstate := JSTATE_DISABLED }
  else heap

def job_pool_disable_job (jp : jobpool) (jobid : Nat) : jobpool :=
  { jp with heap := (jp.jobhash (JHASHPOS jobid)).foldl (job_disable_at jobid) jp.heap }

/-- The loop body of `job_pool_change_callback` for the job at `p`. -/
def job_rebind_at (jobid callback extra : Nat) (heap : Nat → job) (p : Nat) : Nat → job :=
  if (heap p).jobid = jobid then
    Function.update heap p { heap p with callback := callback, extra := extra }
  else heap

def job_pool_change_callback (jp : jobpool) (jobid callback extra : Nat) : jobpool :=
  { jp with heap := (jp.jobhash (JHASHPOS jobid)).foldl (job_rebind_at jobid callback extra) jp.heap }

/-- The body of the `do ... while` of `job_pool_check_jobs` after
`job_receive_status`: walk the bucket of `jobid`, call the callback of the
first job with that id when `cb` and the callback are non-zero, unlink it. -/
def job_check_one (cb : Nat) (jp : jobpool) (jobid status : Nat) : jobpool × List CbCall :=
  match job_unlink jp.heap jobid (jp.jobhash (JHASHPOS jobid)) with
  | (none, _) => (jp, [])
  | (some p, chain) =>
    ({ jp with jobhash := Function.update jp.jobhash (JHASHPOS jobid) chain },
     if (jp.heap p).callback ≠ 0 ∧ cb ≠ 0 then
       [⟨(jp.heap p).callback, status, (jp.heap p).extra⟩]
     else [])

/-- The `do ... while (notlast)` of `job_pool_check_jobs`, at most `fuel`
turns; `none` when `job_receive_status` does not return or the turns are used
up. -/
def job_check_loop (cb : Nat) : Nat → jobpool → Option (jobpool × List CbCall)
  | 0, _ => none
  | fuel + 1, jp =>
    match job_receive_status jp with
    | none => none
    | some m =>
      let r := job_check_one cb m.jp m.jobid m.status
      if m.notlast ≠ 0 then
        match job_check_loop cb fuel r.1 with
        | none => none
        | some rs => some (rs.1, r.2 ++ rs.2)
      else some r

/-- The C `job_pool_check_jobs`. Every turn but one that finds the queue
closed takes an entry off the status queue, so one turn more than there are
entries is all a terminating run can use. -/
def job_pool_check_jobs (cb : Nat) (jp : jobpool) : Option (jobpool × List CbCall) :=
  job_check_loop cb (jp.statusqueue.entries.length + 1) jp

/-- The C `job_heavyload_test`: the arguments `(load,hlstatus)` of the call of
`masterconn_heavyload`, `none` when it is not called. -/
def job_heavyload_test (jp : jobpool) : Option (Nat × Nat) :=
  let busy := (jp.workers_total + U32 - jp.workers_avail) % U32
  let hl1 := if busy > jp.workers_himark then 2 else 0
  let hlstatus := if busy < jp.workers_lomark then 1 else hl1
  if hlstatus ≠ 0 then some ((busy + queue_elements jp.jobqueue) % U32, hlstatus)
  else none

/-- The C `job_reload`; `cfg_max` and `cfg_idle` are the values of
`WORKERS_MAX` and `WORKERS_MAX_IDLE` returned by `cfg_getuint32`. -/
def job_reload (jp : jobpool) (cfg_max cfg_idle : Nat) : jobpool :=
  { jp with
    workers_max := cfg_max
    workers_himark := (cfg_max * 3) % U32 / 4
    workers_lomark := (cfg_max * 2) % U32 / 4
    workers_max_idle := cfg_idle }

/-- The part of `job_init` that builds the pool: `job_pool_new` on the
configured queue length, then `job_reload`. -/
def job_init (junk : jobpool) (cfg_queue cfg_max cfg_idle : Nat) (created : Bool) : jobpool :=
  job_reload (job_pool_new junk cfg_queue created) cfg_max cfg_idle

/-- The work queue has no room for one more job: the admission test of
`queue_tryput` for a record of length `1` fails (`size + 1 > maxsize` as the
queue computes it, on a bounded queue). -/
def jobqueue_full (jp : jobpool) : Prop :=
  jp.jobqueue.maxsize ≠ 0 ∧ (jp.jobqueue.size + 1) % U32 > jp.jobqueue.maxsize

instance (jp : jobpool) : Decidable (jobqueue_full jp) := by
  unfold jobqueue_full; infer_instance

/-- A pool with no jobs, used to write down concrete states. -/
def jobpool_empty : jobpool :=
  { pipe := [], workers_max := 0, workers_himark := 0, workers_lomark := 0,
    workers_max_idle := 0, workers_avail := 0, workers_total := 0,
    workers_term_waiting := 0, jobqueue := queue_new 0, statusqueue := queue_new 0,
    jobhash := fun _ => [], heap := fun _ => ⟨0, 0, 0, 0, 0⟩, nextjobid := 1 }

/-- The collaborator that the operation kind stands for: `hdd_chunkop` for
ChunkOp, `mainserv_read`/`mainserv_write` for ServRead/ServWrite, `replicate`
for Replicate, `hdd_get_blocks`, `hdd_get_checksum`, `hdd_get_checksum_tab` for
GetBlocks, GetChecksum, GetChecksumTab and `hdd_move` for ChunkMove. -/
def Collab.forOp (c : Collab) (op : Nat) : Nat → Nat :=
  if op = OP_CHUNKOP then c.hdd_chunkop
  else if op = OP_SERV_READ then c.mainserv_read
  else if op = OP_SERV_WRITE then c.mainserv_write
  else if op = OP_REPLICATE then c.replicate
  else if op = OP_GETBLOCKS then c.hdd_get_blocks
  else if op = OP_GETCHECKSUM then c.hdd_get_checksum
  else if op = OP_GETCHECKSUMTAB then c.hdd_get_checksum_tab
  else c.hdd_move

/-- The operation kinds that touch data: every kind but Exit and Inval. -/
def op_touches_data (op : Nat) : Prop := OP_CHUNKOP ≤ op ∧ op ≤ OP_CHUNKMOVE

instance (op : Nat) : Decidable (op_touches_data op) := by
  unfold op_touches_data; infer_instance

/-- Busy workers as `job_heavyload_test` and `job_pool_jobs_count` compute
them: `workers_total - workers_avail` in 32 bits. -/
def workers_busy (jp : jobpool) : Nat := (jp.workers_total + U32 - jp.workers_avail) % U32

/-- Collaborators used to write down concrete runs: each returns a status
byte of its own. -/
def collab_sample : Collab :=
  { MFS_ERROR_EINVAL := 6, MFS_ERROR_NOTDONE := 16,
    hdd_chunkop := fun _ => 20, mainserv_read := fun _ => 21, mainserv_write := fun _ => 22,
    replicate := fun _ => 23, hdd_get_blocks := fun _ => 24, hdd_get_checksum := fun _ => 25,
    hdd_get_checksum_tab := fun _ => 26, hdd_move := fun _ => 27 }

/-- What the status path relies on: the status queue is open, its
`elements` field counts its entries, and a wake byte is in the pipe whenever
an entry is queued. -/
def status_path_ok (jp : jobpool) : Prop :=
  jp.statusqueue.closed = 0 ∧
  jp.statusqueue.elements = jp.statusqueue.entries.length ∧
  jp.statusqueue.entries.length < U32 ∧
  (jp.statusqueue.entries ≠ [] → jp.pipe ≠ [])

/-- One drained status in the words of the specification: find the job with
that id in the hash index; if there is one, invoke its callback with the
status and the job's `extra` when delivery is requested and a callback is
set, and unlink the job. -/
def poll_check_step (cb : Nat) (heap : Nat → job) (hash : Nat → List Nat) (e : qentry) :
    (Nat → List Nat) × List CbCall :=
  match (hash (JHASHPOS e.id)).find? (fun p => decide ((heap p).jobid = e.id)) with
  | none => (hash, [])
  | some p =>
    (Function.update hash (JHASHPOS e.id) ((hash (JHASHPOS e.id)).erase p),
     if cb ≠ 0 ∧ (heap p).callback ≠ 0 then [⟨(heap p).callback, e.op % 256, (heap p).extra⟩]
     else [])

/-- The drain in the words of the specification: the statuses are taken in
queue order, each handled by `poll_check_step` on the index the earlier ones
left. -/
def poll_check_spec (cb : Nat) (heap : Nat → job) :
    (Nat → List Nat) → List qentry → (Nat → List Nat) × List CbCall
  | hash, [] => (hash, [])
  | hash, e :: es =>
    ((poll_check_spec cb heap (poll_check_step cb heap hash e).1 es).1,
     (poll_check_step cb heap hash e).2
       ++ (poll_check_spec cb heap (poll_check_step cb heap hash e).1 es).2)

/-- A pool holding one Enabled job: id 5 at address 100 in bucket 5, with
callback 70, extra 80 and args 60. -/
def jobpool_one_job : jobpool :=
  { jobpool_empty with
    jobhash := fun b => if b = 5 then [100] else []
    heap := fun p => if p = 100 then ⟨5, 70, 80, 60, 1⟩ else ⟨0, 0, 0, 0, 0⟩
    nextjobid := 6 }

/-- A pool whose work queue of capacity 1 holds one job record, with an
empty status queue and `nextjobid = 2`. -/
def jobpool_full_queue : jobpool :=
  { jobpool_empty with
    jobqueue := (queue_tryput (queue_new 1) 1 3 50 1).1
    nextjobid := 2 }

/-! ## main.c -/

/-- Modulus of `uint64_t` arithmetic. -/
def U64 : Nat := 2 ^ 64

/-- The C `struct timeentry` without its `next` link; `func` is the field
`fun`. -/
structure timeentry where
  nextevent : Nat
  useconds : Nat
  usecoffset : Nat
  func : Nat
deriving DecidableEq, Repr

/-- The registration lists of `main.c`, each the chain from its head, and the
loop variables of `mainloop` that live across iterations. Entries of
`pollhead` are `(desc,serve)`, entries of `chldhead` are `(pid,fun)`. -/
structure mainstate where
  dehead : List Nat
  wehead : List Nat
  cehead : List Nat
  rlhead : List Nat
  inhead : List Nat
  kahead : List Nat
  pollhead : List (Nat × Nat)
  eloophead : List Nat
  chldhead : List (Nat × Nat)
  timehead : List timeentry
  usecnow : Nat
  prevtime : Nat
  t : Nat
  r : Nat
deriving DecidableEq, Repr

/-- The state at the start of `main`: every list head is `NULL`; `mainloop`
starts with `prevtime = 0`, `t = 0`, `r = 0`. -/
def mainstate_init : mainstate :=
  { dehead := [], wehead := [], cehead := [], rlhead := [], inhead := [], kahead := [],
    pollhead := [], eloophead := [], chldhead := [], timehead := [],
    usecnow := 0, prevtime := 0, t := 0, r := 0 }

def main_destruct_register (s : mainstate) (f : Nat) : mainstate :=
  { s with dehead := f :: s.dehead }

def main_canexit_register (s : mainstate) (f : Nat) : mainstate :=
  { s with cehead := f :: s.cehead }

def main_wantexit_register (s : mainstate) (f : Nat) : mainstate :=
  { s with wehead := f :: s.wehead }

def main_reload_register (s : mainstate) (f : Nat) : mainstate :=
  { s with rlhead := f :: s.rlhead }

def main_info_register (s : mainstate) (f : Nat) : mainstate :=
  { s with inhead := f :: s.inhead }

def main_keepalive_register (s : mainstate) (f : Nat) : mainstate :=
  { s with kahead := f :: s.kahead }

def main_poll_register (s : mainstate) (desc serve : Nat) : mainstate :=
  { s with pollhead := (desc, serve) :: s.pollhead }

def main_eachloop_register (s : mainstate) (f : Nat) : mainstate :=
  { s with eloophead := f :: s.eloophead }

def main_chld_register (s : mainstate) (pid f : Nat) : mainstate :=
  { s with chldhead := (pid, f) :: s.chldhead }

/-- The loop `while (nextevent <= bound) nextevent += useconds` on `uint64_t`
values, at most `fuel` additions; `none` when they do not suffice. The loops
`while (usecnow >= nextevent)` of `mainloop` are this one with
`bound = usecnow`. -/
def timer_skip : Nat → Nat → Nat → Nat → Option Nat
  | 0, bound, _, ne => if ne ≤ bound then none else some ne
  | fuel + 1, bound, step, ne =>
    if ne ≤ bound then timer_skip fuel bound step ((ne + step) % U64) else some ne

/-- The grid point `((usecnow / useconds) * useconds) + usecoffset`. -/
def timer_grid (usecnow : Nat) (te : timeentry) : Nat :=
  ((usecnow / te.useconds) * te.useconds % U64 + te.usecoffset) % U64

/-- The C `main_msectime_register`: `none` is the `NULL` it returns for a zero
period or an offset not below the period (or when the loop runs out of
`fuel`); otherwise the timer is linked at the head. The loop
`while (nextevent < usecnow)` is `timer_skip` with `bound = usecnow - 1`, and
is not entered when `usecnow = 0`. -/
def main_msectime_register (fuel : Nat) (s : mainstate) (mseconds offset f : Nat) :
    Option mainstate :=
  if 1000 * mseconds = 0 ∨ 1000 * offset ≥ 1000 * mseconds then none
  else
    let te0 : timeentry := ⟨0, 1000 * mseconds, 1000 * offset, f⟩
    let ne := if s.usecnow = 0 then some (timer_grid s.usecnow te0)
      else timer_skip fuel (s.usecnow - 1) te0.useconds (timer_grid s.usecnow te0)
    match ne with
    | none => none
    | some n => some { s with timehead := { te0 with nextevent := n } :: s.timehead }

/-- The body of the loop of `mainloop` taken when time went backward
(`usecnow < prevtime`). -/
def timer_rebase_back (fuel prevtime usecnow : Nat) (te : timeentry) : Option timeentry :=
  let ptr0 := (te.nextevent + U64 - prevtime) % U64
  let previous_time_to_run := if ptr0 > te.useconds then te.useconds else ptr0
  match timer_skip fuel ((usecnow + previous_time_to_run) % U64) te.useconds
      (timer_grid usecnow te) with
  | none => none
  | some n => some { te with nextevent := n }

/-- The body of the loop of `mainloop` taken when time went forward by more
than five seconds. -/
def timer_rebase_forward (fuel usecnow : Nat) (te : timeentry) : Option timeentry :=
  match timer_skip fuel usecnow te.useconds (timer_grid usecnow te) with
  | none => none
  | some n => some { te with nextevent := n }

/-- The loop `while (usecnow >= nextevent && eventcounter<10)` with
`n = 10 - eventcounter` turns left: the new `nextevent` and the number of
calls of `fun`. -/
def timer_late : Nat → Nat → Nat → Nat → Nat × Nat
  | 0, _, _, ne => (ne, 0)
  | n + 1, usecnow, step, ne =>
    if ne ≤ usecnow then
      ((timer_late n usecnow step ((ne + step) % U64)).1,
        (timer_late n usecnow step ((ne + step) % U64)).2 + 1)
    else (ne, 0)

/-- The body of the timer loop of `mainloop` for one timer: the timer
afterwards and the number of times its `fun` was called. -/
def timer_pass (fuel usecnow : Nat) (te : timeentry) : Option (timeentry × Nat) :=
  if te.nextevent ≤ usecnow then
    if (timer_late 10 usecnow te.useconds te.nextevent).1 ≤ usecnow then
      match timer_skip fuel usecnow te.useconds (timer_grid usecnow te) with
      | none => none
      | some n =>
        some ({ te with nextevent := n }, (timer_late 10 usecnow te.useconds te.nextevent).2)
    else
      some ({ te with nextevent := (timer_late 10 usecnow te.useconds te.nextevent).1 },
        (timer_late 10 usecnow te.useconds te.nextevent).2)
  else some (te, 0)

/-- The clock-jump part of one turn of `mainloop` for one timer: rebase after
a backward jump, rebase after a forward jump of more than five seconds,
nothing otherwise. -/
def timer_rebase (fuel prevtime usecnow : Nat) (te : timeentry) : Option timeentry :=
  if usecnow < prevtime then timer_rebase_back fuel prevtime usecnow te
  else if usecnow > (prevtime + 5000000) % U64 then timer_rebase_forward fuel usecnow te
  else some te

/-- What `mainloop` does to one timer in one turn: the rebase, then the timer
pass. -/
def timer_turn (fuel prevtime usecnow : Nat) (te : timeentry) : Option (timeentry × Nat) :=
  match timer_rebase fuel prevtime usecnow te with
  | none => none
  | some te1 => timer_pass fuel usecnow te1

/-- A timer as `main_msectime_register` makes it: period not zero, offset
below the period. -/
def timer_ok (te : timeentry) : Prop := 0 < te.useconds ∧ te.usecoffset < te.useconds

instance (te : timeentry) : Decidable (timer_ok te) := by
  unfold timer_ok; infer_instance

/-- A call made by `mainloop` (or `destruct`) through a registered function
pointer, or its call of `cfg_reload`. -/
inductive MainEv where
  | desc (f : Nat)
  | serve (f : Nat)
  | eachloop (f : Nat)
  | timer (f : Nat)
  | chld (f status : Nat)
  | cfg_reload
  | reload (f : Nat)
  | info (f : Nat)
  | wantexit (f : Nat)
  | canexit (f : Nat)
  | destruct (f : Nat)
deriving DecidableEq, Repr

/-- How `poll` returned in one turn of `mainloop`: the three cases of `i<0`
(`errno` is `EAGAIN`, is `EINTR`, is anything else), or `i>=0` with the byte
read from the signal pipe when `POLLIN` was set on it and `read` returned 1. -/
inductive PollResult where
  | eagain
  | eintr
  | failed
  | ready (sigid : Option Nat)
deriving DecidableEq, Repr

/-- What one turn of `mainloop` takes from outside: the result of `poll`, the
clock read by `gettimeofday` as `tv_sec*1000000+tv_usec`, the value each
can-exit hook returns (by position in the chain), and the `(pid,status)`
pairs `waitpid` returns. -/
structure LoopInput where
  poll : PollResult
  clock : Nat
  canexit : Nat → Nat
  reaped : List (Nat × Nat)

/-- The C `destruct`: the calls it makes, in order. -/
def destruct (s : mainstate) : List MainEv := s.dehead.map MainEv.destruct

/-- The chain of tests on `sigid` in `mainloop`: the new `(t,r)`. -/
def mainloop_signal (t r sigid : Nat) : Nat × Nat :=
  if sigid = 1 ∧ t = 0 then (1, r)
  else if sigid = 2 then (t, 1)
  else if sigid = 3 then (t, 2)
  else if sigid = 4 then (t, 3)
  else if sigid = 5 then (t, r)
  else if sigid = 6 then (1, r)
  else (t, r)

/-- The rebase loops of `mainloop` over the whole timer chain. -/
def timers_rebase (fuel prevtime usecnow : Nat) : List timeentry → Option (List timeentry)
  | [] => some []
  | te :: rest =>
    match timer_rebase fuel prevtime usecnow te, timers_rebase fuel prevtime usecnow rest with
    | some te1, some rest1 => some (te1 :: rest1)
    | _, _ => none

/-- The timer loop of `mainloop` over the whole timer chain: the timers
afterwards and the calls made. -/
def timers_pass (fuel usecnow : Nat) : List timeentry → Option (List timeentry × List MainEv)
  | [] => some ([], [])
  | te :: rest =>
    match timer_pass fuel usecnow te, timers_pass fuel usecnow rest with
    | some r, some rs =>
      some (r.1 :: rs.1, List.replicate r.2 (MainEv.timer te.func) ++ rs.2)
    | _, _ => none

/-- The timer part of one turn of `mainloop`: the rebase loop over the chain
(when the clock jumped), then the timer loop. -/
def timers_turn (fuel prevtime usecnow : Nat) (ts : List timeentry) :
    Option (List timeentry × List MainEv) :=
  match timers_rebase fuel prevtime usecnow ts with
  | none => none
  | some ts1 => timers_pass fuel usecnow ts1

/-- The timer part of a turn does not return: whatever number of additions is
allowed to each of its loops, the rebase and the pass do not end. -/
def timers_turn_hangs (prevtime usecnow : Nat) (ts : List timeentry) : Prop :=
  ∀ fuel, timers_turn fuel prevtime usecnow ts = none

/-- The walk over `chldhead` for one reaped child: matching entries are called
and unlinked. -/
def chld_reap (chain : List (Nat × Nat)) (pid status : Nat) : List (Nat × Nat) × List MainEv :=
  (chain.filter (fun e => decide (e.1 ≠ pid)),
   (chain.filter (fun e => decide (e.1 = pid))).map (fun e => MainEv.chld e.2 status))

/-- The `while ((pid = waitpid(...)) > 0)` loop. -/
def chld_reap_all : List (Nat × Nat) → List (Nat × Nat) → List (Nat × Nat) × List MainEv
  | chain, [] => (chain, [])
  | chain, (pid, status) :: rest =>
    ((chld_reap_all (chld_reap chain pid status).1 rest).1,
     (chld_reap chain pid status).2 ++ (chld_reap_all (chld_reap chain pid status).1 rest).2)

/-- The loop over `cehead` at `t==2`: the final `i` and the hooks called; it
stops behind the first hook that returns 0. -/
def canexit_walk (answers : Nat → Nat) : Nat → List Nat → Bool × List MainEv
  | _, [] => (true, [])
  | k, f :: fs =>
    if answers k = 0 then (false, [MainEv.canexit f])
    else ((canexit_walk answers (k + 1) fs).1, MainEv.canexit f :: (canexit_walk answers (k + 1) fs).2)

/-- The end of one turn of `mainloop`, from `if (r==2)` on: child handlers,
reload and info hooks, want-exit hooks, can-exit hooks. -/
def mainloop_hooks (s : mainstate) (inp : LoopInput) : mainstate × List MainEv :=
  let c := if s.r = 2 then chld_reap_all s.chldhead inp.reaped else (s.chldhead, [])
  let r1 := if s.r = 2 then 0 else s.r
  let rl : List MainEv :=
    if s.t = 0 then
      if r1 = 1 then MainEv.cfg_reload :: s.rlhead.map MainEv.reload
      else if r1 = 3 then s.inhead.map MainEv.info
      else []
    else []
  let r2 := if s.t = 0 ∧ (r1 = 1 ∨ r1 = 3) then 0 else r1
  let we : List MainEv := if s.t = 1 then s.wehead.map MainEv.wantexit else []
  let t1 := if s.t = 1 then 2 else s.t
  let ce := if t1 = 2 then canexit_walk inp.canexit 0 s.cehead else (false, [])
  let t2 := if t1 = 2 ∧ ce.1 = true then 3 else t1
  ({ s with chldhead := c.1, r := r2, t := t2 }, c.2 ++ rl ++ we ++ ce.2)

/-- Result of one turn of `mainloop`. -/
structure LoopTurn where
  state : mainstate
  events : List MainEv
  stop : Bool

/-- One turn of the `while (t!=3)` loop of `mainloop`; `stop` is the `break`
on a `poll` error; `none` when a timer loop does not end within `fuel`
additions. Callbacks are calls only: they do not change the loop's state. -/
def mainloop_turn (fuel : Nat) (s : mainstate) (inp : LoopInput) : Option LoopTurn :=
  let descs : List MainEv := s.pollhead.map (fun e => MainEv.desc e.1)
  let s1 := { s with usecnow := inp.clock }
  match inp.poll with
  | PollResult.eagain => some ⟨s1, descs, false⟩
  | PollResult.failed => some ⟨s1, descs, true⟩
  | p =>
    let tr := match p with
      | PollResult.ready (some sigid) => mainloop_signal s1.t s1.r sigid
      | _ => (s1.t, s1.r)
    let serves : List MainEv := match p with
      | PollResult.ready _ => s1.pollhead.map (fun e => MainEv.serve e.2)
      | _ => []
    let eloops : List MainEv := s1.eloophead.map MainEv.eachloop
    match timers_turn fuel s1.prevtime s1.usecnow s1.timehead with
    | none => none
    | some tp =>
      let s2 := { s1 with t := tr.1, r := tr.2, timehead := tp.1, prevtime := s1.usecnow }
      some ⟨(mainloop_hooks s2 inp).1,
        descs ++ serves ++ eloops ++ tp.2 ++ (mainloop_hooks s2 inp).2, false⟩

/-- The `while (t!=3)` loop of `mainloop` run on the turns for which inputs are
given. -/
def mainloop_run (fuel : Nat) : mainstate → List LoopInput → Option (mainstate × List MainEv)
  | s, [] => some (s, [])
  | s, inp :: rest =>
    if s.t = 3 then some (s, [])
    else
      match mainloop_turn fuel s inp with
      | none => none
      | some turn =>
        if turn.stop then some (turn.state, turn.events)
        else
          match mainloop_run fuel turn.state rest with
          | none => none
          | some rs => some (rs.1, turn.events ++ rs.2)

/-- The C `mainloop`, which starts from `prevtime = 0`, `t = 0`, `r = 0`. -/
def mainloop (fuel : Nat) (s : mainstate) (inputs : List LoopInput) :
    Option (mainstate × List MainEv) :=
  mainloop_run fuel { s with prevtime := 0, t := 0, r := 0 } inputs

/-! ## metadata.c -/

/-- The bytes of a string literal of the C source. -/
def ascii (s : String) : List Nat := s.toList.map Char.toNat

/-- Modelled from the spec: `put64bit` of `datapack.h`, which is not among the
sources; all multi-byte integers are big-endian. The eight bytes of
`x mod 2^64`, most significant first. -/
def put64bit (x : Nat) : List Nat :=
  [x / 2 ^ 56 % 256, x / 2 ^ 48 % 256, x / 2 ^ 40 % 256, x / 2 ^ 32 % 256,
   x / 2 ^ 24 % 256, x / 2 ^ 16 % 256, x / 2 ^ 8 % 256, x % 256]

/-- Modelled from the spec: `put32bit` of `datapack.h` (big-endian). -/
def put32bit (x : Nat) : List Nat :=
  [x / 2 ^ 24 % 256, x / 2 ^ 16 % 256, x / 2 ^ 8 % 256, x % 256]

/-- The big-endian value of a byte string. -/
def be_value (b : List Nat) : Nat := b.foldl (fun acc x => acc * 256 + x % 256) 0

/-- Modelled from the spec: `get64bit` of `datapack.h`: the big-endian value
of the eight bytes at the pointer. -/
def get64bit (b : List Nat) : Nat := be_value (b.take 8)

/-- Modelled from the spec: `get32bit` of `datapack.h` (big-endian). -/
def get32bit (b : List Nat) : Nat := be_value (b.take 4)

/-- Modelled from the spec: the buffered sink and source `bio` of `bio.c`,
which is not among the sources. `data` is the content of the file (or the
bytes sent so far), `pos` the position of the next byte, `seekable` tells a
file from a socket, `room` is the number of bytes the device still takes
before a write fails, `error` is what `bio_error` returns. -/
structure bio where
  data : List Nat
  pos : Nat
  seekable : Bool
  room : Nat
  error : Nat
deriving DecidableEq, Repr

/-- Modelled from the spec: `bio_file_open(name,BIO_WRITE,...)` when it
succeeds, on a device that takes `room` bytes: an empty file. -/
def bio_file_new (room : Nat) : bio := ⟨[], 0, true, room, 0⟩

/-- Modelled from the spec: `bio_file_open(name,BIO_READ,...)` when it
succeeds, on a file of content `b`. -/
def bio_file_of (b : List Nat) : bio := ⟨b, 0, true, 0, 0⟩

/-- Modelled from the spec: `bio_write`. The bytes are stored at the position
and the position moves behind them; the return value is the number of bytes
written. A write that the device does not take, or any write after an error,
stores nothing, returns 0 and leaves `bio_error` set. -/
def bio_write (fd : bio) (buf : List Nat) : bio × Nat :=
  if fd.error ≠ 0 ∨ fd.room < buf.length then ({ fd with error := 1 }, 0)
  else
    ({ fd with
       data := fd.data.take fd.pos ++ buf ++ fd.data.drop (fd.pos + buf.length)
       pos := fd.pos + buf.length
       room := fd.room - buf.length }, buf.length)

/-- Modelled from the spec: `bio_file_position`, the offset in the file, and 0
for a sink that is not a file. -/
def bio_file_position (fd : bio) : Nat := if fd.seekable then fd.pos else 0

/-- Modelled from the spec: `bio_seek(fd,offset,SEEK_SET)`, without effect on
a sink that is not a file. -/
def bio_seek (fd : bio) (offset : Nat) : bio :=
  if fd.seekable then { fd with pos := offset } else fd

/-- Modelled from the spec: `bio_read`: the bytes read (fewer than `n` at the
end of the data) and the source moved behind them. -/
def bio_read (fd : bio) (n : Nat) : bio × List Nat :=
  ({ fd with pos := fd.pos + ((fd.data.drop fd.pos).take n).length },
   (fd.data.drop fd.pos).take n)

/-- Modelled from the spec: `bio_skip`: the source moved `n` bytes on, not
beyond the end of the data. -/
def bio_skip (fd : bio) (n : Nat) : bio :=
  { fd with pos := min (fd.pos + n) fd.data.length }

/-- Modelled from the spec: `bio_error`. -/
def bio_error (fd : bio) : Nat := fd.error

/-- The thirteen section writers passed to `meta_store_chunk`. -/
inductive StoreFn where
  | sessions_store
  | sclass_store
  | fs_storenodes
  | fs_storeedges
  | fs_storefree
  | fs_storequota
  | xattr_store
  | posix_acl_store
  | of_store
  | flock_store
  | posix_lock_store
  | csdb_store
  | chunk_store
deriving DecidableEq, Repr

/-- The section loaders called by `meta_load`. -/
inductive LoadFn where
  | fs_importnodes
  | fs_loadnodes
  | fs_loadedges
  | fs_loadfree
  | fs_loadquota
  | xattr_load
  | posix_acl_load
  | flock_load
  | posix_lock_load
  | csdb_load
  | sessions_load
  | sclass_load
  | of_load
  | chunk_load
deriving DecidableEq, Repr

/-- What a loader does as far as `meta_load` can see: its return value and
the number of bytes it takes from the source. -/
structure LoadOutcome where
  status : Int
  consumed : Nat
deriving DecidableEq, Repr

/-- The code outside `metadata.c` that the image functions call: for each
section writer the version byte `storefn(NULL)` returns and the bytes
`storefn(fd)` writes; `bio_crc`; for each loader its outcome on a source, for
the argument (`mver`, or `maxnodeid` for `fs_importnodes`) and the ignore
flag it is given; `fs_check_consistency`. -/
structure MetaCollab where
  store_version : StoreFn → Nat
  store_payload : StoreFn → List Nat
  bio_crc : bio → Nat
  load : LoadFn → bio → Nat → Nat → LoadOutcome
  fs_check_consistency : Nat → Int

/-- The version byte `mver = storefn(NULL)` as the `uint8_t` it is. -/
def MetaCollab.mver (c : MetaCollab) (f : StoreFn) : Nat := c.store_version f % 256

/-- The 16 bytes `meta_store_chunk` puts in `hdr` for a section: the name,
`' '`, `'0'+((mver>>4)&0xF)`, `'.'`, `'0'+(mver&0xF)`, and eight bytes `0xFF`. -/
def meta_chunk_hdr (c : MetaCollab) (f : StoreFn) (chunkname : List Nat) : List Nat :=
  chunkname.take 4 ++ [0x20, 0x30 + c.mver f / 16 % 16, 0x2E, 0x30 + c.mver f % 16]
    ++ List.replicate 8 0xFF

/-- The C `meta_store_chunk`; `storefn = none` is the `NULL` that makes it
write the end marker. The return value of `storefn(fd)` is not used. -/
def meta_store_chunk (c : MetaCollab) (fd : bio) (storefn : Option StoreFn)
    (chunkname : List Nat) : bio × Int :=
  match storefn with
  | none =>
    if (bio_write fd (ascii "[MFS EOF MARKER]")).2 ≠ 16 then
      ((bio_write fd (ascii "[MFS EOF MARKER]")).1, -1)
    else ((bio_write fd (ascii "[MFS EOF MARKER]")).1, 0)
  | some f =>
    let offbegin := bio_file_position fd
    let w := bio_write fd (meta_chunk_hdr c f chunkname)
    if w.2 ≠ 16 then (w.1, -1)
    else
      let fd1 := (bio_write w.1 (c.store_payload f)).1
      if offbegin ≠ 0 then
        let offend := bio_file_position fd1
        let w2 := bio_write (bio_seek fd1 ((offbegin + 8) % U64))
          (put64bit ((offend + 2 * U64 - (offbegin + 16)) % U64))
        if w2.2 ≠ 8 then (w2.1, -1) else (bio_seek w2.1 offend, 0)
      else (fd1, 0)

/-- The macro `STORE_CRC(section)` of `meta_store`: with a sidecar, the record
`section | put32bit(bio_crc(fd))` is written to it; the result of that write
is not tested. -/
def STORE_CRC (c : MetaCollab) (fd : bio) (crcfd : Option bio) (sect : List Nat) :
    Option bio :=
  match crcfd with
  | none => none
  | some cf => some (bio_write cf (sect.take 4 ++ put32bit (c.bio_crc fd))).1

/-- The calls `meta_store_chunk(fd,storefn,name)` of `meta_store` in the order
of the source, each with the name its `STORE_CRC` carries; the last one is
the end marker with `STORE_CRC("TAIL")`. -/
def meta_store_plan : List (Option StoreFn × List Nat × List Nat) :=
  [(some StoreFn.sessions_store, ascii "SESS", ascii "SESS"),
   (some StoreFn.sclass_store, ascii "SCLA", ascii "SCLA"),
   (some StoreFn.fs_storenodes, ascii "NODE", ascii "NODE"),
   (some StoreFn.fs_storeedges, ascii "EDGE", ascii "EDGE"),
   (some StoreFn.fs_storefree, ascii "FREE", ascii "FREE"),
   (some StoreFn.fs_storequota, ascii "QUOT", ascii "QUOT"),
   (some StoreFn.xattr_store, ascii "XATR", ascii "XATR"),
   (some StoreFn.posix_acl_store, ascii "PACL", ascii "PACL"),
   (some StoreFn.of_store, ascii "OPEN", ascii "OPEN"),
   (some StoreFn.flock_store, ascii "FLCK", ascii "FLCK"),
   (some StoreFn.posix_lock_store, ascii "PLCK", ascii "PLCK"),
   (some StoreFn.csdb_store, ascii "CSDB", ascii "CSDB"),
   (some StoreFn.chunk_store, ascii "CHNK", ascii "CHNK"),
   (none, [], ascii "TAIL")]

/-- The straight-line sequence `if (meta_store_chunk(...)<0) return;
STORE_CRC(...)` of `meta_store` run over a plan: the sink, the sidecar, and
whether the end of the plan was reached. -/
def meta_store_run (c : MetaCollab) :
    List (Option StoreFn × List Nat × List Nat) → bio → Option bio → bio × Option bio × Bool
  | [], fd, crcfd => (fd, crcfd, true)
  | (f, name, sect) :: rest, fd, crcfd =>
    if (meta_store_chunk c fd f name).2 < 0 then ((meta_store_chunk c fd f name).1, crcfd, false)
    else
      meta_store_run c rest (meta_store_chunk c fd f name).1
        (STORE_CRC c (meta_store_chunk c fd f name).1 crcfd sect)

/-- The C `meta_store`. `crcfd` is the sidecar `bio_file_open(crcfname,...)`
returns, `none` when `crcfname` is `NULL` or the open fails. The result is
the sink, the sidecar, and whether the function ran to its end. -/
def meta_store (c : MetaCollab) (metaversion metaid : Nat) (fd : bio) (crcfd : Option bio) :
    bio × Option bio × Bool :=
  if (bio_write fd (put64bit metaversion ++ put64bit metaid)).2 ≠ 16 then
    ((bio_write fd (put64bit metaversion ++ put64bit metaid)).1, crcfd, false)
  else
    meta_store_run c meta_store_plan
      (bio_write fd (put64bit metaversion ++ put64bit metaid)).1
      (STORE_CRC c (bio_write fd (put64bit metaversion ++ put64bit metaid)).1 crcfd
        (ascii "HEAD"))

/-- The writing of an image as `meta_file_storeall` and `meta_storeall` do it:
the signature `MFSSIGNATURE "M 2.0"`, then `meta_store`. -/
def meta_image_store (c : MetaCollab) (metaversion metaid : Nat) (fd : bio)
    (crcfd : Option bio) : bio × Option bio × Bool :=
  if (bio_write fd (ascii "MFSM 2.0")).2 ≠ 8 then
    ((bio_write fd (ascii "MFSM 2.0")).1, crcfd, false)
  else meta_store c metaversion metaid (bio_write fd (ascii "MFSM 2.0")).1 crcfd

/-- The C `meta_file_storeall`; `opened` is what `bio_file_open` returns. The
result is the return value and the file. -/
def meta_file_storeall (c : MetaCollab) (metaversion metaid : Nat) (opened : Option bio) :
    Int × Option bio :=
  match opened with
  | none => (-1, none)
  | some fd =>
    if bio_error (meta_image_store c metaversion metaid fd none).1 ≠ 0 then
      (-1, some (meta_image_store c metaversion metaid fd none).1)
    else (0, some (meta_image_store c metaversion metaid fd none).1)

def META_CHECK_OK : Nat := 0
def META_CHECK_NOFILE : Nat := 1
def META_CHECK_IOERROR : Nat := 2
def META_CHECK_BADHEADER : Nat := 3
def META_CHECK_BADENDING : Nat := 4

/-- What `open(name,O_RDONLY)` finds: no such file (`ENOENT`), a file that
cannot be opened (any other `errno`), or a readable file with its content. -/
inductive FileState where
  | missing
  | unreadable
  | content (b : List Nat)
deriving DecidableEq, Repr

/-- The test of the eight signature bytes shared by `meta_check_metadatafile`
and `meta_loadfile`: `MFSSIGNATURE "M "`, a digit `1`-`9`, `'.'`, a digit
`0`-`9`. -/
def meta_signature_ok (chk : List Nat) : Prop :=
  chk.take 5 = ascii "MFSM " ∧ chk.getD 5 0 ≥ 0x31 ∧ chk.getD 5 0 ≤ 0x39 ∧
  chk.getD 6 0 = 0x2E ∧ chk.getD 7 0 ≥ 0x30 ∧ chk.getD 7 0 ≤ 0x39

instance (chk : List Nat) : Decidable (meta_signature_ok chk) := by
  unfold meta_signature_ok; infer_instance

/-- The format version `fver = ((chkbuff[5]-'0')<<4)+(chkbuff[7]-'0')` as the
`uint8_t` it is. -/
def meta_fver (chk : List Nat) : Nat :=
  ((chk.getD 5 0 - 0x30) * 16 + (chk.getD 7 0 - 0x30)) % 256

/-- The C `meta_check_metadatafile`: the status and the values left in `*ver`
and `*id`. A read from the readable file returns the bytes that are there,
fewer than asked for only at the end of the file. -/
def meta_check_metadatafile (file : FileState) : Nat × Nat × Nat :=
  match file with
  | FileState.missing => (META_CHECK_NOFILE, 0, 0)
  | FileState.unreadable => (META_CHECK_IOERROR, 0, 0)
  | FileState.content b =>
    if (b.take 8).length ≠ 8 then (META_CHECK_IOERROR, 0, 0)
    else if b.take 8 = ascii "MFSM NEW" then (META_CHECK_OK, 1, 0)
    else if meta_signature_ok (b.take 8) then
      let fver := meta_fver (b.take 8)
      let eofmark := if fver < 0x16 then List.replicate 16 0 else ascii "[MFS EOF MARKER]"
      let hdr := (b.drop 8).take 16
      if hdr.length ≠ 16 then (META_CHECK_IOERROR, 0, 0)
      else
        let ver := if fver < 0x20 then get64bit (hdr.drop 4) else get64bit hdr
        let id := if fver < 0x20 then 0 else get64bit (hdr.drop 8)
        let last := (b.drop (b.length - 16)).take 16
        if last.length ≠ 16 then (META_CHECK_IOERROR, ver, id)
        else if last ≠ eofmark then (META_CHECK_BADENDING, ver, id)
        else (META_CHECK_OK, ver, id)
    else (META_CHECK_BADHEADER, 0, 0)

/-- One call of a loader by `meta_load`, with the argument it is given
(`mver`, or `maxnodeid` for `fs_importnodes`). -/
structure LoadCall where
  fn : LoadFn
  arg : Nat
deriving DecidableEq, Repr

/-- Whether the loader has an `ignoreflag` parameter. -/
def loader_takes_ignoreflag : LoadFn → Bool
  | LoadFn.fs_importnodes => false
  | LoadFn.fs_loadnodes => false
  | LoadFn.fs_loadfree => false
  | LoadFn.sessions_load => false
  | LoadFn.of_load => false
  | LoadFn.chunk_load => false
  | _ => true

/-- A call `loader(fd,arg[,ignoreflag])` from `meta_load`: the source behind
the bytes the loader took, and its return value. -/
def meta_call_loader (c : MetaCollab) (f : LoadFn) (fd : bio) (arg ignoreflag : Nat) :
    bio × Int :=
  (bio_skip fd (c.load f fd arg (if loader_takes_ignoreflag f then ignoreflag else 0)).consumed,
   (c.load f fd arg (if loader_takes_ignoreflag f then ignoreflag else 0)).status)

/-- The chain `else if (memcmp(hdr,"....",4)==0)` of `meta_load` behind the
test for `NODE`, in the order of the source: the writer whose version is
compared and the loader that is called. -/
def meta_section_table (tag : List Nat) : Option (StoreFn × LoadFn) :=
  if tag = ascii "EDGE" then some (StoreFn.fs_storeedges, LoadFn.fs_loadedges)
  else if tag = ascii "FREE" then some (StoreFn.fs_storefree, LoadFn.fs_loadfree)
  else if tag = ascii "QUOT" then some (StoreFn.fs_storequota, LoadFn.fs_loadquota)
  else if tag = ascii "XATR" then some (StoreFn.xattr_store, LoadFn.xattr_load)
  else if tag = ascii "PACL" then some (StoreFn.posix_acl_store, LoadFn.posix_acl_load)
  else if tag = ascii "FLCK" then some (StoreFn.flock_store, LoadFn.flock_load)
  else if tag = ascii "PLCK" then some (StoreFn.posix_lock_store, LoadFn.posix_lock_load)
  else if tag = ascii "CSDB" then some (StoreFn.csdb_store, LoadFn.csdb_load)
  else if tag = ascii "SESS" then some (StoreFn.sessions_store, LoadFn.sessions_load)
  else if tag = ascii "LABS" ∨ tag = ascii "SCLA" then
    some (StoreFn.sclass_store, LoadFn.sclass_load)
  else if tag = ascii "OPEN" then some (StoreFn.of_store, LoadFn.of_load)
  else if tag = ascii "CHNK" then some (StoreFn.chunk_store, LoadFn.chunk_load)
  else none

/-- How the body of one section of `meta_load` ends, before the length check:
the source, whether the function goes on (`false` is a `return -1`), and the
loader calls made. -/
structure SectionBody where
  fd : bio
  ok : Bool
  calls : List LoadCall
deriving DecidableEq, Repr

/-- A section with a version check: `if (mver>storefn(NULL)) return -1;` then
`if (loader(fd,mver,...)<0) return -1;`. -/
def meta_load_checked (c : MetaCollab) (s : StoreFn) (l : LoadFn) (fd : bio)
    (mver ignoreflag : Nat) : SectionBody :=
  if mver > c.mver s then ⟨fd, false, []⟩
  else
    ⟨(meta_call_loader c l fd mver ignoreflag).1,
      decide (¬ (meta_call_loader c l fd mver ignoreflag).2 < 0), [⟨l, mver⟩]⟩

/-- The version `mver = (((hdr[5]-'0')&0xF)<<4)+((hdr[7]-'0')&0xF)` decoded
from a section header. -/
def meta_section_mver (hdr : List Nat) : Nat :=
  (hdr.getD 5 0 + 208) % 16 * 16 + (hdr.getD 7 0 + 208) % 16

/-- The dispatch on the section name in `meta_load`, for the header `hdr` just
read and the source `fd` behind it. -/
def meta_load_body (c : MetaCollab) (fver ignoreflag maxnodeid : Nat) (hdr : List Nat)
    (fd : bio) : SectionBody :=
  if hdr.take 4 = ascii "NODE" then
    if fver < 0x20 then
      ⟨(meta_call_loader c LoadFn.fs_importnodes fd maxnodeid ignoreflag).1,
        decide (¬ (meta_call_loader c LoadFn.fs_importnodes fd maxnodeid ignoreflag).2 < 0),
        [⟨LoadFn.fs_importnodes, maxnodeid⟩]⟩
    else
      meta_load_checked c StoreFn.fs_storenodes LoadFn.fs_loadnodes fd
        (meta_section_mver hdr) ignoreflag
  else
    match meta_section_table (hdr.take 4) with
    | some (s, l) => meta_load_checked c s l fd (meta_section_mver hdr) ignoreflag
    | none =>
      if ignoreflag ≠ 0 then ⟨bio_skip fd (get64bit (hdr.drop 8)), true, []⟩
      else ⟨fd, false, []⟩

/-- How one turn of the `while (1)` of `meta_load` ends. -/
inductive SectionStep where
  | fail (fd : bio) (calls : List LoadCall)
  | eof (fd : bio)
  | next (fd : bio) (calls : List LoadCall)
deriving DecidableEq, Repr

/-- The length check at the end of a section: with `sleng` below
`0xFFFFFFFFFFFFFFFF`, `(offbegin>=0) && ((offbegin+sleng)!=bio_file_position(fd))`
where `offbegin` is the `off_t` taken from the position behind the header. -/
def meta_section_short (sleng offbegin posafter : Nat) : Prop :=
  sleng < U64 - 1 ∧ offbegin % U64 < 2 ^ 63 ∧ (offbegin + sleng) % U64 ≠ posafter

instance (sleng offbegin posafter : Nat) :
    Decidable (meta_section_short sleng offbegin posafter) := by
  unfold meta_section_short; infer_instance

/-- One turn of the `while (1)` of `meta_load`: read the 16-byte section
header, stop at the end marker, dispatch on the name, check the length. -/
def meta_load_section (c : MetaCollab) (fver ignoreflag maxnodeid : Nat) (fd : bio) :
    SectionStep :=
  let rd := bio_read fd 16
  if rd.2.length ≠ 16 then SectionStep.fail rd.1 []
  else if rd.2 = ascii "[MFS EOF MARKER]" then SectionStep.eof rd.1
  else
    let body := meta_load_body c fver ignoreflag maxnodeid rd.2 rd.1
    if body.ok = false then SectionStep.fail body.fd body.calls
    else if meta_section_short (get64bit (rd.2.drop 8)) (bio_file_position rd.1)
        (bio_file_position body.fd) ∧ ignoreflag = 0 then
      SectionStep.fail body.fd body.calls
    else SectionStep.next body.fd body.calls

/-- The `while (1)` of `meta_load`, at most `fuel` turns: the source, whether
the end marker was reached (`false` is a `return -1`), and the loader calls;
`none` when the turns are used up. -/
def meta_load_sections (c : MetaCollab) (fver ignoreflag maxnodeid : Nat) :
    Nat → bio → Option (bio × Bool × List LoadCall)
  | 0, _ => none
  | fuel + 1, fd =>
    match meta_load_section c fver ignoreflag maxnodeid fd with
    | SectionStep.fail fd1 calls => some (fd1, false, calls)
    | SectionStep.eof fd1 => some (fd1, true, [])
    | SectionStep.next fd1 calls =>
      match meta_load_sections c fver ignoreflag maxnodeid fuel fd1 with
      | none => none
      | some r => some (r.1, r.2.1, calls ++ r.2.2)

/-- The first `k` turns of the `while (1)` of `meta_load`, when each of them
goes on to the next section: the source at the start of the turn that follows
and the loader calls made so far; `none` when one of the `k` turns ends the
loop. -/
def meta_load_turns (c : MetaCollab) (fver ignoreflag maxnodeid : Nat) :
    Nat → bio → Option (bio × List LoadCall)
  | 0, fd => some (fd, [])
  | k + 1, fd =>
    match meta_load_section c fver ignoreflag maxnodeid fd with
    | SectionStep.next fd1 calls =>
      match meta_load_turns c fver ignoreflag maxnodeid k fd1 with
      | none => none
      | some r => some (r.1, calls ++ r.2)
    | _ => none

/-- The import of an image older than 1.6 in `meta_load`: four loaders in a
row, a `return -1` behind the first that fails. -/
def meta_load_legacy (c : MetaCollab) (ignoreflag maxnodeid : Nat) :
    List (LoadFn × Nat) → bio → bio × Bool × List LoadCall
  | [], fd => (fd, true, [])
  | (l, arg) :: rest, fd =>
    if (meta_call_loader c l fd arg ignoreflag).2 < 0 then
      ((meta_call_loader c l fd arg ignoreflag).1, false, [⟨l, arg⟩])
    else
      ((meta_load_legacy c ignoreflag maxnodeid rest (meta_call_loader c l fd arg ignoreflag).1).1,
       (meta_load_legacy c ignoreflag maxnodeid rest
          (meta_call_loader c l fd arg ignoreflag).1).2.1,
       ⟨l, arg⟩ :: (meta_load_legacy c ignoreflag maxnodeid rest
          (meta_call_loader c l fd arg ignoreflag).1).2.2)

/-- What `meta_load` leaves behind: its return value (`none` when the section
loop does not end within the turns given), the source, the globals
`metaversion` and `metaid`, and the loader calls. -/
structure LoadResult where
  ret : Option Int
  fd : bio
  metaversion : Nat
  metaid : Nat
  calls : List LoadCall
deriving DecidableEq, Repr

/-- The C `meta_load(fd,fver)`. `metaversion0` and `metaid0` are the globals
before the call, `ignoreflag` is the global flag. The local `offbegin`
(declared `off_t =0;` in this copy of the source) is assigned before each
use, so it is not carried from turn to turn; `sessions_import` and
`sessions_set_nextsessionid` are calls without effect on what is modelled.
Each turn of the section loop takes at least the 16 header bytes, so one turn
more than the source has bytes is all a run can use. -/
def meta_load (c : MetaCollab) (ignoreflag metaversion0 metaid0 : Nat) (fd : bio)
    (fver : Nat) : LoadResult :=
  let rd := bio_read fd 16
  if rd.2.length ≠ 16 then ⟨some (-1), rd.1, metaversion0, metaid0, []⟩
  else
    let maxnodeid := if fver < 0x20 then get32bit rd.2 else 0
    let metaversion := if fver < 0x20 then get64bit (rd.2.drop 4) else get64bit rd.2
    let metaid := if fver < 0x20 then 0 else get64bit (rd.2.drop 8)
    if fver < 0x16 then
      let r := meta_load_legacy c ignoreflag maxnodeid
        [(LoadFn.fs_importnodes, maxnodeid), (LoadFn.fs_loadedges, 0x10),
         (LoadFn.fs_loadfree, 0x10), (LoadFn.chunk_load, 0x10)] rd.1
      ⟨some (if r.2.1 then c.fs_check_consistency ignoreflag else -1), r.1,
        metaversion, metaid, r.2.2⟩
    else
      match meta_load_sections c fver ignoreflag maxnodeid (rd.1.data.length + 1) rd.1 with
      | none => ⟨none, rd.1, metaversion, metaid, []⟩
      | some r =>
        ⟨some (if r.2.1 then c.fs_check_consistency ignoreflag else -1), r.1,
          metaversion, metaid, r.2.2⟩

/-- The C `meta_loadfile` on a file that opens with content `b`, as far as the
image is concerned: read the signature, then `meta_load` with the format
version taken from it; `none` for the blank image `MFSM NEW`, a short file or
a bad signature, where `meta_load` is not called. -/
def meta_loadfile_load (c : MetaCollab) (ignoreflag metaversion0 metaid0 : Nat)
    (b : List Nat) : Option LoadResult :=
  let rd := bio_read (bio_file_of b) 8
  if rd.2.length ≠ 8 then none
  else if rd.2 = ascii "MFSM NEW" then none
  else if meta_signature_ok rd.2 then
    some (meta_load c ignoreflag metaversion0 metaid0 rd.1 (meta_fver rd.2))
  else none

/-- A sink in order: no error so far, a file, positioned at its end. -/
def bio_at_end (fd : bio) : Prop := fd.error = 0 ∧ fd.seekable = true ∧ fd.pos = fd.data.length

/-- One section in the words of the specification: the tag (4 bytes), a
space, the version byte `v` as `'0'+(v>>4)`, `'.'`, `'0'+(v&15)`, the payload
length as 8 bytes big-endian, then the payload. -/
def meta_section_bytes (c : MetaCollab) (f : StoreFn) (tag : List Nat) : List Nat :=
  tag ++ [0x20, 0x30 + c.mver f / 16, 0x2E, 0x30 + c.mver f % 16]
    ++ put64bit (c.store_payload f).length ++ c.store_payload f

/-- The sections of an image in the words of the specification: the thirteen
sections in the order SESS, SCLA, NODE, EDGE, FREE, QUOT, XATR, PACL, OPEN,
FLCK, PLCK, CSDB, CHNK. -/
def meta_sections_bytes (c : MetaCollab) : List Nat :=
  meta_section_bytes c StoreFn.sessions_store (ascii "SESS")
    ++ meta_section_bytes c StoreFn.sclass_store (ascii "SCLA")
    ++ meta_section_bytes c StoreFn.fs_storenodes (ascii "NODE")
    ++ meta_section_bytes c StoreFn.fs_storeedges (ascii "EDGE")
    ++ meta_section_bytes c StoreFn.fs_storefree (ascii "FREE")
    ++ meta_section_bytes c StoreFn.fs_storequota (ascii "QUOT")
    ++ meta_section_bytes c StoreFn.xattr_store (ascii "XATR")
    ++ meta_section_bytes c StoreFn.posix_acl_store (ascii "PACL")
    ++ meta_section_bytes c StoreFn.of_store (ascii "OPEN")
    ++ meta_section_bytes c StoreFn.flock_store (ascii "FLCK")
    ++ meta_section_bytes c StoreFn.posix_lock_store (ascii "PLCK")
    ++ meta_section_bytes c StoreFn.csdb_store (ascii "CSDB")
    ++ meta_section_bytes c StoreFn.chunk_store (ascii "CHNK")

/-- The image in the words of the specification: the signature `MFSM 2.0`,
the header `metaversion(8) | metaid(8)`, the sections, `[MFS EOF MARKER]`. -/
def meta_image_bytes (c : MetaCollab) (metaversion metaid : Nat) : List Nat :=
  ascii "MFSM 2.0" ++ (put64bit metaversion ++ put64bit metaid) ++ meta_sections_bytes c
    ++ ascii "[MFS EOF MARKER]"

/-- What a plan of `meta_store_chunk` calls appends to a file when every
write succeeds. -/
def meta_plan_bytes (c : MetaCollab) : List (Option StoreFn × List Nat × List Nat) → List Nat
  | [] => []
  | (some f, name, _) :: rest => meta_section_bytes c f (name.take 4) ++ meta_plan_bytes c rest
  | (none, _, _) :: rest => ascii "[MFS EOF MARKER]" ++ meta_plan_bytes c rest

/-- The 8-byte records of a sidecar file, at most `fuel` of them. -/
def crc_records : Nat → List Nat → List (List Nat)
  | 0, _ => []
  | fuel + 1, b => if b = [] then [] else b.take 8 :: crc_records fuel (b.drop 8)

/-- The 4-byte tags of the 8-byte records of a sidecar file, in file order. -/
def crc_tags (b : List Nat) : List (List Nat) := (crc_records b.length b).map (List.take 4)

/-- Collaborators used to write down concrete images: every writer has
version 1.0 and writes nothing, every loader succeeds and takes nothing. -/
def metacollab_sample : MetaCollab :=
  { store_version := fun _ => 0x10, store_payload := fun _ => [], bio_crc := fun _ => 0,
    load := fun _ _ _ _ => ⟨0, 0⟩, fs_check_consistency := fun _ => 0 }

/-- The bytes behind the signature of a small image: the header with version 5
and id 7, an empty section `EDGE 1.0` of announced length 0, a second section
with the 8 name bytes `second` and the announced length `L`, and the end
marker. -/
def image_two_sections (second : List Nat) (L : Nat) : List Nat :=
  put64bit 5 ++ put64bit 7 ++ (ascii "EDGE 1.0" ++ put64bit 0) ++ (second ++ put64bit L)
    ++ ascii "[MFS EOF MARKER]"

/-- A step of the pool as far as the worker counters go: a worker takes the
record `(jobid,op,jptr)` off the work queue (the closed-queue sentinel, a job,
or a record whose `op` falls in the `default` arm of the `switch`), a worker
completes its job with a status, or the configuration is reloaded. -/
inductive PoolAct where
  | pickup (jobid op jptr : Nat) (created : Bool)
  | complete (jobid status : Nat)
  | reload (cfg_max cfg_idle : Nat)
deriving DecidableEq, Repr

/-- One step of the pool. A pickup is taken by a worker that waits in
`queue_get` (one is counted in `workers_avail`): it runs `job_worker` from
after `queue_get` to the `switch`, where an `op` outside 1..9 (`OP_EXIT` or an
unknown one) leads to `job_close_worker`; the spawn of a new worker is part of
it, as in the code. A completion is taken by a worker that holds a job (one is
counted in `workers_total` and not in `workers_avail`): it runs `job_worker`
from `job_send_status` on, retirement on idle surplus included. `none` when no
worker can take the step. -/
def pool_step (jp : jobpool) : PoolAct → Option jobpool
  | PoolAct.pickup jobid op jptr created =>
    if jp.workers_avail = 0 then none
    else
      match (job_worker_take jp jobid op jptr created).2 with
      | Taken.retired => some (job_worker_take jp jobid op jptr created).1
      | Taken.running _ =>
        if 1 ≤ op ∧ op ≤ 9 then some (job_worker_take jp jobid op jptr created).1
        else some (job_close_worker (job_worker_take jp jobid op jptr created).1)
  | PoolAct.complete jobid status =>
    if jp.workers_avail < jp.workers_total then some (job_worker_done jp jobid status).1
    else none
  | PoolAct.reload cfg_max cfg_idle => some (job_reload jp (cfg_max % U32) (cfg_idle % U32))

/-- A run of pool steps; `none` when one of them cannot be taken. -/
def pool_run : jobpool → List PoolAct → Option jobpool
  | jp, [] => some jp
  | jp, a :: rest =>
    match pool_step jp a with
    | none => none
    | some jp1 => pool_run jp1 rest

/-- The invariant of the worker counters in the words of the specification:
`0 ≤ workers_avail ≤ workers_total ≤ workers_max`. -/
def workers_inv (jp : jobpool) : Prop :=
  jp.workers_avail ≤ jp.workers_total ∧ jp.workers_total ≤ jp.workers_max

instance (jp : jobpool) : Decidable (workers_inv jp) := by
  unfold workers_inv; infer_instance

/-- A step that keeps the pool within its limits: the record picked up is the
sentinel or a job with `op` in 1..9, and a reload does not set `WORKERS_MAX`
below the number of workers there are. -/
def pool_act_tame (jp : jobpool) : PoolAct → Prop
  | PoolAct.pickup jobid op jptr _ => (jobid = 0 ∧ op = 0 ∧ jptr = 0) ∨ (1 ≤ op ∧ op ≤ 9)
  | PoolAct.complete _ _ => True
  | PoolAct.reload cfg_max _ => jp.workers_total ≤ cfg_max ∧ cfg_max < U32

instance (jp : jobpool) (a : PoolAct) : Decidable (pool_act_tame jp a) := by
  cases a <;> unfold pool_act_tame <;> infer_instance

/-- Every step of the run is tame in the state it is taken in. -/
def pool_run_tame : jobpool → List PoolAct → Bool
  | _, [] => true
  | jp, a :: rest =>
    decide (pool_act_tame jp a) &&
      match pool_step jp a with
      | none => true
      | some jp1 => pool_run_tame jp1 rest

/-- A step of the status path: a worker sends a status, or the main thread
receives one. -/
inductive StatusAct where
  | send (jobid status : Nat)
  | receive
deriving DecidableEq, Repr

/-- One step of the status path; a receive is taken only when the status
queue holds an entry, and is `none` when `job_receive_status` does not return. -/
def status_step (jp : jobpool) : StatusAct → Option jobpool
  | StatusAct.send jobid status => some (job_send_status jp jobid status)
  | StatusAct.receive =>
    if jp.statusqueue.entries = [] then none
    else
      match job_receive_status jp with
      | none => none
      | some m => some m.jp

/-- A run of steps of the status path. -/
def status_run : jobpool → List StatusAct → Option jobpool
  | jp, [] => some jp
  | jp, a :: rest =>
    match status_step jp a with
    | none => none
    | some jp1 => status_run jp1 rest

/-- The wake-pipe protocol in the words of the specification: one unread byte
when the status queue holds an entry, none when it is empty. -/
def wake_inv (jp : jobpool) : Prop :=
  jp.pipe.length = if jp.statusqueue.entries = [] then 0 else 1

/-- The status queue holds fewer than `2^32 - 1` entries in every state in
which a step of the run is taken, so that its 32-bit field `elements` counts
them. -/
def status_run_small : jobpool → List StatusAct → Bool
  | _, [] => true
  | jp, a :: rest =>
    decide (jp.statusqueue.entries.length + 1 < U32) &&
      match status_step jp a with
      | none => true
      | some jp1 => status_run_small jp1 rest

/-- The table `meta_emergency_locations`, without its closing `NULL`. -/
def meta_emergency_locations : List (List Nat) :=
  [ascii "/metadata.mfs.emergency",
   ascii "/tmp/metadata.mfs.emergency",
   ascii "/var/metadata.mfs.emergency",
   ascii "/usr/metadata.mfs.emergency",
   ascii "/usr/share/metadata.mfs.emergency",
   ascii "/usr/local/metadata.mfs.emergency",
   ascii "/usr/local/var/metadata.mfs.emergency",
   ascii "/usr/local/share/metadata.mfs.emergency"]

/-- The C `meta_create_homedir_emergency_filename`; `pw_dir` is the home
directory of the password entry of the user, `none` when `getpwuid` finds
none (or is not there). A failing `malloc` is not modelled. -/
def meta_create_homedir_emergency_filename (pw_dir : Option (List Nat)) : Option (List Nat) :=
  match pw_dir with
  | none => none
  | some d => some (d ++ ascii "/metadata.mfs.emergency")

/-- The loop `while ((fname = meta_emergency_locations[i++])!=NULL)` of
`meta_emergency_saves` over the rest of the table: the return value and the
names passed to `meta_file_storeall`, in the order of the calls. `store` is
the return value of `meta_file_storeall` for a name. -/
def meta_emergency_walk (store : List Nat → Int) : List (List Nat) → Int × List (List Nat)
  | [] => (-1, [])
  | fname :: rest =>
    if store fname = 0 then (0, [fname])
    else ((meta_emergency_walk store rest).1, fname :: (meta_emergency_walk store rest).2)

/-- The C `meta_emergency_saves`: the return value and the names passed to
`meta_file_storeall`, in the order of the calls. `open_w` is what
`bio_file_open(name,BIO_WRITE,...)` returns for a name. -/
def meta_emergency_saves (c : MetaCollab) (metaversion metaid : Nat)
    (open_w : List Nat → Option bio) (pw_dir : Option (List Nat)) : Int × List (List Nat) :=
  let store := fun fname => (meta_file_storeall c metaversion metaid (open_w fname)).1
  if store (ascii "metadata.mfs.emergency") = 0 then (0, [ascii "metadata.mfs.emergency"])
  else
    match meta_create_homedir_emergency_filename pw_dir with
    | some hfname =>
      if store hfname = 0 then (0, [ascii "metadata.mfs.emergency", hfname])
      else
        ((meta_emergency_walk store meta_emergency_locations).1,
          ascii "metadata.mfs.emergency" :: hfname
            :: (meta_emergency_walk store meta_emergency_locations).2)
    | none =>
      ((meta_emergency_walk store meta_emergency_locations).1,
        ascii "metadata.mfs.emergency"
          :: (meta_emergency_walk store meta_emergency_locations).2)

/-- The paths of the emergency save in the words of the specification:
`./metadata.mfs.emergency`, `$HOME/metadata.mfs.emergency`, then
`metadata.mfs.emergency` under `/tmp`, `/var`, `/usr`, `/usr/share`,
`/usr/local`, `/usr/local/var`, `/usr/local/share`. -/
def meta_emergency_spec_paths (home : List Nat) : List (List Nat) :=
  [ascii "./metadata.mfs.emergency",
   home ++ ascii "/metadata.mfs.emergency",
   ascii "/tmp/metadata.mfs.emergency",
   ascii "/var/metadata.mfs.emergency",
   ascii "/usr/metadata.mfs.emergency",
   ascii "/usr/share/metadata.mfs.emergency",
   ascii "/usr/local/metadata.mfs.emergency",
   ascii "/usr/local/var/metadata.mfs.emergency",
   ascii "/usr/local/share/metadata.mfs.emergency"]

/-- The paths `meta_emergency_saves` goes through, in its order: the name
`metadata.mfs.emergency` in the working directory, the one in the home
directory when there is one, then the table. -/
def meta_emergency_paths (pw_dir : Option (List Nat)) : List (List Nat) :=
  ascii "metadata.mfs.emergency"
    :: ((meta_create_homedir_emergency_filename pw_dir).toList ++ meta_emergency_locations)

/-- A device on which only the file `/metadata.mfs.emergency` can be opened
for writing. -/
def open_w_root_only (fname : List Nat) : Option bio :=
  if fname = ascii "/metadata.mfs.emergency" then some (bio_file_new 1000) else none

/-- The names `meta_storeall` uses in the working directory: `metadata.mfs`,
`metadata.mfs.back`, `metadata.mfs.back.tmp`, the names `snprintf` makes of
`"metadata.mfs.back.%u"` and a number, and `metadata.crc`. Distinct numbers
give distinct names, and none of them is one of the other names. -/
inductive FName where
  | mfs
  | back
  | back_tmp
  | back_n (n : Nat)
  | crc
deriving DecidableEq, Repr

/-- The working directory as a map from names to contents; `none` is a name
that is not there. -/
def Dir : Type := FName → Option (List Nat)

/-- Modelled from the spec: `rename(old,new)` in the working directory. It
fails and changes nothing when `old` is not there; otherwise `new` gets the
content of `old` and `old` is gone. The return value is not used by the code
modelled. -/
def dir_rename (d : Dir) (old new : FName) : Dir :=
  match d old with
  | none => d
  | some x => Function.update (Function.update d old none) new (some x)

/-- Modelled from the spec: `unlink(name)` in the working directory. -/
def dir_unlink (d : Dir) (name : FName) : Dir := Function.update d name none

/-- The loop `for (n=BackMetaCopies-1 ; n>0 ; n--)` of `meta_storeall`,
entered with `n = k`: `rename("metadata.mfs.back.n","metadata.mfs.back.n+1")`
for `n = k, ..., 1`. -/
def meta_rotate : Nat → Dir → Dir
  | 0, d => d
  | k + 1, d => meta_rotate k (dir_rename d (FName.back_n (k + 1)) (FName.back_n (k + 2)))

/-- How `meta_storeall` ends: `return v`, or `exit(code)` in the child of a
background save. -/
inductive StoreOutcome where
  | returned (v : Int)
  | exited (code : Nat)
deriving DecidableEq, Repr

/-- What `meta_storeall` meets outside the process: whether
`metadata.mfs.back.tmp` opens and `lockf(F_TEST)` fails on it, what `fork`
returns, whether `bio_file_open("metadata.mfs.back.tmp",BIO_WRITE,...)`
succeeds and how many bytes the device takes, whether `lockf(F_TLOCK)` fails
in the child, whether `metadata.crc` opens and how many bytes it takes, what
`bio_file_open` returns for the names of the emergency saves, and the home
directory of the user. -/
structure StoreEnv where
  tmp_locked : Bool
  fork : Int
  tmp_room : Option Nat
  tlock_fails : Bool
  crc_room : Option Nat
  open_w : List Nat → Option bio
  pw_dir : Option (List Nat)

/-- What `meta_storeall` leaves: how it ends, the working directory, and the
names tried by `meta_emergency_saves` (the files written there are not entered
in the directory). -/
structure StoreResult where
  outcome : StoreOutcome
  dir : Dir
  emergency : List (List Nat)

/-- A failed store in `meta_storeall`: `estat = meta_emergency_saves()`, then
`exit(2)` or `exit(1)` in the child, `return 0` in the foreground. -/
def meta_storeall_failed (c : MetaCollab) (metaversion metaid : Nat) (env : StoreEnv)
    (child : Bool) (d : Dir) : StoreResult :=
  ⟨if child then
      (if (meta_emergency_saves c metaversion metaid env.open_w env.pw_dir).1 < 0
        then StoreOutcome.exited 2 else StoreOutcome.exited 1)
    else StoreOutcome.returned 0,
    d, (meta_emergency_saves c metaversion metaid env.open_w env.pw_dir).2⟩

/-- The renames at the end of a store without write error in `meta_storeall`:
the rotation of the old copies when `BackMetaCopies>0`, then
`rename("metadata.mfs.back.tmp","metadata.mfs.back")` and
`unlink("metadata.mfs")`. -/
def meta_storeall_rename (BackMetaCopies : Nat) (d : Dir) : Dir :=
  dir_unlink
    (dir_rename
      (if BackMetaCopies > 0 then
        dir_rename (meta_rotate (BackMetaCopies - 1) d) FName.back (FName.back_n 1)
       else d)
      FName.back_tmp FName.back)
    FName.mfs

/-- The C `meta_storeall(bg)` with the globals `metaversion`, `metaid` and
`BackMetaCopies`. In the parent of a background save (`fork` returned a
positive number) the directory is left as it is and the child, which runs the
same function with `fork = 0`, does the work. The signature and, when it was
written, `meta_store(fd,"metadata.crc")` are `meta_image_store`; `metadata.crc`
is touched only by `meta_store`. The file of a `bio` holds, once the `bio` is
closed, the bytes written to it. -/
def meta_storeall (c : MetaCollab) (metaversion metaid BackMetaCopies : Nat) (env : StoreEnv)
    (bg : Nat) (d : Dir) : StoreResult :=
  if metaversion = 0 then ⟨StoreOutcome.returned 2, d, []⟩
  else if env.tmp_locked then ⟨StoreOutcome.returned (-1), d, []⟩
  else if bg ≠ 0 ∧ env.fork > 0 then ⟨StoreOutcome.returned 1, d, []⟩
  else
    let child : Bool := decide (bg ≠ 0 ∧ env.fork = 0)
    match env.tmp_room with
    | none => meta_storeall_failed c metaversion metaid env child d
    | some room =>
      if child = true ∧ env.tlock_fails = true then
        meta_storeall_failed c metaversion metaid env true
          (Function.update d FName.back_tmp (some []))
      else
        let w := meta_image_store c metaversion metaid (bio_file_new room)
          (env.crc_room.map bio_file_new)
        let d1 : Dir :=
          if (bio_write (bio_file_new room) (ascii "MFSM 2.0")).2 ≠ 8 then d
          else
            match w.2.1 with
            | none => d
            | some cf => Function.update d FName.crc (some cf.data)
        if bio_error w.1 ≠ 0 then
          meta_storeall_failed c metaversion metaid env child (dir_unlink d1 FName.back_tmp)
        else
          ⟨if child then StoreOutcome.exited 0 else StoreOutcome.returned 1,
            meta_storeall_rename BackMetaCopies
              (Function.update d1 FName.back_tmp (some w.1.data)),
            []⟩

/-- A save that has stored the image, seen from the process that stores (the
child, for a background save that forks): it ends with `exit(0)` or
`return 1`. -/
def meta_storeall_stored (c : MetaCollab) (metaversion metaid BackMetaCopies : Nat)
    (env : StoreEnv) (bg : Nat) (d : Dir) : Prop :=
  ¬ (bg ≠ 0 ∧ env.fork > 0) ∧
  ((meta_storeall c metaversion metaid BackMetaCopies env bg d).outcome = StoreOutcome.exited 0 ∨
   (meta_storeall c metaversion metaid BackMetaCopies env bg d).outcome
     = StoreOutcome.returned 1)

instance (c : MetaCollab) (metaversion metaid BackMetaCopies : Nat) (env : StoreEnv)
    (bg : Nat) (d : Dir) :
    Decidable (meta_storeall_stored c metaversion metaid BackMetaCopies env bg d) := by
  unfold meta_storeall_stored; infer_instance

/-- An environment in which a save goes through: nothing is locked, `fork`
returns 0, the files open and take 1000 bytes. -/
def storeenv_sample : StoreEnv :=
  { tmp_locked := false, fork := 0, tmp_room := some 1000, tlock_fails := false,
    crc_room := some 1000, open_w := fun _ => none, pw_dir := none }

/-- A working directory that holds `metadata.mfs` and `metadata.mfs.back`. -/
def dir_sample : Dir := fun n =>
  match n with
  | FName.mfs => some [1]
  | FName.back => some [2]
  | _ => none

/-- The C `meta_reload`: the values of `MetaSaveFreq` and `BackMetaCopies` for
the values `cfg_getuint32` returns for `METADATA_SAVE_FREQ`, `BACK_LOGS` and
`BACK_META_KEEP_PREVIOUS`. -/
def meta_reload (cfg_save_freq cfg_back_logs cfg_keep : Nat) : Nat × Nat :=
  (if cfg_save_freq > cfg_back_logs / 2 then cfg_back_logs / 2 else cfg_save_freq,
   if cfg_keep > 99 then 99 else cfg_keep)

/-- The test of `meta_dostoreall`, made after `changelog_rotate()`: whether
`((main_time() / 3600) % MetaSaveFreq) == 0`, that is whether
`meta_storeall(1)` is called; `none` when `MetaSaveFreq` is 0 and the
remainder is a division by zero. -/
def meta_dostoreall (main_time MetaSaveFreq : Nat) : Option Bool :=
  if MetaSaveFreq = 0 then none
  else some (decide ((main_time / 3600) % MetaSaveFreq = 0))

/-- The C `meta_loadfile`: the return value and the globals `metaversion` and
`metaid` as the call leaves them; `file` is what `bio_file_open` finds under
the name (it gives `NULL` unless the file is there and readable),
`metaversion0` and `metaid0` are the globals before the call. A failed load
calls `meta_cleanup`, which sets `metaversion = 0`. The result is `none` when
`meta_load` does not return within its turns. -/
def meta_loadfile (c : MetaCollab) (ignoreflag metaversion0 metaid0 : Nat) (file : FileState) :
    Option (Int × Nat × Nat) :=
  match file with
  | FileState.content b =>
    let rd := bio_read (bio_file_of b) 8
    if rd.2.length ≠ 8 then some (-1, metaversion0, metaid0)
    else if rd.2 = ascii "MFSM NEW" then some (0, 1, 0)
    else if meta_signature_ok rd.2 then
      let r := meta_load c ignoreflag metaversion0 metaid0 rd.1 (meta_fver rd.2)
      match r.ret with
      | none => none
      | some v =>
        if v < 0 then some (-2, 0, r.metaid)
        else if bio_error r.fd ≠ 0 then some (-2, 0, r.metaid)
        else some (1, r.metaversion, r.metaid)
    else some (-2, metaversion0, metaid0)
  | _ => some (-1, metaversion0, metaid0)

/-- The constant `MAXIDHOLE`. -/
def MAXIDHOLE : Nat := 10000

/-- The arguments of the call `merger_start(files,filenames,maxhole,minid,maxid)`. -/
structure MergerCall where
  files : Nat
  filenames : List (List Nat)
  maxhole : Nat
  minid : Nat
  maxid : Nat
deriving DecidableEq, Repr

/-- Modelled from the spec: what `meta_loadall` meets outside `metadata.c`.
The flags `allowautorestore`, `ignoreflag` and `verboselevel`; the names
`readdir` gives for the working directory, in the order it gives them (`none`
when `opendir(".")` fails; the directory is not changed between the
enumerations); what is found under a name; the home directory of the user; the
changelog collaborator (`changelog_checkname`, `changelog_findfirstversion`,
`changelog_findlastversion`, and what `merger_loop` returns after a given
`merger_start`); and the system calls at the end: the size `stat` reports for
`metadata.mfs` (`none` when it fails), whether `unlink("metadata.mfs")`
fails, whether `stat("metadata.mfs.back")` fails with `ENOENT`, whether
`mkstemp` fails, whether the `rename` of `metadata.mfs` fails. -/
structure LoadAllEnv where
  allowautorestore : Bool
  ignoreflag : Nat
  verboselevel : Nat
  readdir : Option (List (List Nat))
  file : List Nat → FileState
  pw_dir : Option (List Nat)
  changelog_checkname : List Nat → Bool
  changelog_findfirstversion : List Nat → Nat
  changelog_findlastversion : List Nat → Nat
  merger_loop : MergerCall → Int
  mfs_stat : Option Nat
  unlink_fails : Bool
  back_enoent : Bool
  mkstemp_fails : Bool
  rename_fails : Bool

/-- The locals `bestver`, `bestid` and `bestfname` of `meta_loadall`; the
empty name stands for `NULL`. -/
structure BestFile where
  bestver : Nat
  bestid : Nat
  bestfname : List Nat
deriving DecidableEq, Repr

/-- The test `strlen(dp->d_name)>8 && memcmp(dp->d_name,"metadata",8)==0`. -/
def meta_name_matches (name : List Nat) : Prop :=
  name.length > 8 ∧ name.take 8 = ascii "metadata"

instance (name : List Nat) : Decidable (meta_name_matches name) := by
  unfold meta_name_matches; infer_instance

/-- One turn of the first `readdir` loop of `meta_loadall`; `none` is the
`return -1` on a file with a different id number. -/
def meta_loadall_scan_entry (file : List Nat → FileState) (ignoreflag : Nat) (b : BestFile)
    (name : List Nat) : Option BestFile :=
  if meta_name_matches name then
    let chk := meta_check_metadatafile (file name)
    if chk.1 = META_CHECK_OK then
      if (b.bestid ≠ 0 ∧ chk.2.2 ≠ 0 ∧ b.bestid ≠ chk.2.2) ∧ ignoreflag = 0 then none
      else if chk.2.1 > b.bestver then
        some ⟨chk.2.1, if chk.2.2 ≠ 0 then chk.2.2 else b.bestid, name⟩
      else some b
    else some b
  else some b

/-- The first `readdir` loop of `meta_loadall` over the names it is given. -/
def meta_loadall_scan (file : List Nat → FileState) (ignoreflag : Nat) :
    BestFile → List (List Nat) → Option BestFile
  | b, [] => some b
  | b, name :: rest =>
    match meta_loadall_scan_entry file ignoreflag b name with
    | none => none
    | some b1 => meta_loadall_scan file ignoreflag b1 rest

/-- The treatment of the home file and of each entry of
`meta_emergency_locations` in `meta_loadall`. -/
def meta_loadall_extra (file : List Nat → FileState) (b : BestFile) (fname : List Nat) :
    BestFile :=
  let chk := meta_check_metadatafile (file fname)
  if chk.1 = META_CHECK_OK ∧ chk.2.1 > b.bestver ∧ chk.2.2 = b.bestid then
    { b with bestver := chk.2.1, bestfname := fname }
  else b

/-- The names `meta_loadall` consults outside the working directory: the home
file, when there is one, then `meta_emergency_locations`. -/
def meta_loadall_extras (pw_dir : Option (List Nat)) : List (List Nat) :=
  (meta_create_homedir_emergency_filename pw_dir).toList ++ meta_emergency_locations

/-- The search for the best metadata file in `meta_loadall`: the scan of the
working directory (skipped when `opendir` fails), then, when `bestid!=0`, the
home file and the emergency locations; `none` is the `return -1` of the scan. -/
def meta_loadall_best (env : LoadAllEnv) : Option BestFile :=
  match meta_loadall_scan env.file env.ignoreflag ⟨0, 0, []⟩ (env.readdir.getD []) with
  | none => none
  | some b =>
    if b.bestid ≠ 0 then
      some ((meta_loadall_extras env.pw_dir).foldl (meta_loadall_extra env.file) b)
    else some b

/-- The loop `while (lv>0) { ...; lv /= 10; }` that prints a version in
`meta_loadall`, given at most `fuel` turns: the value it leaves in the
variable. A `uint64_t` has at most 20 decimal digits. -/
def meta_loadall_digits : Nat → Nat → Nat
  | 0, lv => lv
  | fuel + 1, lv => if lv > 0 then meta_loadall_digits fuel (lv / 10) else lv

/-- The locals `files`, `filenames[0..pos)` and `maxlastlv` of `meta_loadall`. -/
structure ChangelogSel where
  files : Nat
  filenames : List (List Nat)
  maxlastlv : Nat
deriving DecidableEq, Repr

/-- One turn of the second changelog loop of `meta_loadall`, with the global
`metaversion`. The variable `lastlv` is the one the printing loop divides down
when `verboselevel>0`; `skip` is computed before. -/
def meta_loadall_changelog (env : LoadAllEnv) (metaversion : Nat) (s : ChangelogSel)
    (name : List Nat) : ChangelogSel :=
  if env.changelog_checkname name = true then
    let firstlv := env.changelog_findfirstversion name
    let lastlv := env.changelog_findlastversion name
    let skip : Bool := decide (lastlv < metaversion ∨ firstlv = 0)
    let lastlv1 := if env.verboselevel > 0 then meta_loadall_digits 20 lastlv else lastlv
    if skip = true then { s with files := (s.files + U32 - 1) % U32 }
    else
      ⟨s.files, s.filenames ++ [name], if lastlv1 > s.maxlastlv then lastlv1 else s.maxlastlv⟩
  else s

/-- The end of the auto-restore branch of `meta_loadall`, on `metadata.mfs`:
0 when it goes on to the final `unlink`, -1 when it returns -1. -/
def meta_loadall_promote (env : LoadAllEnv) : Int :=
  match env.mfs_stat with
  | none => 0
  | some size =>
    if size = 0 then (if env.unlink_fails then -1 else 0)
    else if env.back_enoent then (if env.rename_fails then -1 else 0)
    else if env.mkstemp_fails then -1
    else if env.rename_fails then -1
    else 0

/-- What `meta_loadall` leaves: its return value, the name given to
`meta_loadfile` when it is called, the call of `merger_start` when it is made,
and the globals `metaversion` and `metaid` as `meta_loadfile` left them. -/
structure LoadAllResult where
  ret : Int
  loaded : Option (List Nat)
  merger : Option MergerCall
  metaversion : Nat
  metaid : Nat
deriving DecidableEq, Repr

/-- The part of the auto-restore branch of `meta_loadall` after the file is
loaded: the changelogs, then the end on `metadata.mfs`. -/
def meta_loadall_replay (env : LoadAllEnv) (b : BestFile) (metaversion metaid : Nat) :
    LoadAllResult :=
  let names := env.readdir.getD []
  let files := (names.filter env.changelog_checkname).length % U32
  if files > 0 then
    let s := names.foldl (meta_loadall_changelog env metaversion) ⟨files, [], 0⟩
    let call : MergerCall := ⟨s.files, s.filenames, MAXIDHOLE, b.bestver, s.maxlastlv⟩
    if env.merger_loop call ≠ 0 ∧ env.ignoreflag = 0 then
      ⟨-1, some b.bestfname, some call, metaversion, metaid⟩
    else ⟨meta_loadall_promote env, some b.bestfname, some call, metaversion, metaid⟩
  else ⟨meta_loadall_promote env, some b.bestfname, none, metaversion, metaid⟩

/-- The C `meta_loadall`; `metaversion0` and `metaid0` are the globals before
the call. The result is `none` when `meta_load` does not return within its
turns. -/
def meta_loadall (c : MetaCollab) (env : LoadAllEnv) (metaversion0 metaid0 : Nat) :
    Option LoadAllResult :=
  if env.allowautorestore = true then
    match meta_loadall_best env with
    | none => some ⟨-1, none, none, metaversion0, metaid0⟩
    | some b =>
      if b.bestver = 0 then some ⟨-1, none, none, metaversion0, metaid0⟩
      else
        match meta_loadfile c env.ignoreflag metaversion0 metaid0 (env.file b.bestfname) with
        | none => none
        | some r =>
          if r.1 < 0 then some ⟨-1, some b.bestfname, none, r.2.1, r.2.2⟩
          else some (meta_loadall_replay env b r.2.1 r.2.2)
  else
    let chk := meta_check_metadatafile (env.file (ascii "metadata.mfs"))
    if chk.1 = META_CHECK_NOFILE ∨ chk.1 = META_CHECK_IOERROR ∨ chk.1 = META_CHECK_BADHEADER
        ∨ chk.1 = META_CHECK_BADENDING then
      some ⟨-1, none, none, metaversion0, metaid0⟩
    else
      let bk := meta_check_metadatafile (env.file (ascii "metadata.mfs.back"))
      if bk.1 = META_CHECK_OK ∧ bk.2.1 > chk.2.1 ∧ bk.2.2 ≠ 0 ∧ chk.2.2 ≠ 0
          ∧ bk.2.2 ≠ chk.2.2 then
        some ⟨-1, none, none, metaversion0, metaid0⟩
      else
        match meta_loadfile c env.ignoreflag metaversion0 metaid0
            (env.file (ascii "metadata.mfs")) with
        | none => none
        | some r =>
          if r.1 < 0 then some ⟨-1, some (ascii "metadata.mfs"), none, r.2.1, r.2.2⟩
          else if env.rename_fails then
            some ⟨-1, some (ascii "metadata.mfs"), none, r.2.1, r.2.2⟩
          else some ⟨0, some (ascii "metadata.mfs"), none, r.2.1, r.2.2⟩

/-- A working-directory name that is a candidate of the auto-restore: it
passes the name test and its file validates ok. -/
def meta_candidate (env : LoadAllEnv) (name : List Nat) : Prop :=
  name ∈ env.readdir.getD [] ∧ meta_name_matches name ∧
  (meta_check_metadatafile (env.file name)).1 = META_CHECK_OK

/-- A home or emergency file that is a candidate of the auto-restore for the
id `bestid` found in the working directory: the id is not zero, the file
validates ok and carries that id. -/
def meta_candidate_extra (env : LoadAllEnv) (bestid : Nat) (name : List Nat) : Prop :=
  bestid ≠ 0 ∧ name ∈ meta_loadall_extras env.pw_dir ∧
  (meta_check_metadatafile (env.file name)).1 = META_CHECK_OK ∧
  (meta_check_metadatafile (env.file name)).2.2 = bestid

/-- A smallest image `MFSM 2.0` with the given version and id: signature,
header and end marker. -/
def meta_file_sample (ver id : Nat) : FileState :=
  FileState.content (ascii "MFSM 2.0" ++ put64bit ver ++ put64bit id ++ ascii "[MFS EOF MARKER]")

/-- An environment for `meta_loadall` on a working directory with the given
names and files and one changelog, `changelog.0.mfs`, with the versions 5 to
42; the replay succeeds and `metadata.mfs` is not there at the end. -/
def loadenv_sample (auto : Bool) (ignoreflag verboselevel : Nat) (names : List (List Nat))
    (file : List Nat → FileState) : LoadAllEnv :=
  { allowautorestore := auto, ignoreflag := ignoreflag, verboselevel := verboselevel,
    readdir := some names, file := file, pw_dir := none,
    changelog_checkname := fun n => decide (n = ascii "changelog.0.mfs"),
    changelog_findfirstversion := fun _ => 5,
    changelog_findlastversion := fun _ => 42,
    merger_loop := fun _ => 0,
    mfs_stat := none, unlink_fails := false, back_enoent := false, mkstemp_fails := false,
    rename_fails := false }

/-- Three images in a working directory: `metadata.mfs.back` with version 10
and id 0, `metadata.mfs.back.1` with version 3 and id 7, `metadata.mfs.back.2`
with version 2 and id 9. -/
def files_three_ids (name : List Nat) : FileState :=
  if name = ascii "metadata.mfs.back" then meta_file_sample 10 0
  else if name = ascii "metadata.mfs.back.1" then meta_file_sample 3 7
  else if name = ascii "metadata.mfs.back.2" then meta_file_sample 2 9
  else FileState.missing

/-- Two images in a working directory: `metadata.mfs` with version 5 and
`metadata.mfs.back` with version 9, with the given ids. -/
def files_newer_back (id backid : Nat) (name : List Nat) : FileState :=
  if name = ascii "metadata.mfs" then meta_file_sample 5 id
  else if name = ascii "metadata.mfs.back" then meta_file_sample 9 backid
  else FileState.missing

/-- Two images in a working directory and one in the root directory:
`metadata.mfs.back` with version 10 and id 0, `metadata.mfs.back.1` with
version 3 and id 7, and `/metadata.mfs.emergency` with version 20 and id 7. -/
def files_emergency_id (name : List Nat) : FileState :=
  if name = ascii "metadata.mfs.back" then meta_file_sample 10 0
  else if name = ascii "metadata.mfs.back.1" then meta_file_sample 3 7
  else if name = ascii "/metadata.mfs.emergency" then meta_file_sample 20 7
  else FileState.missing

/-- What the scan of `meta_loadall` knows after the names `seen`: no candidate
among them has a version above `bestver`; unless `bestver` is 0, `bestfname`
is a candidate among them with that version; and when `bestid` is not 0,
`bestver` is not 0 and `bestid` is the id of a candidate among them. -/
def meta_scan_inv (file : List Nat → FileState) (seen : List (List Nat)) (b : BestFile) : Prop :=
  (∀ n, n ∈ seen → meta_name_matches n → (meta_check_metadatafile (file n)).1 = META_CHECK_OK →
    (meta_check_metadatafile (file n)).2.1 ≤ b.bestver) ∧
  (b.bestver = 0 ∨
    (b.bestfname ∈ seen ∧ meta_name_matches b.bestfname ∧
      (meta_check_metadatafile (file b.bestfname)).1 = META_CHECK_OK ∧
      (meta_check_metadatafile (file b.bestfname)).2.1 = b.bestver)) ∧
  (b.bestid ≠ 0 → 0 < b.bestver ∧
    ∃ n, n ∈ seen ∧ meta_name_matches n ∧
      (meta_check_metadatafile (file n)).1 = META_CHECK_OK ∧
      (meta_check_metadatafile (file n)).2.2 = b.bestid)

/-! ## Representation invariant of the queue -/

/-- The `elements` field counts the linked entries (modulo 2^32). -/
def queue_counted (q : queue) : Prop := q.elements = q.entries.length % U32

theorem queue_new_counted (size : Nat) : queue_counted (queue_new size) := by
  simp [queue_counted, queue_new]

theorem queue_link_counted (q : queue) (qe : qentry) (h : queue_counted q) :
    queue_counted (queue_link q qe) := by
  simp only [queue_counted, queue_link, U32, List.length_append, List.length_singleton] at *
  omega

theorem queue_unlink_cases (q : queue) (h : queue_counted q) (hne : q.elements ≠ 0) :
    ∃ qe rest, q.entries = qe :: rest ∧ (queue_unlink q).2.1 = Outcome.ok ∧
      (queue_unlink q).2.2 = qe ∧ (queue_unlink q).1.entries = rest ∧
      queue_counted (queue_unlink q).1 := by
  cases hq : q.entries with
  | nil => simp [queue_counted, hq] at h; exact absurd h hne
  | cons qe rest =>
    refine ⟨qe, rest, rfl, ?_, ?_, ?_, ?_⟩ <;> simp only [queue_unlink, hq]
    simp only [queue_counted, hq, List.length_cons, U32] at *
    omega

theorem queue_call_step (q : queue) (c : QCall) (h : queue_counted q) :
    queue_counted (queue_call q c).1 ∧
    (queue_call q c).2.outcome ≠ Outcome.fault ∧
    q.entries ++ (queue_call q c).2.putRecord.toList
      = (queue_call q c).2.getRecord.toList ++ (queue_call q c).1.entries := by
  cases c with
  | put id op data leng =>
    simp only [queue_call, queue_put]
    split_ifs <;>
      simp [QEvent.putRecord, QEvent.getRecord, queue_link_counted, h]
    all_goals first | exact h | simp [queue_link]
  | tryput id op data leng =>
    simp only [queue_call, queue_tryput]
    split_ifs <;>
      simp [QEvent.putRecord, QEvent.getRecord, queue_link_counted, h]
    all_goals first | exact h | simp [queue_link]
  | get =>
    simp only [queue_call, queue_get]
    split_ifs with h1 h2
    · simp [QEvent.putRecord, QEvent.getRecord]; exact h
    · simp [QEvent.putRecord, QEvent.getRecord]; exact h
    · have hne : q.elements ≠ 0 := fun h0 => h1 ⟨h0, by simpa using h2⟩
      obtain ⟨qe, rest, he, hok, hrec, hrest, hc⟩ := queue_unlink_cases q h hne
      refine ⟨hc, by simp [hok], ?_⟩
      simp [QEvent.putRecord, QEvent.getRecord, hok, hrec, hrest, he]
  | tryget =>
    simp only [queue_call, queue_tryget]
    split_ifs with h1
    · simp [QEvent.putRecord, QEvent.getRecord]; exact h
    · obtain ⟨qe, rest, he, hok, hrec, hrest, hc⟩ := queue_unlink_cases q h h1
      refine ⟨hc, by simp [hok], ?_⟩
      simp [QEvent.putRecord, QEvent.getRecord, hok, hrec, hrest, he]
  | close =>
    simp [queue_call, queue_close, QEvent.putRecord, QEvent.getRecord, queue_counted] at *
    exact h

theorem queue_run_fifo (cs : List QCall) : ∀ q : queue, queue_counted q →
    queue_counted (queue_run q cs).1 ∧
    (∀ e ∈ (queue_run q cs).2, e.outcome ≠ Outcome.fault) ∧
    q.entries ++ (queue_run q cs).2.filterMap QEvent.putRecord
      = (queue_run q cs).2.filterMap QEvent.getRecord ++ (queue_run q cs).1.entries := by
  induction cs with
  | nil => intro q h; simp [queue_run, h]
  | cons c cs ih =>
    intro q h
    obtain ⟨h1, h2, h3⟩ := queue_call_step q c h
    obtain ⟨i1, i2, i3⟩ := ih (queue_call q c).1 h1
    refine ⟨i1, ?_, ?_⟩
    · intro e he
      simp only [queue_run, List.mem_cons] at he
      rcases he with rfl | he
      · exact h2
      · exact i2 e he
    · simp only [queue_run]
      cases hp : (queue_call q c).2.putRecord <;> cases hg : (queue_call q c).2.getRecord <;>
        simp only [hp, hg, Option.toList, List.append_nil, List.nil_append,
          List.singleton_append] at h3 <;>
        simp only [List.filterMap_cons, hp, hg]
      · rw [h3]; exact i3
      · rw [h3]; simpa using i3
      · rw [← i3, ← h3]; simp
      · rw [← List.singleton_append, ← List.append_assoc, h3]
        simpa using i3

/-! ## Claims on the queue -/

/-- C1: on a queue made by `queue_new` (bounded or unbounded), after any
sequence of `queue_put`/`queue_tryput`/`queue_get`/`queue_tryget` calls, the
records handed in by the successful puts, in the order the puts succeeded, are
the records handed out by the successful gets, in order, followed by the
entries still held: every get returns the oldest record not yet returned, with
`id`, `op`, `data` and `leng` as they were put, and no call dereferences a
`NULL` head. The statement holds for every call sequence, hence for the
sequences without `queue_close` in which no call blocks. -/
theorem queue_fifo (maxsize : Nat) (cs : List QCall) :
    (queue_run (queue_new maxsize) cs).2.filterMap QEvent.putRecord
      = (queue_run (queue_new maxsize) cs).2.filterMap QEvent.getRecord
          ++ (queue_run (queue_new maxsize) cs).1.entries ∧
    (queue_run (queue_new maxsize) cs).2.filterMap QEvent.getRecord
      <+: (queue_run (queue_new maxsize) cs).2.filterMap QEvent.putRecord ∧
    ∀ e ∈ (queue_run (queue_new maxsize) cs).2, e.outcome ≠ Outcome.fault := by
  obtain ⟨_, h2, h3⟩ := queue_run_fifo cs (queue_new maxsize) (queue_new_counted maxsize)
  have h4 : (queue_run (queue_new maxsize) cs).2.filterMap QEvent.putRecord
      = (queue_run (queue_new maxsize) cs).2.filterMap QEvent.getRecord
          ++ (queue_run (queue_new maxsize) cs).1.entries := by
    simpa [queue_new] using h3
  exact ⟨h4, ⟨_, h4.symm⟩, h2⟩

/-- C2, counterexample: after `queue_close` a `queue_put` on an unbounded queue
and a `queue_tryput` on a bounded queue both return `0` and link the record. -/
theorem queue_put_after_close_accepted :
    queue_put (queue_close (queue_new 0)) 7 1 0 1
      = (⟨[⟨7, 1, 0, 1⟩], 1, 1, 0, 0, 0, 1⟩, Outcome.ok) ∧
    queue_tryput (queue_close (queue_new 4)) 7 1 0 1
      = (⟨[⟨7, 1, 0, 1⟩], 1, 1, 4, 0, 0, 1⟩, Outcome.ok) := by
  constructor <;> decide

/-- C2, amended: after `queue_close`, `queue_put` on a bounded queue fails with
the closed error (`EIO`) and leaves the queue as it is whenever
`leng <= maxsize`, whatever the fill, and fails with `EDEADLK` when
`leng > maxsize`; on an unbounded queue `queue_put` does not look at `closed`
and links the record. `queue_tryput` never looks at `closed`: on the closed
queue it has the outcome it has on the open one and the same effect. -/
theorem queue_put_closed (q : queue) (id op data leng : Nat) :
    queue_put (queue_close q) id op data leng
      = (if q.maxsize = 0 then (queue_link (queue_close q) ⟨id, op, data, leng⟩, Outcome.ok)
         else if leng > q.maxsize then (queue_close q, Outcome.err Errno.EDEADLK)
         else (queue_close q, Outcome.err Errno.EIO)) ∧
    queue_tryput (queue_close q) id op data leng
      = (queue_close (queue_tryput q id op data leng).1, (queue_tryput q id op data leng).2) := by
  constructor
  · simp only [queue_put, queue_close]
    split_ifs <;> simp_all
  · simp only [queue_tryput, queue_close]
    split_ifs <;> simp_all [queue_link]

/-- C3, counterexample: a queue holding one entry is closed; the first
`queue_get` already fails with the closed error and the entry stays queued. -/
theorem queue_get_after_close_fails_at_once :
    queue_get (queue_close (queue_put (queue_new 0) 7 1 0 1).1)
      = (⟨[⟨7, 1, 0, 1⟩], 1, 1, 0, 0, 0, 1⟩, Outcome.err Errno.EIO, qentry_zero) := by
  decide

theorem queue_tryget_drain (es : List qentry) : ∀ q : queue, q.entries = es →
    q.elements = es.length → es.length < U32 →
    (queue_run q (List.replicate es.length QCall.tryget)).2
      = es.map (fun e => QEvent.mk QCall.tryget Outcome.ok e) ∧
    (queue_run q (List.replicate es.length QCall.tryget)).1.entries = [] ∧
    (queue_run q (List.replicate es.length QCall.tryget)).1.elements = 0 := by
  induction es with
  | nil => intro q h1 h2 _; simp [queue_run, h1, h2]
  | cons e es ih =>
    intro q h1 h2 h3
    have hstep : queue_call q QCall.tryget
        = ((queue_unlink q).1, QEvent.mk QCall.tryget Outcome.ok e) := by
      simp [queue_call, queue_tryget, queue_unlink, h1, h2]
    have hq1 : (queue_unlink q).1.entries = es := by simp [queue_unlink, h1]
    have hq2 : (queue_unlink q).1.elements = es.length := by
      simp only [queue_unlink, h1, h2, List.length_cons, U32] at *
      omega
    have hlen : es.length < U32 := by simp only [List.length_cons] at h3; omega
    obtain ⟨i1, i2, i3⟩ := ih (queue_unlink q).1 hq1 hq2 hlen
    simp only [List.length_cons, List.replicate_succ, queue_run, hstep, List.map_cons]
    exact ⟨by rw [i1], i2, i3⟩

/-- C3, amended: once `queue_close` has been called, `queue_get` fails with the
closed error at once, stores the zero record and leaves the queue as it is,
however many entries it holds. The entries stay queued and remain retrievable
through `queue_tryget`, which does not look at `closed`: on a queue whose
`elements` field counts its `n` entries the next `n` calls of `queue_tryget`
succeed and return the entries in FIFO order, they empty the queue, and the
call after them fails with `EBUSY`. -/
theorem queue_close_then_get (q : queue) (hcount : q.elements = q.entries.length)
    (hlen : q.entries.length < U32) :
    queue_get (queue_close q) = (queue_close q, Outcome.err Errno.EIO, qentry_zero) ∧
    (queue_run (queue_close q) (List.replicate q.entries.length QCall.tryget)).2
      = q.entries.map (fun e => QEvent.mk QCall.tryget Outcome.ok e) ∧
    (queue_run (queue_close q) (List.replicate q.entries.length QCall.tryget)).1.entries = [] ∧
    (queue_tryget (queue_run (queue_close q)
        (List.replicate q.entries.length QCall.tryget)).1).2.1 = Outcome.err Errno.EBUSY := by
  obtain ⟨h1, h2, h3⟩ := queue_tryget_drain q.entries (queue_close q) rfl
    (by simpa [queue_close] using hcount) hlen
  refine ⟨by simp [queue_get, queue_close], h1, h2, ?_⟩
  simp [queue_tryget, h3]

/-- C3, witness: two records are put, the queue is closed; `queue_get` fails with
`EIO` and two calls of `queue_tryget` return the records in the order put. -/
theorem queue_close_then_get_witness :
    (queue_get (queue_close (queue_run (queue_new 0)
        [QCall.put 7 1 0 1, QCall.put 8 2 0 1]).1)).2.1 = Outcome.err Errno.EIO ∧
    (queue_run (queue_close (queue_run (queue_new 0) [QCall.put 7 1 0 1, QCall.put 8 2 0 1]).1)
        [QCall.tryget, QCall.tryget]).2
      = [⟨QCall.tryget, Outcome.ok, ⟨7, 1, 0, 1⟩⟩, ⟨QCall.tryget, Outcome.ok, ⟨8, 2, 0, 1⟩⟩] := by
  have h := queue_close_then_get
    (queue_run (queue_new 0) [QCall.put 7 1 0 1, QCall.put 8 2 0 1]).1 (by decide) (by decide)
  exact ⟨by rw [h.1], h.2.1⟩

/-- C4: on a bounded queue with `size + leng < 2^32`, `queue_tryput` fails with
`EDEADLK` iff `leng > maxsize`, with `EBUSY` iff `leng <= maxsize` and
`size + leng > maxsize`, and returns `0` otherwise; on either failure the queue
is as it was; on success the record is linked at the tail, `elements` is
incremented (as the 32-bit field it is) and `size` grows by `leng`. On an
unbounded queue `queue_tryput` always returns `0`. The closed flag plays no
part. -/
theorem queue_tryput_bounded (q : queue) (id op data leng : Nat) :
    (0 < q.maxsize → q.size + leng < U32 →
      ((queue_tryput q id op data leng).2 = Outcome.err Errno.EDEADLK ↔ leng > q.maxsize) ∧
      ((queue_tryput q id op data leng).2 = Outcome.err Errno.EBUSY ↔
          leng ≤ q.maxsize ∧ q.size + leng > q.maxsize) ∧
      ((queue_tryput q id op data leng).2 = Outcome.ok ↔
          leng ≤ q.maxsize ∧ q.size + leng ≤ q.maxsize) ∧
      ((queue_tryput q id op data leng).2 ≠ Outcome.ok → (queue_tryput q id op data leng).1 = q) ∧
      ((queue_tryput q id op data leng).2 = Outcome.ok →
          (queue_tryput q id op data leng).1.entries = q.entries ++ [⟨id, op, data, leng⟩] ∧
          (queue_tryput q id op data leng).1.elements = (q.elements + 1) % U32 ∧
          (queue_tryput q id op data leng).1.size = q.size + leng ∧
          (queue_tryput q id op data leng).1.maxsize = q.maxsize ∧
          (queue_tryput q id op data leng).1.closed = q.closed)) ∧
    (q.maxsize = 0 → (queue_tryput q id op data leng).2 = Outcome.ok) := by
  constructor
  · intro hmax hsum
    have hmod : (q.size + leng) % U32 = q.size + leng := Nat.mod_eq_of_lt hsum
    simp only [queue_tryput, hmod]
    split_ifs with h1 h2 h3 <;> simp_all [queue_link]
  · intro h0
    simp [queue_tryput, h0]

/-- C4, witness: a record of length 1 is admitted by an empty queue bounded by 2
and by an unbounded queue. -/
theorem queue_tryput_bounded_witness :
    ((queue_tryput (queue_new 2) 7 1 0 1).2 = Outcome.ok ∧
      (queue_tryput (queue_new 2) 7 1 0 1).1.entries = [⟨7, 1, 0, 1⟩]) ∧
    (queue_tryput (queue_new 0) 7 1 0 1).2 = Outcome.ok := by
  have h := (queue_tryput_bounded (queue_new 2) 7 1 0 1).1 (by decide) (by decide)
  have hok := h.2.2.1.2 ⟨by decide, by decide⟩
  exact ⟨⟨hok, (h.2.2.2.2 hok).1⟩, (queue_tryput_bounded (queue_new 0) 7 1 0 1).2 rfl⟩

/-- C5, the code at the failing input: on a queue bounded by `2^31` a
`queue_tryput` of length `2^31` is followed by a `queue_put` of length `2^31`;
the admission test computes `size + leng = 2^32` in 32 bits, gets `0`, and
admits the second record: both calls return `0`, the entries held sum to
`2^32 > maxsize`, and the `size` field reads `0`. -/
theorem queue_admission_wraps :
    ((queue_run (queue_new 0x80000000)
        [QCall.tryput 1 0 0 0x80000000, QCall.put 2 0 0 0x80000000]).2.map QEvent.outcome
      = [Outcome.ok, Outcome.ok]) ∧
    queue_held (queue_run (queue_new 0x80000000)
        [QCall.tryput 1 0 0 0x80000000, QCall.put 2 0 0 0x80000000]).1 = 2 ^ 32 ∧
    (queue_run (queue_new 0x80000000)
        [QCall.tryput 1 0 0 0x80000000, QCall.put 2 0 0 0x80000000]).1.size = 0 ∧
    (queue_run (queue_new 0x80000000)
        [QCall.tryput 1 0 0 0x80000000, QCall.put 2 0 0 0x80000000]).1.maxsize = 2 ^ 31 := by
  refine ⟨?_, ?_, ?_, ?_⟩ <;> decide

theorem queue_link_size_inv (q : queue) (qe : qentry) (h : queue_size_inv q)
    (hadm : q.size + qe.leng ≤ q.maxsize) (hmax : q.maxsize < U32) :
    queue_size_inv (queue_link q qe) := by
  obtain ⟨h1, h2⟩ := h
  simp only [queue_size_inv, queue_link, queue_held, List.map_append, List.sum_append,
    List.map_cons, List.map_nil, List.sum_cons, List.sum_nil, Nat.add_zero] at *
  rw [Nat.mod_eq_of_lt (by omega)]
  omega

theorem queue_unlink_size_inv (q : queue) (h : queue_size_inv q) (hmax : q.maxsize < U32) :
    queue_size_inv (queue_unlink q).1 ∧ (queue_unlink q).1.maxsize = q.maxsize := by
  obtain ⟨h1, h2⟩ := h
  cases hq : q.entries with
  | nil => simp [queue_unlink, hq, queue_size_inv, queue_held, h1, h2] at *
  | cons qe rest =>
    simp only [queue_size_inv, queue_unlink, queue_held, hq, List.map_cons, List.sum_cons,
      and_true] at *
    have hl : qe.leng % U32 = qe.leng := Nat.mod_eq_of_lt (by omega)
    rw [hl]
    simp only [U32] at *
    omega

/-- Below `maxsize = 2^31` the admission test cannot wrap: on a bounded queue
made by `queue_new`, after any sequence of calls, the `size` field is the sum
of the lengths held and that sum is at most `maxsize`. -/
theorem queue_size_inv_small (maxsize : Nat) (hpos : 0 < maxsize) (hsmall : maxsize < 2 ^ 31)
    (cs : List QCall) :
    queue_size_inv (queue_run (queue_new maxsize) cs).1 := by
  suffices H : ∀ (cs : List QCall) (q : queue), q.maxsize = maxsize → queue_size_inv q →
      queue_size_inv (queue_run q cs).1 from
    H cs (queue_new maxsize) rfl (by simp [queue_size_inv, queue_new, queue_held])
  intro cs
  induction cs with
  | nil => intro q _ h; exact h
  | cons c cs ih =>
    intro q hm h
    have hU : q.maxsize < U32 := by simp only [U32]; omega
    have hne : q.maxsize ≠ 0 := by omega
    have hstep : (queue_call q c).1.maxsize = maxsize ∧ queue_size_inv (queue_call q c).1 := by
      have hput : ∀ leng id op data, leng ≤ q.maxsize → ¬ (q.size + leng) % U32 > q.maxsize →
          queue_size_inv (queue_link q ⟨id, op, data, leng⟩) := by
        intro leng id op data h1 h2
        have hs : q.size ≤ q.maxsize := h.1 ▸ h.2
        have hmod : (q.size + leng) % U32 = q.size + leng :=
          Nat.mod_eq_of_lt (by simp only [U32]; omega)
        rw [hmod] at h2
        exact queue_link_size_inv q _ h (by simpa using h2) hU
      cases c with
      | put id op data leng =>
        simp only [queue_call, queue_put, hne, ne_eq, not_false_eq_true, if_true]
        split_ifs with h1 h2 h3
        · exact ⟨hm, h⟩
        · exact ⟨hm, h⟩
        · refine ⟨hm, hput leng id op data (by omega) ?_⟩
          intro hgt
          exact h2 ⟨hgt, h3⟩
        · exact ⟨hm, h⟩
      | tryput id op data leng =>
        simp only [queue_call, queue_tryput, hne, ne_eq, not_false_eq_true, if_true]
        split_ifs with h1 h2
        · exact ⟨hm, h⟩
        · exact ⟨hm, h⟩
        · exact ⟨hm, hput leng id op data (by omega) h2⟩
      | get =>
        obtain ⟨u1, u2⟩ := queue_unlink_size_inv q h hU
        simp only [queue_call, queue_get]
        split_ifs
        · exact ⟨hm, h⟩
        · exact ⟨hm, h⟩
        · exact ⟨u2.trans hm, u1⟩
      | tryget =>
        obtain ⟨u1, u2⟩ := queue_unlink_size_inv q h hU
        simp only [queue_call, queue_tryget]
        split_ifs
        · exact ⟨hm, h⟩
        · exact ⟨u2.trans hm, u1⟩
      | close => exact ⟨hm, h⟩
    simp only [queue_run]
    exact ih _ hstep.1 hstep.2

/-! ## Job pool: submitting to a full work queue -/

theorem jobqueue_full_tryput (jp : jobpool) (h : jobqueue_full jp) (id op data : Nat) :
    queue_tryput jp.jobqueue id op data 1 = (jp.jobqueue, Outcome.err Errno.EBUSY) ∨
    queue_tryput jp.jobqueue id op data 1 = (jp.jobqueue, Outcome.err Errno.EDEADLK) := by
  obtain ⟨h1, h2⟩ := h
  simp only [queue_tryput]
  split_ifs <;> simp_all

theorem jobqueue_full_tryput_state (jp : jobpool) (h : jobqueue_full jp) (id op data : Nat) :
    (queue_tryput jp.jobqueue id op data 1).1 = jp.jobqueue ∧
    (queue_tryput jp.jobqueue id op data 1).2 ≠ Outcome.ok := by
  rcases jobqueue_full_tryput jp h id op data with h1 | h1 <;> simp [h1]

/-- The observer `queue_isfull` agrees with the admission test unless the
`size` field stands at its top value. -/
theorem queue_isfull_jobqueue_full (jp : jobpool) (h : queue_isfull jp.jobqueue = 1)
    (hsize : jp.jobqueue.size + 1 < U32) : jobqueue_full jp := by
  simp only [queue_isfull] at h
  split_ifs at h with h1
  refine ⟨by omega, ?_⟩
  rw [Nat.mod_eq_of_lt hsize]
  omega

/-- C6: when the work queue has no room, `job_new` with `returnonfull != 0`
returns `0` and leaves the pool as it was except for `nextjobid`, which has
advanced, and the content of the block `jptr` that was allocated for the job
and freed again: the status queue and the wake pipe are untouched (nothing is
reported, so no callback follows), the new job is unlinked from its bucket
again so that every chain of the hash index is as before, and the work queue is
as before. -/
theorem job_new_full_returns_zero (jp : jobpool)
    (op args callback extra errstatus returnonfull jptr : Nat)
    (hfull : jobqueue_full jp) (hret : returnonfull ≠ 0) :
    (job_new jp op args callback extra errstatus returnonfull jptr).2 = 0 ∧
    (job_new jp op args callback extra errstatus returnonfull jptr).1
      = { jp with
          nextjobid := if (jp.nextjobid + 1) % U32 = 0 then 1 else (jp.nextjobid + 1) % U32
          heap := Function.update jp.heap jptr
            ⟨jp.nextjobid, callback, extra, args, JSTATE_ENABLED⟩ } ∧
    (job_new jp op args callback extra errstatus returnonfull jptr).1.statusqueue
      = jp.statusqueue ∧
    (job_new jp op args callback extra errstatus returnonfull jptr).1.pipe = jp.pipe ∧
    (job_new jp op args callback extra errstatus returnonfull jptr).1.jobqueue = jp.jobqueue ∧
    (job_new jp op args callback extra errstatus returnonfull jptr).1.jobhash = jp.jobhash ∧
    (∀ p, p ≠ jptr →
      (job_new jp op args callback extra errstatus returnonfull jptr).1.heap p = jp.heap p) := by
  obtain ⟨hq, hne⟩ := jobqueue_full_tryput_state jp hfull jp.nextjobid op jptr
  have hmain : job_new jp op args callback extra errstatus returnonfull jptr
      = ({ jp with
          nextjobid := if (jp.nextjobid + 1) % U32 = 0 then 1 else (jp.nextjobid + 1) % U32
          heap := Function.update jp.heap jptr
            ⟨jp.nextjobid, callback, extra, args, JSTATE_ENABLED⟩ }, 0) := by
    simp only [job_new, hq, hne, hret, ne_eq, not_false_eq_true, if_true, job_unlink,
      Function.update_same, Function.update_idem, Function.update_eq_self]
  rw [hmain]
  refine ⟨rfl, rfl, rfl, rfl, rfl, rfl, ?_⟩
  intro p hp
  simp [Function.update_noteq hp]

/-- C6, witness: the work queue of capacity 1 holds one record; `job_new` with
`returnonfull = 1` returns 0. -/
theorem job_new_full_returns_zero_witness :
    jobqueue_full { jobpool_empty with jobqueue := (queue_tryput (queue_new 1) 1 3 50 1).1 } ∧
    (job_new { jobpool_empty with jobqueue := (queue_tryput (queue_new 1) 1 3 50 1).1 }
      3 60 70 80 0 1 90).2 = 0 := by
  refine ⟨by decide, ?_⟩
  exact (job_new_full_returns_zero
    { jobpool_empty with jobqueue := (queue_tryput (queue_new 1) 1 3 50 1).1 }
    3 60 70 80 0 1 90 (by decide) (by decide)).1

/-! ## Job pool: cancellation against the worker's promotion -/

theorem job_disable_fold (jobid : Nat) (chain : List Nat) : ∀ (heap : Nat → job) (q : Nat),
    chain.foldl (job_disable_at jobid) heap q
      = if q ∈ chain ∧ (heap q).jobid = jobid ∧ (heap q).jstate = JSTATE_ENABLED
        then { heap q with jstate := JSTATE_DISABLED } else heap q := by
  induction chain with
  | nil => intro heap q; simp
  | cons a rest ih =>
    intro heap q
    simp only [List.foldl_cons, ih, List.mem_cons]
    by_cases hqa : q = a
    · subst hqa
      by_cases hm : (heap q).jobid = jobid ∧ (heap q).jstate = JSTATE_ENABLED
      · simp [job_disable_at, hm, JSTATE_DISABLED, JSTATE_ENABLED]
      · have hd : job_disable_at jobid heap q = heap := by simp [job_disable_at, hm]
        rw [hd]
        rw [not_and] at hm
        split_ifs with h1 h2 h2 <;> first | rfl | (exfalso; tauto)
    · have hd : job_disable_at jobid heap a q = heap q := by
        simp only [job_disable_at]
        split_ifs
        · exact Function.update_noteq hqa _ _
        · rfl
      simp only [hd, hqa, false_or]

theorem job_worker_switch_data (c : Collab) (op jstate args : Nat) (hop : op_touches_data op) :
    job_worker_switch c op jstate args
      = some (if jstate = JSTATE_DISABLED then (c.MFS_ERROR_NOTDONE % 256, [])
              else (c.forOp op args % 256, [⟨op, args⟩])) := by
  obtain ⟨h1, h2⟩ := hop
  simp only [OP_CHUNKOP, OP_CHUNKMOVE] at h1 h2
  have : op = 2 ∨ op = 3 ∨ op = 4 ∨ op = 5 ∨ op = 6 ∨ op = 7 ∨ op = 8 ∨ op = 9 := by omega
  rcases this with h | h | h | h | h | h | h | h <;> subst h <;>
    simp [job_worker_switch, job_worker_arm, Collab.forOp, OP_CHUNKOP, OP_SERV_READ,
      OP_SERV_WRITE, OP_REPLICATE, OP_GETBLOCKS, OP_GETCHECKSUM, OP_GETCHECKSUMTAB]

theorem job_worker_occupy_heap (jp : jobpool) (created : Bool) :
    (job_worker_occupy jp created).heap = jp.heap ∧
    (job_worker_occupy jp created).jobhash = jp.jobhash := by
  unfold job_worker_occupy job_spawn_worker
  cases created <;> split_ifs <;> exact ⟨rfl, rfl⟩

theorem job_worker_promote_heap (jp : jobpool) (jptr : Nat) (hp : jptr ≠ 0) :
    (job_worker_promote jp jptr).2 = (jp.heap jptr).jstate ∧
    (job_worker_promote jp jptr).1.jobhash = jp.jobhash ∧
    (job_worker_promote jp jptr).1.heap
      = if (jp.heap jptr).jstate = JSTATE_ENABLED
        then Function.update jp.heap jptr { jp.heap jptr with jstate := JSTATE_INPROGRESS }
        else jp.heap := by
  unfold job_worker_promote
  rw [if_pos hp]
  split_ifs <;> exact ⟨rfl, rfl, rfl⟩

theorem job_worker_take_heap (jp : jobpool) (jobid op jptr : Nat) (created : Bool)
    (hp : jptr ≠ 0) :
    (job_worker_take jp jobid op jptr created).2 = Taken.running (jp.heap jptr).jstate ∧
    (job_worker_take jp jobid op jptr created).1.jobhash = jp.jobhash ∧
    (job_worker_take jp jobid op jptr created).1.heap
      = if (jp.heap jptr).jstate = JSTATE_ENABLED
        then Function.update jp.heap jptr { jp.heap jptr with jstate := JSTATE_INPROGRESS }
        else jp.heap := by
  have hsent : ¬ (jobid = 0 ∧ op = 0 ∧ jptr = 0) := fun h => hp h.2.2
  obtain ⟨o1, o2⟩ := job_worker_occupy_heap jp created
  have h := job_worker_promote_heap (job_worker_occupy jp created) jptr hp
  rw [o1, o2] at h
  unfold job_worker_take
  rw [if_neg hsent]
  dsimp only
  exact ⟨congrArg Taken.running h.1, h.2.1, h.2.2⟩

/-- C8: a job at `p` is linked in the bucket of its id, is Enabled, and its
record `(jobid,op,p)` with a data-touching `op` has been taken off the work
queue by a worker. If `job_pool_disable_job(jobid)` runs before the worker's
section under `jobslock`, the worker reads Disabled, its `switch` yields the
status byte `MFS_ERROR_NOTDONE` and calls no collaborator. If it runs after
that section, the worker has read Enabled and promoted the job, the job is
still InProgress after the disable, and the `switch` calls the collaborator of
`op` once on the job's `args` and yields its return value as the status
byte. -/
theorem job_disable_race (c : Collab) (jp : jobpool) (jobid op p : Nat) (created : Bool)
    (hop : op_touches_data op) (hp : p ≠ 0) (hidx : p ∈ jp.jobhash (JHASHPOS jobid))
    (hid : (jp.heap p).jobid = jobid) (hen : (jp.heap p).jstate = JSTATE_ENABLED) :
    ((job_worker_take (job_pool_disable_job jp jobid) jobid op p created).2
        = Taken.running JSTATE_DISABLED ∧
      job_worker_switch c op JSTATE_DISABLED
          ((job_worker_take (job_pool_disable_job jp jobid) jobid op p created).1.heap p).args
        = some (c.MFS_ERROR_NOTDONE % 256, [])) ∧
    ((job_worker_take jp jobid op p created).2 = Taken.running JSTATE_ENABLED ∧
      ((job_pool_disable_job (job_worker_take jp jobid op p created).1 jobid).heap p).jstate
        = JSTATE_INPROGRESS ∧
      job_worker_switch c op JSTATE_ENABLED
          ((job_pool_disable_job (job_worker_take jp jobid op p created).1 jobid).heap p).args
        = some (c.forOp op (jp.heap p).args % 256, [⟨op, (jp.heap p).args⟩])) := by
  constructor
  · obtain ⟨t1, _, _⟩ := job_worker_take_heap (job_pool_disable_job jp jobid) jobid op p created hp
    have hd : ((job_pool_disable_job jp jobid).heap p).jstate = JSTATE_DISABLED := by
      simp [job_pool_disable_job, job_disable_fold, hidx, hid, hen]
    refine ⟨by rw [t1, hd], ?_⟩
    rw [job_worker_switch_data c op _ _ hop]
    simp
  · obtain ⟨t1, t2, t3⟩ := job_worker_take_heap jp jobid op p created hp
    have hheap : (job_pool_disable_job (job_worker_take jp jobid op p created).1 jobid).heap p
        = { jp.heap p with jstate := JSTATE_INPROGRESS } := by
      simp [job_pool_disable_job, job_disable_fold, t2, t3, hen, JSTATE_INPROGRESS,
        JSTATE_ENABLED]
    refine ⟨by rw [t1, hen], by rw [hheap], ?_⟩
    rw [job_worker_switch_data c op _ _ hop, hheap]
    simp [JSTATE_ENABLED, JSTATE_DISABLED]

/-- C8, witness: the pool holding the Enabled job 5 at address 100; a worker
that takes it after `job_pool_disable_job(5)` reads Disabled, one that takes it
before reads Enabled. -/
theorem job_disable_race_witness :
    (op_touches_data OP_CHUNKOP ∧ 100 ∈ jobpool_one_job.jobhash (JHASHPOS 5)) ∧
    (job_worker_take (job_pool_disable_job jobpool_one_job 5) 5 OP_CHUNKOP 100 true).2
      = Taken.running JSTATE_DISABLED ∧
    (job_worker_take jobpool_one_job 5 OP_CHUNKOP 100 true).2 = Taken.running JSTATE_ENABLED := by
  have h := job_disable_race collab_sample jobpool_one_job 5 OP_CHUNKOP 100 true
    (by decide) (by decide) (by decide) (by decide) (by decide)
  exact ⟨⟨by decide, by decide⟩, h.1.1, h.2.1⟩

/-- What the worker reports is the status of its `switch`: on the unbounded
status queue `job_worker_done` appends the entry `(jobid,status)`. -/
theorem job_worker_done_reports (jp : jobpool) (jobid status : Nat)
    (hunb : jp.statusqueue.maxsize = 0) :
    (job_worker_done jp jobid status).1.statusqueue.entries
      = jp.statusqueue.entries ++ [⟨jobid, status, 0, 1⟩] := by
  have hput : queue_put jp.statusqueue jobid status 0 1
      = (queue_link jp.statusqueue ⟨jobid, status, 0, 1⟩, Outcome.ok) := by
    simp [queue_put, hunb]
  unfold job_worker_done
  dsimp only
  split_ifs <;> simp [job_close_worker, job_send_status, hput, queue_link]

/-! ## Job pool: heavy-load signal -/

/-- C10, counterexample: with `workers_max = 4` (marks 3 and 2) and three busy
workers, `busy >= workers_himark` holds and `masterconn_heavyload` is not
called. -/
theorem job_heavyload_at_himark_silent :
    workers_busy (job_reload { jobpool_empty with workers_total := 3, workers_avail := 0 } 4 40)
      = (job_reload { jobpool_empty with workers_total := 3, workers_avail := 0 } 4 40).workers_himark ∧
    job_heavyload_test
      (job_reload { jobpool_empty with workers_total := 3, workers_avail := 0 } 4 40) = none := by
  constructor <;> decide

/-- C10, amended: with `busy = workers_total - workers_avail` (32-bit),
`job_heavyload_test` calls `masterconn_heavyload` with `hlstatus = 2` exactly
when `busy > workers_himark` and `busy >= workers_lomark`, with `hlstatus = 1`
exactly when `busy < workers_lomark`, in both cases with
`load = busy + elements of the work queue` (32-bit), and does not call it
otherwise. -/
theorem job_heavyload_signal (jp : jobpool) :
    (job_heavyload_test jp
        = some ((workers_busy jp + queue_elements jp.jobqueue) % U32, 2) ↔
      workers_busy jp > jp.workers_himark ∧ jp.workers_lomark ≤ workers_busy jp) ∧
    (job_heavyload_test jp
        = some ((workers_busy jp + queue_elements jp.jobqueue) % U32, 1) ↔
      workers_busy jp < jp.workers_lomark) ∧
    (job_heavyload_test jp = none ↔
      jp.workers_lomark ≤ workers_busy jp ∧ workers_busy jp ≤ jp.workers_himark) ∧
    (∀ load hl, job_heavyload_test jp = some (load, hl) →
      load = (workers_busy jp + queue_elements jp.jobqueue) % U32 ∧ (hl = 1 ∨ hl = 2)) := by
  simp only [job_heavyload_test, workers_busy]
  by_cases h1 : (jp.workers_total + U32 - jp.workers_avail) % U32 < jp.workers_lomark <;>
    by_cases h2 : (jp.workers_total + U32 - jp.workers_avail) % U32 > jp.workers_himark <;>
    simp [h1, h2] <;> omega

/-! ## Job pool: draining the status queue -/

theorem job_unlink_find (heap : Nat → job) (jobid : Nat) (chain : List Nat) :
    job_unlink heap jobid chain
      = (chain.find? (fun p => decide ((heap p).jobid = jobid)),
         match chain.find? (fun p => decide ((heap p).jobid = jobid)) with
         | none => chain
         | some p => chain.erase p) := by
  induction chain with
  | nil => rfl
  | cons a rest ih =>
    by_cases h : (heap a).jobid = jobid
    · simp [job_unlink, h]
    · simp only [job_unlink, h, if_false, ih, List.find?_cons, decide_False]
      cases hf : rest.find? (fun p => decide ((heap p).jobid = jobid)) with
      | none => rfl
      | some q =>
        have hq := List.find?_some hf
        have hqa : a ≠ q := by
          rintro rfl
          simp only [decide_eq_true_eq] at hq
          exact h hq
        simp [List.erase_cons_tail, hqa]

theorem job_check_one_step (cb : Nat) (jp : jobpool) (e : qentry) :
    job_check_one cb jp e.id (e.op % 256)
      = ({ jp with jobhash := (poll_check_step cb jp.heap jp.jobhash e).1 },
         (poll_check_step cb jp.heap jp.jobhash e).2) := by
  simp only [job_check_one, poll_check_step, job_unlink_find]
  cases hf : (jp.jobhash (JHASHPOS e.id)).find? (fun p => decide ((jp.heap p).jobid = e.id)) with
  | none => rfl
  | some p => simp [and_comm]

theorem job_receive_status_cons (jp : jobpool) (e : qentry) (es : List qentry)
    (hent : jp.statusqueue.entries = e :: es) (hclosed : jp.statusqueue.closed = 0)
    (hcount : jp.statusqueue.elements = (e :: es).length) (hlen : (e :: es).length < U32) :
    ∃ sq : queue, sq.entries = es ∧ sq.closed = 0 ∧ sq.elements = es.length ∧
      (es = [] → ∀ b rest, jp.pipe = b :: rest → job_receive_status jp
          = some ⟨{ jp with statusqueue := sq, pipe := rest }, 0, e.id, e.op % 256⟩) ∧
      (es ≠ [] → job_receive_status jp
          = some ⟨{ jp with statusqueue := sq }, 1, e.id, e.op % 256⟩) := by
  have hel : jp.statusqueue.elements ≠ 0 := by simp [hcount]
  have hget : queue_get jp.statusqueue
      = ((queue_unlink jp.statusqueue).1, Outcome.ok, e) := by
    simp [queue_get, hel, hclosed, queue_unlink, hent]
  have hsqe : (queue_unlink jp.statusqueue).1.elements = es.length := by
    simp only [queue_unlink, hent, hcount, List.length_cons, U32] at *
    omega
  refine ⟨(queue_unlink jp.statusqueue).1, by simp [queue_unlink, hent],
    by simp [queue_unlink, hent, hclosed], hsqe, ?_, ?_⟩
  · intro h0 b rest hpipe
    have hz : (queue_unlink jp.statusqueue).1.elements = 0 := by simp [hsqe, h0]
    simp [job_receive_status, hget, queue_isempty, hz, hpipe]
  · intro h0
    have hz : (queue_unlink jp.statusqueue).1.elements ≠ 0 := by
      rw [hsqe]
      exact fun h => h0 (List.length_eq_zero.mp h)
    simp [job_receive_status, hget, queue_isempty, hz]

theorem job_check_loop_drain (cb : Nat) (es : List qentry) :
    ∀ (e : qentry) (jp : jobpool) (fuel : Nat),
    jp.statusqueue.entries = e :: es → jp.statusqueue.closed = 0 →
    jp.statusqueue.elements = (e :: es).length → (e :: es).length < U32 →
    jp.pipe ≠ [] → (e :: es).length ≤ fuel →
    ∃ jp', job_check_loop cb fuel jp
        = some (jp', (poll_check_spec cb jp.heap jp.jobhash (e :: es)).2) ∧
      jp'.statusqueue.entries = [] ∧ jp'.statusqueue.elements = 0 ∧
      jp'.heap = jp.heap ∧
      jp'.jobhash = (poll_check_spec cb jp.heap jp.jobhash (e :: es)).1 ∧
      jp'.pipe = jp.pipe.tail ∧ jp'.jobqueue = jp.jobqueue := by
  induction es with
  | nil =>
    intro e jp fuel hent hcl hcount hlen hpipe hfuel
    obtain ⟨sq, h1, _, h3, hlast, _⟩ := job_receive_status_cons jp e [] hent hcl hcount hlen
    obtain ⟨f, rfl⟩ : ∃ f, fuel = f + 1 := ⟨fuel - 1, by simp at hfuel; omega⟩
    cases hp : jp.pipe with
    | nil => exact absurd hp hpipe
    | cons b rest =>
      refine ⟨{ jp with
                statusqueue := sq
                pipe := rest
                jobhash := (poll_check_step cb jp.heap jp.jobhash e).1 },
        ?_, h1, ?_, rfl, ?_, rfl, rfl⟩
      · simp only [job_check_loop, hlast rfl b rest hp, job_check_one_step, poll_check_spec,
          List.append_nil]
        simp
      · simpa using h3
      · simp [poll_check_spec]
  | cons e2 es ih =>
    intro e jp fuel hent hcl hcount hlen hpipe hfuel
    obtain ⟨sq, h1, h2, h3, _, hmore⟩ :=
      job_receive_status_cons jp e (e2 :: es) hent hcl hcount hlen
    obtain ⟨f, rfl⟩ : ∃ f, fuel = f + 1 := ⟨fuel - 1, by simp at hfuel; omega⟩
    have hlen2 : (e2 :: es).length < U32 := by
      simp only [List.length_cons] at hlen ⊢
      omega
    obtain ⟨jp', i1, i2, i3, i4, i5, i6, i7⟩ := ih e2
      { jp with statusqueue := sq, jobhash := (poll_check_step cb jp.heap jp.jobhash e).1 }
      f h1 h2 h3 hlen2 hpipe (by simp only [List.length_cons] at hfuel ⊢; omega)
    refine ⟨jp', ?_, i2, i3, i4, ?_, i6, i7⟩
    · simp only [job_check_loop, hmore (by simp), job_check_one_step]
      simp only [ne_eq, one_ne_zero, not_false_eq_true, if_true]
      rw [i1]
      simp [poll_check_spec]
    · rw [i5]
      simp [poll_check_spec]

theorem poll_check_step_mem (cb : Nat) (heap : Nat → job) (hash : Nat → List Nat) (e : qentry)
    (b p : Nat) (hp : p ∈ hash b) (hid : e.id ≠ (heap p).jobid) :
    p ∈ (poll_check_step cb heap hash e).1 b := by
  simp only [poll_check_step]
  cases hf : (hash (JHASHPOS e.id)).find? (fun p => decide ((heap p).jobid = e.id)) with
  | none => exact hp
  | some q =>
    have hq := List.find?_some hf
    simp only [decide_eq_true_eq] at hq
    have hpq : p ≠ q := by
      rintro rfl
      exact hid hq.symm
    by_cases hb : b = JHASHPOS e.id
    · subst hb
      simp only [Function.update_same]
      exact (List.mem_erase_of_ne hpq).mpr hp
    · simp only [Function.update_noteq hb]
      exact hp

theorem poll_check_spec_mem (cb : Nat) (heap : Nat → job) (es : List qentry) :
    ∀ (hash : Nat → List Nat) (b p : Nat), p ∈ hash b →
      (∀ e ∈ es, e.id ≠ (heap p).jobid) → p ∈ (poll_check_spec cb heap hash es).1 b := by
  induction es with
  | nil => intro hash b p hp _; exact hp
  | cons e es ih =>
    intro hash b p hp hid
    simp only [poll_check_spec]
    exact ih _ b p (poll_check_step_mem cb heap hash e b p hp (hid e (by simp)))
      (fun e' he' => hid e' (by simp [he']))

theorem poll_check_step_sub (cb : Nat) (heap : Nat → job) (hash : Nat → List Nat) (e : qentry)
    (b p : Nat) (hp : p ∈ (poll_check_step cb heap hash e).1 b) : p ∈ hash b := by
  simp only [poll_check_step] at hp
  cases hf : (hash (JHASHPOS e.id)).find? (fun p => decide ((heap p).jobid = e.id)) with
  | none => simpa [hf] using hp
  | some q =>
    simp only [hf] at hp
    by_cases hb : b = JHASHPOS e.id
    · subst hb
      simp only [Function.update_same] at hp
      exact List.mem_of_mem_erase hp
    · simpa [Function.update_noteq hb] using hp

theorem poll_check_step_calls (cb : Nat) (heap : Nat → job) (hash : Nat → List Nat) (e : qentry)
    (c : CbCall) (hc : c ∈ (poll_check_step cb heap hash e).2) :
    cb ≠ 0 ∧ ∃ p, p ∈ hash (JHASHPOS e.id) ∧ (heap p).jobid = e.id ∧ (heap p).callback ≠ 0 ∧
      c = ⟨(heap p).callback, e.op % 256, (heap p).extra⟩ := by
  simp only [poll_check_step] at hc
  cases hf : (hash (JHASHPOS e.id)).find? (fun p => decide ((heap p).jobid = e.id)) with
  | none => simp [hf] at hc
  | some q =>
    simp only [hf] at hc
    have hq := List.find?_some hf
    simp only [decide_eq_true_eq] at hq
    split_ifs at hc with hcond
    · simp only [List.mem_singleton] at hc
      exact ⟨hcond.1, q, List.mem_of_find?_eq_some hf, hq, hcond.2, hc⟩
    · simp at hc

theorem poll_check_spec_calls (cb : Nat) (heap : Nat → job) (es : List qentry) :
    ∀ (hash : Nat → List Nat),
      ((poll_check_spec cb heap hash es).2.length ≤ es.length) ∧
      (cb = 0 → (poll_check_spec cb heap hash es).2 = []) ∧
      (∀ b p, p ∈ (poll_check_spec cb heap hash es).1 b → p ∈ hash b) ∧
      (∀ c ∈ (poll_check_spec cb heap hash es).2, cb ≠ 0 ∧ ∃ e ∈ es, ∃ p,
        p ∈ hash (JHASHPOS e.id) ∧ (heap p).jobid = e.id ∧ (heap p).callback ≠ 0 ∧
        c = ⟨(heap p).callback, e.op % 256, (heap p).extra⟩) := by
  induction es with
  | nil => intro hash; simp [poll_check_spec]
  | cons e es ih =>
    intro hash
    obtain ⟨i1, i2, i3, i4⟩ := ih (poll_check_step cb heap hash e).1
    have hstep : (poll_check_step cb heap hash e).2.length ≤ 1 := by
      simp only [poll_check_step]
      cases (hash (JHASHPOS e.id)).find? (fun p => decide ((heap p).jobid = e.id)) with
      | none => simp
      | some q => dsimp only; split_ifs <;> simp
    refine ⟨?_, ?_, ?_, ?_⟩
    · simp only [poll_check_spec, List.length_append, List.length_cons]
      omega
    · intro h0
      have hs : (poll_check_step cb heap hash e).2 = [] := by
        simp only [poll_check_step]
        cases (hash (JHASHPOS e.id)).find? (fun p => decide ((heap p).jobid = e.id)) with
        | none => rfl
        | some q => simp [h0]
      simp [poll_check_spec, hs, i2 h0]
    · intro b p hp
      exact poll_check_step_sub cb heap hash e b p (i3 b p hp)
    · intro c hc
      simp only [poll_check_spec, List.mem_append] at hc
      rcases hc with hc | hc
      · obtain ⟨h0, p, hp⟩ := poll_check_step_calls cb heap hash e c hc
        exact ⟨h0, e, by simp, p, hp⟩
      · obtain ⟨h0, e', he', p, hp1, hp2⟩ := i4 c hc
        exact ⟨h0, e', by simp [he'], p,
          poll_check_step_sub cb heap hash e _ p hp1, hp2⟩

theorem job_check_jobs_returns (cb : Nat) (jp : jobpool) (hok : status_path_ok jp)
    (hne : jp.statusqueue.entries ≠ []) :
    ∃ jp', job_pool_check_jobs cb jp
        = some (jp', (poll_check_spec cb jp.heap jp.jobhash jp.statusqueue.entries).2) ∧
      jp'.statusqueue.entries = [] ∧ jp'.statusqueue.elements = 0 ∧
      jp'.jobhash = (poll_check_spec cb jp.heap jp.jobhash jp.statusqueue.entries).1 ∧
      jp'.heap = jp.heap := by
  obtain ⟨hcl, hcount, hlen, hpipe⟩ := hok
  cases hent : jp.statusqueue.entries with
  | nil => exact absurd hent hne
  | cons e es =>
    obtain ⟨jp', l1, l2, l3, l4, l5, _, _⟩ := job_check_loop_drain cb es e jp
      (jp.statusqueue.entries.length + 1) hent hcl (by rw [hcount, hent])
      (by rw [← hent]; exact hlen) (hpipe hne) (by rw [hent]; omega)
    exact ⟨jp', l1, l2, l3, l5, l4⟩

/-- C9: when the status path is in order (status queue open and counted, a
wake byte pending) and the status queue is not empty, `job_pool_check_jobs(cb)`
returns, leaves the status queue empty, and does to the hash index and to the
callbacks what the specification says for its entries taken in queue order:
for each `(id,status)` the first job with that id in the bucket of `id`, if
there is one, has its callback invoked once with that status and the job's
`extra` iff `cb != 0` and the callback is non-null, and is unlinked. Every
callback invoked belongs to an indexed job whose id was drained, there are at
most as many invocations as entries, none with `cb = 0`; the jobs are not
modified, and a job whose id was not drained stays in its chain. -/
theorem job_pool_check_jobs_drains (cb : Nat) (jp : jobpool) (hok : status_path_ok jp)
    (hne : jp.statusqueue.entries ≠ []) :
    ∃ jp', job_pool_check_jobs cb jp
        = some (jp', (poll_check_spec cb jp.heap jp.jobhash jp.statusqueue.entries).2) ∧
      jp'.statusqueue.entries = [] ∧ queue_isempty jp'.statusqueue = 1 ∧
      jp'.jobhash = (poll_check_spec cb jp.heap jp.jobhash jp.statusqueue.entries).1 ∧
      jp'.heap = jp.heap ∧
      (cb = 0 → (poll_check_spec cb jp.heap jp.jobhash jp.statusqueue.entries).2 = []) ∧
      (poll_check_spec cb jp.heap jp.jobhash jp.statusqueue.entries).2.length
        ≤ jp.statusqueue.entries.length ∧
      (∀ c ∈ (poll_check_spec cb jp.heap jp.jobhash jp.statusqueue.entries).2,
        cb ≠ 0 ∧ ∃ e ∈ jp.statusqueue.entries, ∃ p, p ∈ jp.jobhash (JHASHPOS e.id) ∧
          (jp.heap p).jobid = e.id ∧ (jp.heap p).callback ≠ 0 ∧
          c = ⟨(jp.heap p).callback, e.op % 256, (jp.heap p).extra⟩) ∧
      (∀ b p, p ∈ jp.jobhash b →
        (∀ e ∈ jp.statusqueue.entries, e.id ≠ (jp.heap p).jobid) → p ∈ jp'.jobhash b) ∧
      (∀ b p, p ∈ jp'.jobhash b → p ∈ jp.jobhash b) := by
  obtain ⟨jp', l1, l2, l3, l5, l4⟩ := job_check_jobs_returns cb jp hok hne
  obtain ⟨c1, c2, c3, c4⟩ :=
    poll_check_spec_calls cb jp.heap jp.statusqueue.entries jp.jobhash
  refine ⟨jp', l1, l2, by simp [queue_isempty, l3], l5, l4, c2, c1, c4, ?_, ?_⟩
  · intro b p hp hid
    rw [l5]
    exact poll_check_spec_mem cb jp.heap jp.statusqueue.entries jp.jobhash b p hp hid
  · intro b p hp
    rw [l5] at hp
    exact c3 b p hp

/-- C9, witness: the status `(5,0)` is sent for the job of `jobpool_one_job`;
`job_pool_check_jobs(1)` invokes its callback 70 with status 0 and extra 80 and
leaves the status queue empty. -/
theorem job_pool_check_jobs_drains_witness :
    status_path_ok (job_send_status jobpool_one_job 5 0) ∧
    ∃ jp', job_pool_check_jobs 1 (job_send_status jobpool_one_job 5 0)
        = some (jp', [⟨70, 0, 80⟩]) ∧ jp'.statusqueue.entries = [] := by
  have hok : status_path_ok (job_send_status jobpool_one_job 5 0) := by
    unfold status_path_ok
    decide
  obtain ⟨jp', h1, h2, _⟩ :=
    job_pool_check_jobs_drains 1 (job_send_status jobpool_one_job 5 0) hok (by decide)
  refine ⟨hok, jp', ?_, h2⟩
  rw [h1]
  rfl

/-! ## Job pool: a full work queue reported through the status path -/

theorem job_send_status_unbounded (jp : jobpool) (jobid status : Nat)
    (hunb : jp.statusqueue.maxsize = 0) (hok : status_path_ok jp)
    (hroom : jp.statusqueue.entries.length + 1 < U32) :
    (job_send_status jp jobid status).statusqueue.entries
      = jp.statusqueue.entries ++ [⟨jobid, status, 0, 1⟩] ∧
    (job_send_status jp jobid status).statusqueue.maxsize = 0 ∧
    status_path_ok (job_send_status jp jobid status) ∧
    (job_send_status jp jobid status).jobhash = jp.jobhash ∧
    (job_send_status jp jobid status).heap = jp.heap ∧
    (job_send_status jp jobid status).jobqueue = jp.jobqueue := by
  obtain ⟨hcl, hcount, hlen, hpipe⟩ := hok
  have hput : queue_put jp.statusqueue jobid status 0 1
      = (queue_link jp.statusqueue ⟨jobid, status, 0, 1⟩, Outcome.ok) := by
    simp [queue_put, hunb]
  refine ⟨by simp [job_send_status, hput, queue_link], by simp [job_send_status, hput, queue_link, hunb],
    ⟨by simp [job_send_status, hput, queue_link, hcl], ?_, ?_, ?_⟩, rfl, rfl, rfl⟩
  · simp only [job_send_status, hput, queue_link, hcount, List.length_append,
      List.length_singleton]
    exact Nat.mod_eq_of_lt hroom
  · simp only [job_send_status, hput, queue_link, List.length_append, List.length_singleton]
    exact hroom
  · intro _
    simp only [job_send_status, queue_isempty]
    by_cases h0 : jp.statusqueue.elements = 0
    · simp [h0]
    · have hne : jp.statusqueue.entries ≠ [] := by
        intro h
        rw [h] at hcount
        exact h0 hcount
      simpa [h0] using hpipe hne

theorem find_erase_of_not (P : Nat → Bool) (q : Nat) (hq : P q = false) :
    ∀ l : List Nat, (l.erase q).find? P = l.find? P := by
  intro l
  induction l with
  | nil => rfl
  | cons a rest ih =>
    by_cases ha : a = q
    · subst ha
      simp [List.find?_cons, hq]
    · rw [List.erase_cons_tail (by simpa using ha)]
      simp only [List.find?_cons, ih]

theorem poll_check_step_find (cb : Nat) (heap : Nat → job) (hash : Nat → List Nat) (e : qentry)
    (J : Nat) (hJ : e.id ≠ J) :
    ((poll_check_step cb heap hash e).1 (JHASHPOS J)).find? (fun p => decide ((heap p).jobid = J))
      = (hash (JHASHPOS J)).find? (fun p => decide ((heap p).jobid = J)) := by
  simp only [poll_check_step]
  cases hf : (hash (JHASHPOS e.id)).find? (fun p => decide ((heap p).jobid = e.id)) with
  | none => rfl
  | some q =>
    have hq := List.find?_some hf
    simp only [decide_eq_true_eq] at hq
    by_cases hb : JHASHPOS J = JHASHPOS e.id
    · rw [hb]
      simp only [Function.update_same]
      exact find_erase_of_not _ q (by simp [hq, hJ]) _
    · simp only [Function.update_noteq hb]

theorem poll_check_spec_find (cb : Nat) (heap : Nat → job) (J : Nat) (es : List qentry) :
    ∀ hash : Nat → List Nat, (∀ e ∈ es, e.id ≠ J) →
    ((poll_check_spec cb heap hash es).1 (JHASHPOS J)).find? (fun p => decide ((heap p).jobid = J))
      = (hash (JHASHPOS J)).find? (fun p => decide ((heap p).jobid = J)) := by
  induction es with
  | nil => intro hash _; rfl
  | cons e es ih =>
    intro hash hid
    simp only [poll_check_spec]
    rw [ih _ (fun e' he' => hid e' (by simp [he']))]
    exact poll_check_step_find cb heap hash e J (hid e (by simp))

theorem poll_check_spec_append (cb : Nat) (heap : Nat → job) (e : qentry) (es : List qentry) :
    ∀ hash : Nat → List Nat,
    poll_check_spec cb heap hash (es ++ [e])
      = ((poll_check_step cb heap (poll_check_spec cb heap hash es).1 e).1,
         (poll_check_spec cb heap hash es).2
           ++ (poll_check_step cb heap (poll_check_spec cb heap hash es).1 e).2) := by
  induction es with
  | nil => intro hash; simp [poll_check_spec]
  | cons a es ih =>
    intro hash
    simp only [List.cons_append, poll_check_spec, List.append_eq, ih, List.append_assoc]

theorem poll_check_spec_last (heap : Nat → job) (hash : Nat → List Nat) (es : List qentry)
    (J st p : Nat) (hfresh : ∀ e ∈ es, e.id ≠ J)
    (hfirst : (hash (JHASHPOS J)).find? (fun q => decide ((heap q).jobid = J)) = some p) :
    (poll_check_spec 1 heap hash (es ++ [⟨J, st, 0, 1⟩])).2
      = (poll_check_spec 1 heap hash es).2
          ++ if (heap p).callback ≠ 0 then [⟨(heap p).callback, st % 256, (heap p).extra⟩]
             else [] := by
  have hfind := poll_check_spec_find 1 heap J es hash hfresh
  rw [hfirst] at hfind
  rw [poll_check_spec_append]
  simp only [poll_check_step, hfind]
  simp

/-- C7: when the work queue has no room, `job_new` with `returnonfull = 0`
returns the job's id, which is not zero, leaves the job linked at the head of
its bucket in state Enabled, leaves the work queue as it was, and appends the
one entry `(jobid,errstatus)` to the status queue. With the status path in
order and the id not among the statuses already pending, the next
`job_pool_check_jobs(1)` returns and its last callback invocation is the
job's callback with `errstatus` and the job's `extra` (no invocation for a
null callback). -/
theorem job_new_full_reports (jp : jobpool) (op args callback extra errstatus jptr : Nat)
    (hfull : jobqueue_full jp) (hid : jp.nextjobid ≠ 0)
    (hunb : jp.statusqueue.maxsize = 0) (hok : status_path_ok jp)
    (hroom : jp.statusqueue.entries.length + 1 < U32)
    (hfresh : ∀ e ∈ jp.statusqueue.entries, e.id ≠ jp.nextjobid) :
    (job_new jp op args callback extra errstatus 0 jptr).2 = jp.nextjobid ∧
    (job_new jp op args callback extra errstatus 0 jptr).2 ≠ 0 ∧
    (job_new jp op args callback extra errstatus 0 jptr).1.jobhash (JHASHPOS jp.nextjobid)
      = jptr :: jp.jobhash (JHASHPOS jp.nextjobid) ∧
    (job_new jp op args callback extra errstatus 0 jptr).1.heap jptr
      = ⟨jp.nextjobid, callback, extra, args, JSTATE_ENABLED⟩ ∧
    (job_new jp op args callback extra errstatus 0 jptr).1.jobqueue = jp.jobqueue ∧
    (job_new jp op args callback extra errstatus 0 jptr).1.statusqueue.entries
      = jp.statusqueue.entries ++ [⟨jp.nextjobid, errstatus, 0, 1⟩] ∧
    ∃ jp' pre, job_pool_check_jobs 1 (job_new jp op args callback extra errstatus 0 jptr).1
      = some (jp', pre ++
          if callback ≠ 0 then [⟨callback, errstatus % 256, extra⟩] else []) := by
  obtain ⟨hq, hne⟩ := jobqueue_full_tryput_state jp hfull jp.nextjobid op jptr
  have hnew : job_new jp op args callback extra errstatus 0 jptr
      = (job_send_status { jp with
          nextjobid := if (jp.nextjobid + 1) % U32 = 0 then 1 else (jp.nextjobid + 1) % U32
          heap := Function.update jp.heap jptr
            ⟨jp.nextjobid, callback, extra, args, JSTATE_ENABLED⟩
          jobhash := Function.update jp.jobhash (JHASHPOS jp.nextjobid)
            (jptr :: jp.jobhash (JHASHPOS jp.nextjobid)) } jp.nextjobid errstatus,
         jp.nextjobid) := by
    simp only [job_new, hq, hne, ne_eq, not_false_eq_true, if_true, not_true_eq_false, if_false]
  obtain ⟨s1, _, s3, s4, s5, s6⟩ := job_send_status_unbounded
    { jp with
      nextjobid := if (jp.nextjobid + 1) % U32 = 0 then 1 else (jp.nextjobid + 1) % U32
      heap := Function.update jp.heap jptr ⟨jp.nextjobid, callback, extra, args, JSTATE_ENABLED⟩
      jobhash := Function.update jp.jobhash (JHASHPOS jp.nextjobid)
        (jptr :: jp.jobhash (JHASHPOS jp.nextjobid)) }
    jp.nextjobid errstatus hunb hok hroom
  rw [hnew]
  refine ⟨rfl, hid, ?_, ?_, s6, s1, ?_⟩
  · rw [s4]
    simp
  · rw [s5]
    simp
  · obtain ⟨jp', d1, _⟩ := job_check_jobs_returns 1 _ s3 (by rw [s1]; simp)
    refine ⟨jp', (poll_check_spec 1
      (Function.update jp.heap jptr ⟨jp.nextjobid, callback, extra, args, JSTATE_ENABLED⟩)
      (Function.update jp.jobhash (JHASHPOS jp.nextjobid)
        (jptr :: jp.jobhash (JHASHPOS jp.nextjobid))) jp.statusqueue.entries).2, ?_⟩
    rw [d1, s1, s4, s5]
    have hlast := poll_check_spec_last
      (Function.update jp.heap jptr ⟨jp.nextjobid, callback, extra, args, JSTATE_ENABLED⟩)
      (Function.update jp.jobhash (JHASHPOS jp.nextjobid)
        (jptr :: jp.jobhash (JHASHPOS jp.nextjobid)))
      jp.statusqueue.entries jp.nextjobid errstatus jptr hfresh (by simp)
    simp only [Function.update_same] at hlast
    rw [← hlast]

/-- C7, witness: on `jobpool_full_queue`, `job_new` with `returnonfull = 0` and
`errstatus = 16` returns the id 2, queues the status `(2,16)`, and the next
`job_pool_check_jobs(1)` ends with the callback 70 invoked with 16 and 80. -/
theorem job_new_full_reports_witness :
    (jobqueue_full jobpool_full_queue ∧ status_path_ok jobpool_full_queue) ∧
    (job_new jobpool_full_queue 3 60 70 80 16 0 90).2 = 2 ∧
    (job_new jobpool_full_queue 3 60 70 80 16 0 90).1.statusqueue.entries = [⟨2, 16, 0, 1⟩] ∧
    ∃ jp' pre, job_pool_check_jobs 1 (job_new jobpool_full_queue 3 60 70 80 16 0 90).1
      = some (jp', pre ++ [⟨70, 16, 80⟩]) := by
  have hok : status_path_ok jobpool_full_queue := by
    unfold status_path_ok
    decide
  have h := job_new_full_reports jobpool_full_queue 3 60 70 80 16 90
    (by decide) (by decide) (by decide) hok (by decide) (by decide)
  exact ⟨⟨by decide, hok⟩, h.1, h.2.2.2.2.2.1, h.2.2.2.2.2.2⟩

/-- The pool built by `job_pool_new` has its status path in order: the status
queue is unbounded, open and empty, the pipe is empty, and ids start at 1. -/
theorem job_pool_new_status_path (junk : jobpool) (jobs : Nat) (created : Bool) :
    status_path_ok (job_pool_new junk jobs created) ∧
    (job_pool_new junk jobs created).statusqueue.maxsize = 0 ∧
    (job_pool_new junk jobs created).nextjobid = 1 := by
  cases created <;>
    simp [job_pool_new, job_spawn_worker, status_path_ok, queue_new, U32]

/-! ## Job pool: the marks set by `job_reload` -/

/-- Below `2^32 / 3` the marks are three quarters and one half of
`WORKERS_MAX`, and they are ordered. -/
theorem job_reload_marks_small (jp : jobpool) (m idle : Nat) (hm : 3 * m < U32) :
    (job_reload jp m idle).workers_himark = 3 * m / 4 ∧
    (job_reload jp m idle).workers_lomark = m / 2 ∧
    (job_reload jp m idle).workers_lomark ≤ (job_reload jp m idle).workers_himark ∧
    (job_reload jp m idle).workers_himark ≤ (job_reload jp m idle).workers_max := by
  have h3 : m * 3 % U32 = m * 3 := Nat.mod_eq_of_lt (by omega)
  have h2 : m * 2 % U32 = m * 2 := Nat.mod_eq_of_lt (by omega)
  simp only [job_reload, h3, h2]
  omega

/-- C11, the code at the failing input: with `WORKERS_MAX = 2000000000` the
product `workers_max * 3` wraps in 32 bits; `job_reload` sets
`workers_himark = 426258176`, not `floor(3*m/4) = 1500000000`, and
`workers_lomark = 1000000000`, which is above the high mark. -/
theorem job_reload_marks_wrap :
    (job_reload jobpool_empty 2000000000 40).workers_max = 2000000000 ∧
    (job_reload jobpool_empty 2000000000 40).workers_himark = 426258176 ∧
    (job_reload jobpool_empty 2000000000 40).workers_lomark = 1000000000 ∧
    3 * 2000000000 / 4 = 1500000000 ∧
    ¬ (job_reload jobpool_empty 2000000000 40).workers_lomark
        ≤ (job_reload jobpool_empty 2000000000 40).workers_himark := by
  refine ⟨?_, ?_, ?_, ?_, ?_⟩ <;> decide

/-! ## Main loop: destructors -/

theorem destruct_register_all (fs : List Nat) : ∀ s : mainstate,
    destruct (fs.foldl main_destruct_register s)
      = fs.reverse.map MainEv.destruct ++ destruct s := by
  induction fs with
  | nil => intro s; simp
  | cons f fs ih =>
    intro s
    simp only [List.foldl_cons, ih, List.reverse_cons, List.map_append, List.map_cons,
      List.map_nil, List.append_assoc]
    simp [destruct, main_destruct_register]

/-- C14: after `main_destruct_register(f1)`, ..., `main_destruct_register(fn)`
on the empty list, `destruct()` makes exactly the calls `fn`, ..., `f1`, in
this order: one call per registration, in reverse registration order. -/
theorem destruct_reverse_order (fs : List Nat) :
    destruct (fs.foldl main_destruct_register mainstate_init)
      = fs.reverse.map MainEv.destruct ∧
    (destruct (fs.foldl main_destruct_register mainstate_init)).length = fs.length ∧
    ∀ f, (destruct (fs.foldl main_destruct_register mainstate_init)).count (MainEv.destruct f)
      = fs.count f := by
  have h : destruct (fs.foldl main_destruct_register mainstate_init)
      = fs.reverse.map MainEv.destruct := by
    rw [destruct_register_all]
    simp [destruct, mainstate_init]
  rw [h]
  refine ⟨rfl, by simp, ?_⟩
  intro f
  rw [List.count_map_of_injective _ _ (fun a b hab => MainEv.destruct.inj hab),
    List.count_reverse]

/-! ## Main loop: want-exit hooks -/

/-- C13, the code at the failing input: one want-exit hook (7) and one
can-exit hook (9) are registered. The internal-exit byte 6 is read in two
turns of the loop, the can-exit hook answering 0 in the first: the want-exit
hook is called in both turns, because the byte 6 sets `t = 1` whatever `t` is.
With the terminate byte 1 in its place, which is tested together with `t==0`,
the hook is called once. -/
theorem mainloop_wantexit_twice :
    (mainloop 0 (main_wantexit_register (main_canexit_register mainstate_init 9) 7)
        [⟨PollResult.ready (some 6), 100, fun _ => 0, []⟩,
         ⟨PollResult.ready (some 6), 200, fun _ => 1, []⟩]).map Prod.snd
      = some [MainEv.wantexit 7, MainEv.canexit 9, MainEv.wantexit 7, MainEv.canexit 9] ∧
    (mainloop 0 (main_wantexit_register (main_canexit_register mainstate_init 9) 7)
        [⟨PollResult.ready (some 1), 100, fun _ => 0, []⟩,
         ⟨PollResult.ready (some 1), 200, fun _ => 1, []⟩]).map Prod.snd
      = some [MainEv.wantexit 7, MainEv.canexit 9, MainEv.canexit 9] := by
  constructor <;> decide

/-! ## Main loop: timers -/

theorem timer_skip_reaches (bound step : Nat) (k : Nat) : ∀ (fuel ne : Nat), k ≤ fuel →
    bound < ne + k * step → ne + k * step < U64 →
    ∃ r, timer_skip fuel bound step ne = some r ∧ bound < r ∧ r ≤ ne + k * step ∧
      (r = ne ∨ r ≤ bound + step) ∧ ∃ j, r = ne + j * step := by
  induction k with
  | zero =>
    intro fuel ne _ hb _
    have hnb : ¬ ne ≤ bound := by omega
    refine ⟨ne, ?_, by omega, by omega, Or.inl rfl, 0, by simp⟩
    cases fuel <;> simp [timer_skip, hnb]
  | succ k ih =>
    intro fuel ne hk hb hU
    obtain ⟨f, rfl⟩ : ∃ f, fuel = f + 1 := ⟨fuel - 1, by omega⟩
    have e : (k + 1) * step = k * step + step := Nat.succ_mul k step
    rw [e] at hb hU
    by_cases hle : ne ≤ bound
    · have hmod : (ne + step) % U64 = ne + step := Nat.mod_eq_of_lt (by omega)
      obtain ⟨r, h1, h2, h3, h4, j, h5⟩ := ih f (ne + step) (by omega) (by omega) (by omega)
      refine ⟨r, by simp [timer_skip, hle, hmod, h1], h2, by omega, Or.inr ?_, j + 1, ?_⟩
      · rcases h4 with h4 | h4 <;> omega
      · rw [h5, Nat.succ_mul]
        omega
    · exact ⟨ne, by simp [timer_skip, hle], by omega, by omega, Or.inl rfl, 0, by simp⟩

theorem timer_grid_range (usecnow : Nat) (te : timeentry) (hok : timer_ok te)
    (hU : usecnow + te.useconds < U64) :
    timer_grid usecnow te = usecnow / te.useconds * te.useconds + te.usecoffset ∧
    usecnow < timer_grid usecnow te + te.useconds ∧
    timer_grid usecnow te < usecnow + te.useconds := by
  obtain ⟨hp, ho⟩ := hok
  have h1 : usecnow / te.useconds * te.useconds ≤ usecnow := Nat.div_mul_le_self _ _
  have h2 : usecnow < usecnow / te.useconds * te.useconds + te.useconds :=
    Nat.lt_div_mul_add hp
  have hg : timer_grid usecnow te = usecnow / te.useconds * te.useconds + te.usecoffset := by
    unfold timer_grid
    rw [Nat.mod_eq_of_lt (a := usecnow / te.useconds * te.useconds) (by omega),
      Nat.mod_eq_of_lt (by omega)]
  rw [hg]
  omega

theorem timer_late_count (usecnow step : Nat) (n : Nat) : ∀ ne : Nat,
    (timer_late n usecnow step ne).2 ≤ n := by
  induction n with
  | zero => intro ne; simp [timer_late]
  | succ n ih =>
    intro ne
    simp only [timer_late]
    split_ifs
    · have := ih ((ne + step) % U64)
      simp only
      omega
    · simp

theorem timer_rebase_spec (fuel prevtime usecnow : Nat) (te : timeentry) (hok : timer_ok te)
    (hU : usecnow + 2 * te.useconds < U64) (hf : 2 ≤ fuel) :
    ∃ te1, timer_rebase fuel prevtime usecnow te = some te1 ∧
      te1.useconds = te.useconds ∧ te1.usecoffset = te.usecoffset ∧ te1.func = te.func ∧
      (te1 = te ∨ usecnow < te1.nextevent) := by
  obtain ⟨hg, hlo, hhi⟩ := timer_grid_range usecnow te hok (by omega)
  unfold timer_rebase
  split_ifs with hback hfwd
  · -- time went backward
    unfold timer_rebase_back
    dsimp only
    generalize hptr : (if (te.nextevent + U64 - prevtime) % U64 > te.useconds then te.useconds
      else (te.nextevent + U64 - prevtime) % U64) = ptr
    have hp : ptr ≤ te.useconds := by
      rw [← hptr]
      split_ifs <;> omega
    have hb : (usecnow + ptr) % U64 = usecnow + ptr := Nat.mod_eq_of_lt (by omega)
    rw [hb]
    have hk : ∃ k, k ≤ 2 ∧ usecnow + ptr < timer_grid usecnow te + k * te.useconds ∧
        timer_grid usecnow te + k * te.useconds < U64 := by
      by_cases c0 : usecnow + ptr < timer_grid usecnow te
      · exact ⟨0, by omega, by omega, by omega⟩
      · by_cases c1 : usecnow + ptr < timer_grid usecnow te + te.useconds
        · exact ⟨1, by omega, by omega, by omega⟩
        · exact ⟨2, by omega, by omega, by omega⟩
    obtain ⟨k, hk2, hk3, hk4⟩ := hk
    obtain ⟨r, h1, h2, _⟩ := timer_skip_reaches (usecnow + ptr) te.useconds k fuel
      (timer_grid usecnow te) (by omega) hk3 hk4
    exact ⟨{ te with nextevent := r }, by rw [h1], rfl, rfl, rfl, Or.inr (by show usecnow < r; omega)⟩
  · -- time went forward
    unfold timer_rebase_forward
    have hk : ∃ k, k ≤ 1 ∧ usecnow < timer_grid usecnow te + k * te.useconds ∧
        timer_grid usecnow te + k * te.useconds < U64 := by
      by_cases c0 : usecnow < timer_grid usecnow te
      · exact ⟨0, by omega, by omega, by omega⟩
      · exact ⟨1, by omega, by omega, by omega⟩
    obtain ⟨k, hk2, hk3, hk4⟩ := hk
    obtain ⟨r, h1, h2, _⟩ := timer_skip_reaches usecnow te.useconds k fuel
      (timer_grid usecnow te) (by omega) hk3 hk4
    exact ⟨{ te with nextevent := r }, by rw [h1], rfl, rfl, rfl, Or.inr h2⟩
  · exact ⟨te, rfl, rfl, rfl, rfl, Or.inl rfl⟩

theorem timer_pass_spec (fuel usecnow : Nat) (te : timeentry) (hok : timer_ok te)
    (hU : usecnow + 2 * te.useconds < U64) (hf : 1 ≤ fuel) :
    ∃ te1 n, timer_pass fuel usecnow te = some (te1, n) ∧ n ≤ 10 ∧
      usecnow < te1.nextevent ∧ te1.func = te.func := by
  obtain ⟨hg, hlo, hhi⟩ := timer_grid_range usecnow te hok (by omega)
  have hcount := timer_late_count usecnow te.useconds 10 te.nextevent
  unfold timer_pass
  split_ifs with hdue hstill
  · have hk : ∃ k, k ≤ 1 ∧ usecnow < timer_grid usecnow te + k * te.useconds ∧
        timer_grid usecnow te + k * te.useconds < U64 := by
      by_cases c0 : usecnow < timer_grid usecnow te
      · exact ⟨0, by omega, by omega, by omega⟩
      · exact ⟨1, by omega, by omega, by omega⟩
    obtain ⟨k, hk2, hk3, hk4⟩ := hk
    obtain ⟨r, h1, h2, _⟩ := timer_skip_reaches usecnow te.useconds k fuel
      (timer_grid usecnow te) (by omega) hk3 hk4
    exact ⟨{ te with nextevent := r }, _, by rw [h1], hcount, h2, rfl⟩
  · exact ⟨_, _, rfl, hcount, Nat.lt_of_not_le hstill, rfl⟩
  · exact ⟨te, 0, rfl, by omega, by omega, rfl⟩

theorem timers_rebase_spec (fuel prevtime usecnow : Nat) (ts : List timeentry)
    (hall : ∀ te ∈ ts, timer_ok te ∧ usecnow + 2 * te.useconds < U64) (hf : 2 ≤ fuel) :
    ∃ ts1, timers_rebase fuel prevtime usecnow ts = some ts1 ∧
      ts1.map timeentry.func = ts.map timeentry.func ∧
      ∀ te1 ∈ ts1, timer_ok te1 ∧ usecnow + 2 * te1.useconds < U64 := by
  induction ts with
  | nil => exact ⟨[], rfl, rfl, by simp⟩
  | cons te rest ih =>
    obtain ⟨hte, hUte⟩ := hall te (by simp)
    obtain ⟨te1, h1, h2, h3, h4, _⟩ := timer_rebase_spec fuel prevtime usecnow te hte hUte hf
    obtain ⟨rest1, i1, i2, i3⟩ := ih (fun x hx => hall x (by simp [hx]))
    refine ⟨te1 :: rest1, by simp [timers_rebase, h1, i1], by simp [h4, i2], ?_⟩
    intro x hx
    simp only [List.mem_cons] at hx
    rcases hx with rfl | hx
    · exact ⟨⟨by rw [h2]; exact hte.1, by rw [h2, h3]; exact hte.2⟩, by rw [h2]; exact hUte⟩
    · exact i3 x hx

theorem timers_pass_spec (fuel usecnow : Nat) (ts : List timeentry)
    (hall : ∀ te ∈ ts, timer_ok te ∧ usecnow + 2 * te.useconds < U64) (hf : 1 ≤ fuel) :
    ∃ ts1 evs, timers_pass fuel usecnow ts = some (ts1, evs) ∧ ts1.length = ts.length ∧
      (∀ te1 ∈ ts1, usecnow < te1.nextevent) ∧
      (∀ f, evs.count (MainEv.timer f) ≤ 10 * (ts.map timeentry.func).count f) ∧
      ∀ e ∈ evs, ∃ f, e = MainEv.timer f := by
  induction ts with
  | nil => exact ⟨[], [], rfl, rfl, by simp, by simp, by simp⟩
  | cons te rest ih =>
    obtain ⟨hte, hUte⟩ := hall te (by simp)
    obtain ⟨te1, n, h1, h2, h3, _⟩ := timer_pass_spec fuel usecnow te hte hUte hf
    obtain ⟨rest1, evs, i1, i2, i3, i4, i5⟩ := ih (fun x hx => hall x (by simp [hx]))
    refine ⟨te1 :: rest1, List.replicate n (MainEv.timer te.func) ++ evs,
      by simp [timers_pass, h1, i1], by simp [i2], ?_, ?_, ?_⟩
    · intro x hx
      simp only [List.mem_cons] at hx
      rcases hx with rfl | hx
      · exact h3
      · exact i3 x hx
    · intro f
      have hi := i4 f
      simp only [List.count_append, List.count_replicate, List.map_cons, List.count_cons]
      by_cases hfe : te.func = f
      · subst hfe
        simp only [beq_self_eq_true, if_true]
        omega
      · have hne : ¬ (MainEv.timer te.func = MainEv.timer f) := by
          intro h
          exact hfe (MainEv.timer.inj h)
        simp only [beq_iff_eq, hne, hfe, if_false]
        omega
    · intro e he
      simp only [List.mem_append, List.mem_replicate] at he
      rcases he with ⟨_, rfl⟩ | he
      · exact ⟨_, rfl⟩
      · exact i5 e he

/-- C12, counterexample: the clock reads `2^64 - 1` and one timer of period
1000 is registered; no `uint64_t` value of `nextevent` is above the clock, so
the loop `while (usecnow >= nextevent)` of the forward rebase never ends: the
timer part of the turn returns for no number of additions. -/
theorem timers_turn_hangs_at_clock_end :
    timers_turn_hangs 0 (U64 - 1) [⟨0, 1000, 0, 7⟩] := by
  have never : ∀ (fuel ne : Nat), ne < U64 → timer_skip fuel (U64 - 1) 1000 ne = none := by
    intro fuel
    induction fuel with
    | zero =>
      intro ne h
      have : ne ≤ U64 - 1 := by omega
      simp [timer_skip, this]
    | succ f ih =>
      intro ne h
      have hle : ne ≤ U64 - 1 := by omega
      have hlt : (ne + 1000) % U64 < U64 := Nat.mod_lt _ (by decide)
      simp [timer_skip, hle, ih _ hlt]
  unfold timers_turn_hangs
  intro fuel
  have h := never fuel (timer_grid (U64 - 1) ⟨0, 1000, 0, 7⟩)
    (by unfold timer_grid; exact Nat.mod_lt _ (by decide))
  have c1 : ¬ (U64 - 1 < 0) := by decide
  have c2 : U64 - 1 > (0 + 5000000) % U64 := by decide
  simp only [timers_turn, timers_rebase, timer_rebase, c1, c2, if_true, if_false,
    timer_rebase_forward, h]

/-- C12, amended: in one turn of the main loop, for every pair of clock values
`(prevtime, usecnow)` and every chain of timers with non-zero period, offset
below the period (as `main_msectime_register` makes them) and
`usecnow + 2 * period < 2^64`, the rebase and the timer pass complete (two
additions per loop suffice), each timer's callback is called at most 10 times
(for each function, at most 10 times the number of timers that carry it), and
afterwards every timer's `nextevent` is strictly greater than `usecnow`. -/
theorem timers_turn_bounded (fuel prevtime usecnow : Nat) (ts : List timeentry)
    (hall : ∀ te ∈ ts, timer_ok te ∧ usecnow + 2 * te.useconds < U64) (hf : 2 ≤ fuel) :
    ∃ ts1 evs, timers_turn fuel prevtime usecnow ts = some (ts1, evs) ∧
      ts1.length = ts.length ∧
      (∀ te1 ∈ ts1, usecnow < te1.nextevent) ∧
      (∀ f, evs.count (MainEv.timer f) ≤ 10 * (ts.map timeentry.func).count f) ∧
      ∀ e ∈ evs, ∃ f, e = MainEv.timer f := by
  obtain ⟨ts0, r1, r2, r3⟩ := timers_rebase_spec fuel prevtime usecnow ts hall hf
  obtain ⟨ts1, evs, p1, p2, p3, p4, p5⟩ := timers_pass_spec fuel usecnow ts0 r3 (by omega)
  refine ⟨ts1, evs, by simp [timers_turn, r1, p1], ?_, p3, ?_, p5⟩
  · rw [p2, ← List.length_map ts0 timeentry.func, r2, List.length_map]
  · intro f
    rw [← r2]
    exact p4 f

/-- C12, witness: a timer of period 1000 due since time 0, the clock at 25000:
the turn completes with at most 10 calls and the timer due after 25000. -/
theorem timers_turn_bounded_witness :
    (∀ te ∈ [(⟨0, 1000, 0, 7⟩ : timeentry)], timer_ok te ∧ 25000 + 2 * te.useconds < U64) ∧
    ∃ ts1 evs, timers_turn 2 0 25000 [⟨0, 1000, 0, 7⟩] = some (ts1, evs) ∧
      ts1.length = [(⟨0, 1000, 0, 7⟩ : timeentry)].length ∧
      (∀ te1 ∈ ts1, 25000 < te1.nextevent) ∧
      (∀ f, evs.count (MainEv.timer f)
        ≤ 10 * ([(⟨0, 1000, 0, 7⟩ : timeentry)].map timeentry.func).count f) ∧
      ∀ e ∈ evs, ∃ f, e = MainEv.timer f :=
  ⟨by decide, timers_turn_bounded 2 0 25000 [⟨0, 1000, 0, 7⟩] (by decide) (by decide)⟩

/-- The run of the witness: ten calls, then the realignment to 26000. -/
theorem timers_turn_ten_calls :
    timers_turn 2 0 25000 [⟨0, 1000, 0, 7⟩]
      = some ([⟨26000, 1000, 0, 7⟩], List.replicate 10 (MainEv.timer 7)) := by
  decide

/-! ## Metadata image: bytes and sink -/

theorem get64bit_put64bit (x : Nat) (rest : List Nat) :
    get64bit (put64bit x ++ rest) = x % U64 := by
  have h : get64bit (put64bit x ++ rest) = be_value (put64bit x) := by
    unfold get64bit
    congr 1
  rw [h]
  simp only [put64bit, be_value, List.foldl_cons, List.foldl_nil, U64]
  norm_num
  omega

theorem put64bit_length (x : Nat) : (put64bit x).length = 8 := rfl

theorem put32bit_length (x : Nat) : (put32bit x).length = 4 := rfl

theorem be_value_lt (b : List Nat) : be_value b < 256 ^ b.length := by
  suffices H : ∀ (b : List Nat) (acc k : Nat), acc < 256 ^ k →
      b.foldl (fun acc x => acc * 256 + x % 256) acc < 256 ^ (k + b.length) from by
    simpa [be_value] using H b 0 0 (by simp)
  intro b
  induction b with
  | nil => intro acc k h; simpa using h
  | cons x xs ih =>
    intro acc k h
    have hx : x % 256 < 256 := Nat.mod_lt _ (by decide)
    have hs : acc * 256 + x % 256 < 256 ^ (k + 1) := by
      rw [pow_succ]
      nlinarith
    have := ih (acc * 256 + x % 256) (k + 1) hs
    simpa [List.foldl_cons, Nat.add_assoc, Nat.add_comm 1] using this

theorem get64bit_lt (b : List Nat) : get64bit b < U64 := by
  have h := be_value_lt (b.take 8)
  have hl : (b.take 8).length ≤ 8 := by simp
  have hp : 256 ^ (b.take 8).length ≤ 256 ^ 8 := Nat.pow_le_pow_right (by decide) hl
  have h8 : (256 : Nat) ^ 8 = U64 := by norm_num [U64]
  unfold get64bit
  omega

theorem ascii_sig : ascii "MFSM " = [77, 70, 83, 77, 32] := by decide

theorem ascii_new : ascii "MFSM NEW" = [77, 70, 83, 77, 32, 78, 69, 87] := by decide

theorem ascii_eof : ascii "[MFS EOF MARKER]"
    = [91, 77, 70, 83, 32, 69, 79, 70, 32, 77, 65, 82, 75, 69, 82, 93] := by decide

theorem ascii_v20 : ascii "MFSM 2.0" = [77, 70, 83, 77, 32, 50, 46, 48] := by decide

/-- The signature test in words: `MFSM `, a digit 1-9, a dot, a digit 0-9. -/
theorem meta_signature_digits (d1 d2 : Nat) (h1 : 1 ≤ d1) (h2 : d1 ≤ 9) (h3 : d2 ≤ 9) :
    meta_signature_ok (ascii "MFSM " ++ [0x30 + d1, 0x2E, 0x30 + d2]) ∧
    meta_fver (ascii "MFSM " ++ [0x30 + d1, 0x2E, 0x30 + d2]) = d1 * 16 + d2 ∧
    ascii "MFSM " ++ [0x30 + d1, 0x2E, 0x30 + d2] ≠ ascii "MFSM NEW" := by
  rw [ascii_sig, ascii_new]
  refine ⟨?_, ?_, ?_⟩
  · simp only [meta_signature_ok, ascii_sig]
    simp
    omega
  · simp [meta_fver]
    omega
  · simp

theorem meta_signature_iff (chk : List Nat) (hl : chk.length = 8) :
    meta_signature_ok chk ↔
      ∃ d1 d2, 1 ≤ d1 ∧ d1 ≤ 9 ∧ d2 ≤ 9 ∧ chk = ascii "MFSM " ++ [0x30 + d1, 0x2E, 0x30 + d2] := by
  constructor
  · intro h
    match chk, hl with
    | [a0, a1, a2, a3, a4, a5, a6, a7], _ =>
      simp only [meta_signature_ok, ascii_sig] at h
      simp at h
      obtain ⟨⟨r0, r1, r2, r3, r4⟩, g1, g2, g3, g4, g5⟩ := h
      refine ⟨a5 - 0x30, a7 - 0x30, by omega, by omega, by omega, ?_⟩
      rw [ascii_sig]
      simp
      omega
  · rintro ⟨d1, d2, h1, h2, h3, rfl⟩
    exact (meta_signature_digits d1 d2 h1 h2 h3).1

/-! ## Metadata image: the check of a file -/

/-- C18: the result table of `meta_check_metadatafile`. A missing file gives
no-file. For a readable file of content `b`: fewer than 8 bytes give io-error;
`MFSM NEW` gives ok with version 1 and id 0; eight bytes that are neither that
nor `MFSM `, a digit 1-9, a dot, a digit 0-9 give bad-header; with the
signature `MFSM d1.d2`, fewer than 16 bytes behind it give io-error, and
otherwise the status is ok when the last 16 bytes of `b` are the end marker
(16 zero bytes below format version 1.6) and bad-ending when they are not,
the version is the big-endian value of header bytes 0-7 and the id that of
bytes 8-15 (bytes 4-11 and id 0 below format version 2.0). -/
theorem meta_check_metadatafile_table (b : List Nat) :
    meta_check_metadatafile FileState.missing = (META_CHECK_NOFILE, 0, 0) ∧
    (b.length < 8 →
      meta_check_metadatafile (FileState.content b) = (META_CHECK_IOERROR, 0, 0)) ∧
    (b.take 8 = ascii "MFSM NEW" →
      meta_check_metadatafile (FileState.content b) = (META_CHECK_OK, 1, 0)) ∧
    (8 ≤ b.length → b.take 8 ≠ ascii "MFSM NEW" →
      (¬ ∃ d1 d2, 1 ≤ d1 ∧ d1 ≤ 9 ∧ d2 ≤ 9 ∧
        b.take 8 = ascii "MFSM " ++ [0x30 + d1, 0x2E, 0x30 + d2]) →
      meta_check_metadatafile (FileState.content b) = (META_CHECK_BADHEADER, 0, 0)) ∧
    (∀ d1 d2 rest, 1 ≤ d1 → d1 ≤ 9 → d2 ≤ 9 →
      b = ascii "MFSM " ++ [0x30 + d1, 0x2E, 0x30 + d2] ++ rest →
      (rest.length < 16 →
        meta_check_metadatafile (FileState.content b) = (META_CHECK_IOERROR, 0, 0)) ∧
      (16 ≤ rest.length →
        meta_check_metadatafile (FileState.content b)
          = (if b.drop (b.length - 16)
                = (if d1 * 16 + d2 < 0x16 then List.replicate 16 0
                   else ascii "[MFS EOF MARKER]")
              then META_CHECK_OK else META_CHECK_BADENDING,
             if d1 * 16 + d2 < 0x20 then be_value ((rest.drop 4).take 8)
             else be_value (rest.take 8),
             if d1 * 16 + d2 < 0x20 then 0 else be_value ((rest.drop 8).take 8)))) := by
  refine ⟨rfl, ?_, ?_, ?_, ?_⟩
  · intro h
    have hl : (b.take 8).length ≠ 8 := by
      rw [List.length_take]
      omega
    simp only [meta_check_metadatafile, if_pos hl]
  · intro h
    have hl : ¬ (b.take 8).length ≠ 8 := by
      rw [h]
      decide
    simp only [meta_check_metadatafile, if_neg hl, if_pos h]
  · intro h8 hnew hsig
    have hl : (b.take 8).length = 8 := by
      rw [List.length_take]
      omega
    have hs : ¬ meta_signature_ok (b.take 8) := fun hs =>
      hsig ((meta_signature_iff _ hl).1 hs)
    simp only [meta_check_metadatafile, if_neg (not_not.2 hl), if_neg hnew, if_neg hs]
  · intro d1 d2 rest h1 h2 h3 hb
    obtain ⟨s1, s2, s3⟩ := meta_signature_digits d1 d2 h1 h2 h3
    have hsl : (ascii "MFSM " ++ [0x30 + d1, 0x2E, 0x30 + d2]).length = 8 := by
      rw [ascii_sig]
      rfl
    have ht : b.take 8 = ascii "MFSM " ++ [0x30 + d1, 0x2E, 0x30 + d2] := by
      rw [hb, ← hsl, List.take_left]
    have hd : b.drop 8 = rest := by
      rw [hb, ← hsl, List.drop_left]
    have hbl : b.length = 8 + rest.length := by
      rw [hb, List.length_append, hsl]
    have hl : ¬ (b.take 8).length ≠ 8 := by
      rw [ht, hsl]
      exact fun h => h rfl
    constructor
    · intro hr
      have hh : ((b.drop 8).take 16).length ≠ 16 := by
        rw [hd, List.length_take]
        omega
      simp only [meta_check_metadatafile, if_neg hl]
      rw [ht, if_neg s3, if_pos s1]
      simp only [if_pos hh]
    · intro hr
      have hh : ¬ ((b.drop 8).take 16).length ≠ 16 := by
        rw [hd, List.length_take]
        omega
      have hlast : (b.drop (b.length - 16)).take 16 = b.drop (b.length - 16) := by
        apply List.take_of_length_le
        rw [List.length_drop]
        omega
      have hll : ¬ (b.drop (b.length - 16)).length ≠ 16 := by
        rw [List.length_drop]
        omega
      have g1 : get64bit (((b.drop 8).take 16).drop 4) = be_value ((rest.drop 4).take 8) := by
        unfold get64bit
        rw [hd, List.drop_take, List.take_take]
        rfl
      have g2 : get64bit ((b.drop 8).take 16) = be_value (rest.take 8) := by
        unfold get64bit
        rw [hd, List.take_take]
        rfl
      have g3 : get64bit (((b.drop 8).take 16).drop 8) = be_value ((rest.drop 8).take 8) := by
        unfold get64bit
        rw [hd, List.drop_take, List.take_take]
        rfl
      simp only [meta_check_metadatafile, if_neg hl]
      rw [ht, if_neg s3, if_pos s1]
      simp only [if_neg hh, s2, g1, g2, g3, hlast, if_neg hll]
      by_cases he : b.drop (b.length - 16)
          = (if d1 * 16 + d2 < 0x16 then List.replicate 16 0 else ascii "[MFS EOF MARKER]")
      · rw [if_neg (not_not.2 he), if_pos he]
      · rw [if_pos he, if_neg he]

/-- C18, witness: the image `MFSM 2.0`, version 5, id 7, end marker is ok with
version 5 and id 7. -/
theorem meta_check_metadatafile_table_witness :
    meta_check_metadatafile (FileState.content
      (ascii "MFSM " ++ [0x30 + 2, 0x2E, 0x30 + 0]
        ++ (put64bit 5 ++ put64bit 7 ++ ascii "[MFS EOF MARKER]")))
      = (META_CHECK_OK, 5, 7) := by
  have h := ((meta_check_metadatafile_table
    (ascii "MFSM " ++ [0x30 + 2, 0x2E, 0x30 + 0]
      ++ (put64bit 5 ++ put64bit 7 ++ ascii "[MFS EOF MARKER]"))).2.2.2.2
    2 0 (put64bit 5 ++ put64bit 7 ++ ascii "[MFS EOF MARKER]")
    (by decide) (by decide) (by decide) rfl).2 (by decide)
  rw [h]
  decide

/-! ## Metadata image: the section loop of `meta_load` -/

theorem bio_read_full (fd : bio) (n : Nat) (hn : 0 < n) (h : (bio_read fd n).2.length = n) :
    (bio_read fd n).1.data = fd.data ∧ (bio_read fd n).1.seekable = fd.seekable ∧
    (bio_read fd n).1.pos = fd.pos + n ∧ (bio_read fd n).1.pos ≤ fd.data.length := by
  simp only [bio_read, List.length_take, List.length_drop] at h ⊢
  refine ⟨trivial, trivial, ?_, ?_⟩ <;> omega

theorem bio_skip_after (fd : bio) (n : Nat) (h : fd.pos ≤ fd.data.length) :
    (bio_skip fd n).data = fd.data ∧ (bio_skip fd n).seekable = fd.seekable ∧
    fd.pos ≤ (bio_skip fd n).pos ∧ (bio_skip fd n).pos ≤ fd.data.length := by
  simp only [bio_skip]
  refine ⟨trivial, trivial, ?_, ?_⟩ <;> omega

theorem meta_call_loader_after (c : MetaCollab) (f : LoadFn) (fd : bio) (arg ignoreflag : Nat)
    (h : fd.pos ≤ fd.data.length) :
    (meta_call_loader c f fd arg ignoreflag).1.data = fd.data ∧
    (meta_call_loader c f fd arg ignoreflag).1.seekable = fd.seekable ∧
    fd.pos ≤ (meta_call_loader c f fd arg ignoreflag).1.pos ∧
    (meta_call_loader c f fd arg ignoreflag).1.pos ≤ fd.data.length :=
  bio_skip_after fd _ h

theorem meta_load_checked_after (c : MetaCollab) (s : StoreFn) (l : LoadFn) (fd : bio)
    (mver ignoreflag : Nat) (h : fd.pos ≤ fd.data.length) :
    (meta_load_checked c s l fd mver ignoreflag).fd.data = fd.data ∧
    (meta_load_checked c s l fd mver ignoreflag).fd.seekable = fd.seekable ∧
    fd.pos ≤ (meta_load_checked c s l fd mver ignoreflag).fd.pos ∧
    (meta_load_checked c s l fd mver ignoreflag).fd.pos ≤ fd.data.length := by
  unfold meta_load_checked
  split
  · exact ⟨rfl, rfl, Nat.le_refl _, h⟩
  · exact meta_call_loader_after c l fd mver ignoreflag h

/-- The body of a section leaves the source a file of the same content, not
before the place where it found it and not behind the end. -/
theorem meta_load_body_after (c : MetaCollab) (fver ignoreflag maxnodeid : Nat)
    (hdr : List Nat) (fd : bio) (h : fd.pos ≤ fd.data.length) :
    (meta_load_body c fver ignoreflag maxnodeid hdr fd).fd.data = fd.data ∧
    (meta_load_body c fver ignoreflag maxnodeid hdr fd).fd.seekable = fd.seekable ∧
    fd.pos ≤ (meta_load_body c fver ignoreflag maxnodeid hdr fd).fd.pos ∧
    (meta_load_body c fver ignoreflag maxnodeid hdr fd).fd.pos ≤ fd.data.length := by
  unfold meta_load_body
  split
  · split
    · exact meta_call_loader_after c _ fd _ ignoreflag h
    · exact meta_load_checked_after c _ _ fd _ ignoreflag h
  · split
    · exact meta_load_checked_after c _ _ fd _ ignoreflag h
    · split
      · exact bio_skip_after fd _ h
      · exact ⟨rfl, rfl, Nat.le_refl _, h⟩

/-- A turn of the section loop that goes on has taken at least the 16 bytes of
the header and has not left the file. -/
theorem meta_load_section_next (c : MetaCollab) (fver ignoreflag maxnodeid : Nat) (fd fd1 : bio)
    (calls : List LoadCall)
    (h : meta_load_section c fver ignoreflag maxnodeid fd = SectionStep.next fd1 calls) :
    fd1.data = fd.data ∧ fd.pos + 16 ≤ fd1.pos ∧ fd1.pos ≤ fd1.data.length := by
  unfold meta_load_section at h
  dsimp only at h
  by_cases h16 : (bio_read fd 16).2.length ≠ 16
  · rw [if_pos h16] at h
    exact absurd h (by simp)
  · rw [if_neg h16] at h
    obtain ⟨r1, _, r3, r4⟩ := bio_read_full fd 16 (by decide) (not_not.1 h16)
    have hb := meta_load_body_after c fver ignoreflag maxnodeid (bio_read fd 16).2
      (bio_read fd 16).1 (by rw [r1]; exact r4)
    obtain ⟨b1, _, b3, b4⟩ := hb
    split at h
    · exact absurd h (by simp)
    · split at h
      · exact absurd h (by simp)
      · split at h
        · exact absurd h (by simp)
        · injection h with e1 e2
          subst e1
          refine ⟨by rw [b1, r1], by omega, by rw [b1]; exact b4⟩

/-- The section loop ends: with more turns than the source has bytes left it
returns. -/
theorem meta_load_sections_returns (c : MetaCollab) (fver ignoreflag maxnodeid : Nat) :
    ∀ (fuel : Nat) (fd : bio), fd.data.length - fd.pos < fuel →
      ∃ r, meta_load_sections c fver ignoreflag maxnodeid fuel fd = some r := by
  intro fuel
  induction fuel with
  | zero => intro fd h; omega
  | succ n ih =>
    intro fd h
    unfold meta_load_sections
    cases hs : meta_load_section c fver ignoreflag maxnodeid fd with
    | fail fd1 calls => exact ⟨_, rfl⟩
    | eof fd1 => exact ⟨_, rfl⟩
    | next fd1 calls =>
      obtain ⟨n1, n2, n3⟩ := meta_load_section_next c fver ignoreflag maxnodeid fd fd1 calls hs
      obtain ⟨r, hr⟩ := ih fd1 (by rw [n1] at n3 ⊢; omega)
      simp only [hr]
      exact ⟨_, rfl⟩

/-- The function `meta_load` returns, whatever the source holds. -/
theorem meta_load_returns (c : MetaCollab) (ignoreflag metaversion0 metaid0 : Nat) (fd : bio)
    (fver : Nat) : ∃ v, (meta_load c ignoreflag metaversion0 metaid0 fd fver).ret = some v := by
  unfold meta_load
  dsimp only
  split
  · exact ⟨_, rfl⟩
  · split
    · exact ⟨_, rfl⟩
    · obtain ⟨r, hr⟩ := meta_load_sections_returns c fver ignoreflag
        (if fver < 0x20 then get32bit (bio_read fd 16).2 else 0)
        ((bio_read fd 16).1.data.length + 1) (bio_read fd 16).1 (by omega)
      rw [hr]
      exact ⟨_, rfl⟩

/-- The function `meta_load` takes `metaversion` and `metaid` from the 16
header bytes, whatever follows them. -/
theorem meta_load_header (c : MetaCollab) (ignoreflag metaversion0 metaid0 : Nat) (fd : bio)
    (fver : Nat) (h16 : (bio_read fd 16).2.length = 16) (hv : 0x20 ≤ fver) :
    (meta_load c ignoreflag metaversion0 metaid0 fd fver).metaversion
      = get64bit (bio_read fd 16).2 ∧
    (meta_load c ignoreflag metaversion0 metaid0 fd fver).metaid
      = get64bit ((bio_read fd 16).2.drop 8) := by
  have hv1 : ¬ fver < 0x20 := by omega
  have hv2 : ¬ fver < 0x16 := by omega
  unfold meta_load
  dsimp only
  rw [if_neg (not_not.2 h16), if_neg hv2]
  simp only [if_neg hv1]
  split <;> exact ⟨rfl, rfl⟩

/-- Turns that go on leave the source a file of the same content, at least 16
bytes further for each turn and not behind the end. -/
theorem meta_load_turns_after (c : MetaCollab) (fver ignoreflag maxnodeid : Nat) :
    ∀ (k : Nat) (fd fdk : bio) (calls : List LoadCall),
    meta_load_turns c fver ignoreflag maxnodeid k fd = some (fdk, calls) →
    fdk.data = fd.data ∧ fd.pos + 16 * k ≤ fdk.pos ∧
    (0 < k ∨ fd.pos ≤ fd.data.length → fdk.pos ≤ fdk.data.length) := by
  intro k
  induction k with
  | zero =>
    intro fd fdk calls h
    simp only [meta_load_turns, Option.some.injEq, Prod.mk.injEq] at h
    obtain ⟨h1, _⟩ := h
    subst h1
    refine ⟨rfl, by omega, ?_⟩
    intro hh
    rcases hh with hh | hh
    · omega
    · exact hh
  | succ n ih =>
    intro fd fdk calls h
    simp only [meta_load_turns] at h
    cases hs : meta_load_section c fver ignoreflag maxnodeid fd with
    | fail fd1 c1 =>
      rw [hs] at h
      exact absurd h (by simp)
    | eof fd1 =>
      rw [hs] at h
      exact absurd h (by simp)
    | next fd1 c1 =>
      rw [hs] at h
      dsimp only at h
      obtain ⟨n1, n2, n3⟩ := meta_load_section_next c fver ignoreflag maxnodeid fd fd1 c1 hs
      cases ht : meta_load_turns c fver ignoreflag maxnodeid n fd1 with
      | none =>
        rw [ht] at h
        exact absurd h (by simp)
      | some r =>
        rw [ht] at h
        simp only [Option.some.injEq, Prod.mk.injEq] at h
        obtain ⟨h1, _⟩ := h
        obtain ⟨j1, j2, j3⟩ := ih fd1 r.1 r.2 ht
        rw [← h1]
        refine ⟨by rw [j1, n1], by omega, fun _ => j3 (Or.inr n3)⟩

/-- A turn that goes on, after `k` turns that go on, makes `k + 1` of them. -/
theorem meta_load_turns_snoc (c : MetaCollab) (fver ignoreflag maxnodeid : Nat) :
    ∀ (k : Nat) (fd fdk fd1 : bio) (calls c1 : List LoadCall),
    meta_load_turns c fver ignoreflag maxnodeid k fd = some (fdk, calls) →
    meta_load_section c fver ignoreflag maxnodeid fdk = SectionStep.next fd1 c1 →
    meta_load_turns c fver ignoreflag maxnodeid (k + 1) fd = some (fd1, calls ++ c1) := by
  intro k
  induction k with
  | zero =>
    intro fd fdk fd1 calls c1 h hn
    simp only [meta_load_turns, Option.some.injEq, Prod.mk.injEq] at h
    obtain ⟨h1, h2⟩ := h
    subst h1
    subst h2
    simp only [meta_load_turns, hn, List.append_nil, List.nil_append]
  | succ n ih =>
    intro fd fdk fd1 calls c1 h hn
    simp only [meta_load_turns] at h
    cases hs : meta_load_section c fver ignoreflag maxnodeid fd with
    | fail fd2 c2 =>
      rw [hs] at h
      exact absurd h (by simp)
    | eof fd2 =>
      rw [hs] at h
      exact absurd h (by simp)
    | next fd2 c2 =>
      rw [hs] at h
      dsimp only at h
      cases ht : meta_load_turns c fver ignoreflag maxnodeid n fd2 with
      | none =>
        rw [ht] at h
        exact absurd h (by simp)
      | some r =>
        rw [ht] at h
        simp only [Option.some.injEq, Prod.mk.injEq] at h
        obtain ⟨h1, h2⟩ := h
        have hr : meta_load_turns c fver ignoreflag maxnodeid n fd2 = some (fdk, r.2) := by
          rw [ht, ← h1]
        have := ih fd2 fdk fd1 r.2 c1 hr hn
        rw [meta_load_turns, hs]
        dsimp only
        rw [this, ← h2, List.append_assoc]

/-- The section loop after `k` turns that go on is the section loop from the
source they leave, with their loader calls in front: what the loop returns
is what the later turns return. -/
theorem meta_load_sections_turns (c : MetaCollab) (fver ignoreflag maxnodeid : Nat) :
    ∀ (k : Nat) (fd fdk : bio) (calls : List LoadCall) (fuel : Nat),
    meta_load_turns c fver ignoreflag maxnodeid k fd = some (fdk, calls) →
    meta_load_sections c fver ignoreflag maxnodeid (k + fuel) fd
      = (meta_load_sections c fver ignoreflag maxnodeid fuel fdk).map
          (fun r => (r.1, r.2.1, calls ++ r.2.2)) := by
  intro k
  induction k with
  | zero =>
    intro fd fdk calls fuel h
    simp only [meta_load_turns, Option.some.injEq, Prod.mk.injEq] at h
    obtain ⟨h1, h2⟩ := h
    subst h1
    subst h2
    rw [Nat.zero_add]
    cases meta_load_sections c fver ignoreflag maxnodeid fuel fd with
    | none => rfl
    | some r => rfl
  | succ n ih =>
    intro fd fdk calls fuel h
    simp only [meta_load_turns] at h
    cases hs : meta_load_section c fver ignoreflag maxnodeid fd with
    | fail fd2 c2 =>
      rw [hs] at h
      exact absurd h (by simp)
    | eof fd2 =>
      rw [hs] at h
      exact absurd h (by simp)
    | next fd2 c2 =>
      rw [hs] at h
      dsimp only at h
      cases ht : meta_load_turns c fver ignoreflag maxnodeid n fd2 with
      | none =>
        rw [ht] at h
        exact absurd h (by simp)
      | some r =>
        rw [ht] at h
        simp only [Option.some.injEq, Prod.mk.injEq] at h
        obtain ⟨h1, h2⟩ := h
        have hr : meta_load_turns c fver ignoreflag maxnodeid n fd2 = some (fdk, r.2) := by
          rw [ht, ← h1]
        have hi := ih fd2 fdk r.2 fuel hr
        have hf : n + 1 + fuel = (n + fuel) + 1 := by omega
        rw [hf, meta_load_sections, hs]
        dsimp only
        rw [hi, ← h2]
        cases meta_load_sections c fver ignoreflag maxnodeid fuel fdk with
        | none => rfl
        | some x =>
          simp only [Option.map_some', List.append_assoc]

/-- A turn of the section loop that fails, after any number of turns that go
on, makes `meta_load` return -1, for every image of format 1.6 or newer; the
loader calls are those of the turns before and of the failed turn. -/
theorem meta_load_turn_fails (c : MetaCollab) (ignoreflag metaversion0 metaid0 : Nat)
    (fd0 : bio) (fver k : Nat) (fd fdf : bio) (calls callsf : List LoadCall)
    (h16 : (bio_read fd0 16).2.length = 16) (hv : 0x16 ≤ fver)
    (hreach : meta_load_turns c fver ignoreflag
      (if fver < 0x20 then get32bit (bio_read fd0 16).2 else 0) k (bio_read fd0 16).1
      = some (fd, calls))
    (hfail : meta_load_section c fver ignoreflag
      (if fver < 0x20 then get32bit (bio_read fd0 16).2 else 0) fd
      = SectionStep.fail fdf callsf) :
    (meta_load c ignoreflag metaversion0 metaid0 fd0 fver).ret = some (-1) ∧
    (meta_load c ignoreflag metaversion0 metaid0 fd0 fver).calls = calls ++ callsf := by
  have hv2 : ¬ fver < 0x16 := by omega
  obtain ⟨r1, _, _, r4⟩ := bio_read_full fd0 16 (by decide) h16
  obtain ⟨t1, t2, t3⟩ := meta_load_turns_after c fver ignoreflag _ k _ fd calls hreach
  have t4 := t3 (Or.inr (by rw [r1]; exact r4))
  have hk : (bio_read fd0 16).1.data.length + 1
      = k + ((bio_read fd0 16).1.data.length - k + 1) := by
    rw [t1] at t4
    omega
  have hloop := meta_load_sections_turns c fver ignoreflag _ k _ fd calls
    ((bio_read fd0 16).1.data.length - k + 1) hreach
  have hend : meta_load_sections c fver ignoreflag
      (if fver < 0x20 then get32bit (bio_read fd0 16).2 else 0)
      ((bio_read fd0 16).1.data.length - k + 1) fd = some (fdf, false, callsf) := by
    rw [meta_load_sections, hfail]
  rw [← hk, hend] at hloop
  unfold meta_load
  dsimp only
  rw [if_neg (not_not.2 h16), if_neg hv2, hloop]
  exact ⟨rfl, rfl⟩

/-! ## Metadata image: the version check of a section -/

theorem meta_section_table_eof : meta_section_table ((ascii "[MFS EOF MARKER]").take 4) = none := by
  decide

theorem meta_load_checked_newer (c : MetaCollab) (s : StoreFn) (l : LoadFn) (fd : bio)
    (mver ignoreflag : Nat) (h : mver > c.mver s) :
    meta_load_checked c s l fd mver ignoreflag = ⟨fd, false, []⟩ := by
  unfold meta_load_checked
  rw [if_pos h]

/-- C19 as the code has it: in an image of format version 1.6 to 1.9 a `NODE`
section is imported by `fs_importnodes` without a look at its version. The
image `MFSM 1.7` with the section `NODE 9.9` is loaded by writers of version
1.0: `meta_load` returns 0 and `fs_importnodes` has been called. -/
theorem meta_load_imports_newer_nodes :
    meta_section_mver (ascii "NODE 9.9" ++ put64bit 0)
      > metacollab_sample.mver StoreFn.fs_storenodes ∧
    ∃ r, meta_loadfile_load metacollab_sample 0 0 0
        (ascii "MFSM 1.7" ++ (put32bit 3 ++ put64bit 5 ++ put32bit 1)
          ++ (ascii "NODE 9.9" ++ put64bit 0) ++ ascii "[MFS EOF MARKER]") = some r ∧
      r.ret = some 0 ∧ r.calls = [⟨LoadFn.fs_importnodes, 3⟩] := by
  refine ⟨by decide, _, rfl, ?_, ?_⟩
  · decide
  · decide

/-- C19, amended: in a sectioned image (format version 1.6 or newer), for a
section at any place of the image (the section loop has gone through `k`
sections before it, which made the loader calls `calls`) with one of the tags
EDGE, FREE, QUOT, XATR, PACL, FLCK, PLCK, CSDB, SESS, LABS, SCLA, OPEN, CHNK,
or with the tag NODE when the format version of the image is at least 2.0: if
the version decoded from the section header is greater than the version the
section's writer returns for a null sink, the turn of the section loop fails
without a loader call, `meta_load` returns -1, and the loader calls it has
made are those of the sections before. In an image of a format version below
2.0 the body of a NODE section is the call of `fs_importnodes` with
`maxnodeid`, whatever version its header carries. The last part lists the
writer and the loader of each tag. -/
theorem meta_load_newer_section_refused (c : MetaCollab)
    (fver ignoreflag metaversion0 metaid0 : Nat) (fd0 : bio) (k : Nat) (fd : bio)
    (calls : List LoadCall) (s : StoreFn) (l : LoadFn)
    (hfver : 0x16 ≤ fver)
    (h16 : (bio_read fd0 16).2.length = 16)
    (hreach : meta_load_turns c fver ignoreflag
      (if fver < 0x20 then get32bit (bio_read fd0 16).2 else 0) k (bio_read fd0 16).1
      = some (fd, calls))
    (hlen : (bio_read fd 16).2.length = 16)
    (htag : ((bio_read fd 16).2.take 4 = ascii "NODE" ∧ 0x20 ≤ fver
              ∧ s = StoreFn.fs_storenodes) ∨
            ((bio_read fd 16).2.take 4 ≠ ascii "NODE"
              ∧ meta_section_table ((bio_read fd 16).2.take 4) = some (s, l)))
    (hver : meta_section_mver (bio_read fd 16).2 > c.mver s) :
    (∀ maxnodeid, meta_load_section c fver ignoreflag maxnodeid fd
      = SectionStep.fail (bio_read fd 16).1 []) ∧
    (meta_load c ignoreflag metaversion0 metaid0 fd0 fver).ret = some (-1) ∧
    (meta_load c ignoreflag metaversion0 metaid0 fd0 fver).calls = calls ∧
    (∀ (fv mx : Nat) (hdr : List Nat) (fdx : bio), fv < 0x20 → hdr.take 4 = ascii "NODE" →
      (meta_load_body c fv ignoreflag mx hdr fdx).calls = [⟨LoadFn.fs_importnodes, mx⟩] ∧
      (meta_load_body c fv ignoreflag mx hdr fdx).ok
        = decide (¬ (meta_call_loader c LoadFn.fs_importnodes fdx mx ignoreflag).2 < 0)) ∧
    [ascii "EDGE", ascii "FREE", ascii "QUOT", ascii "XATR", ascii "PACL", ascii "FLCK",
      ascii "PLCK", ascii "CSDB", ascii "SESS", ascii "LABS", ascii "SCLA", ascii "OPEN",
      ascii "CHNK"].map meta_section_table
      = [some (StoreFn.fs_storeedges, LoadFn.fs_loadedges),
         some (StoreFn.fs_storefree, LoadFn.fs_loadfree),
         some (StoreFn.fs_storequota, LoadFn.fs_loadquota),
         some (StoreFn.xattr_store, LoadFn.xattr_load),
         some (StoreFn.posix_acl_store, LoadFn.posix_acl_load),
         some (StoreFn.flock_store, LoadFn.flock_load),
         some (StoreFn.posix_lock_store, LoadFn.posix_lock_load),
         some (StoreFn.csdb_store, LoadFn.csdb_load),
         some (StoreFn.sessions_store, LoadFn.sessions_load),
         some (StoreFn.sclass_store, LoadFn.sclass_load),
         some (StoreFn.sclass_store, LoadFn.sclass_load),
         some (StoreFn.of_store, LoadFn.of_load),
         some (StoreFn.chunk_store, LoadFn.chunk_load)] := by
  have hmark : (bio_read fd 16).2 ≠ ascii "[MFS EOF MARKER]" := by
    intro he
    rcases htag with ⟨h1, _, _⟩ | ⟨_, h2⟩
    · rw [he] at h1
      exact absurd h1 (by decide)
    · rw [he, meta_section_table_eof] at h2
      exact absurd h2 (by simp)
  have hbody : ∀ mx, meta_load_body c fver ignoreflag mx (bio_read fd 16).2 (bio_read fd 16).1
      = ⟨(bio_read fd 16).1, false, []⟩ := by
    intro mx
    unfold meta_load_body
    rcases htag with ⟨h1, h2, h3⟩ | ⟨h1, h2⟩
    · rw [if_pos h1, if_neg (by omega)]
      subst h3
      exact meta_load_checked_newer c _ _ _ _ ignoreflag hver
    · rw [if_neg h1, h2]
      exact meta_load_checked_newer c _ _ _ _ ignoreflag hver
  have hstep : ∀ mx, meta_load_section c fver ignoreflag mx fd
      = SectionStep.fail (bio_read fd 16).1 [] := by
    intro mx
    unfold meta_load_section
    dsimp only
    rw [if_neg (not_not.2 hlen), if_neg hmark, hbody]
    rfl
  obtain ⟨m1, m2⟩ := meta_load_turn_fails c ignoreflag metaversion0 metaid0 fd0 fver k fd
    (bio_read fd 16).1 calls [] h16 hfver hreach (hstep _)
  rw [List.append_nil] at m2
  refine ⟨hstep, m1, m2, ?_, by decide⟩
  intro fv mx hdr fdx hfv hnode
  unfold meta_load_body
  rw [if_pos hnode, if_pos hfv]
  exact ⟨rfl, rfl⟩

/-- C19, witness: an image of format 2.0 whose second section, `FREE 2.0`,
is met by writers of version 1.0: `meta_load` returns -1 after the one loader
call of the first section. -/
theorem meta_load_newer_section_refused_witness :
    (meta_load metacollab_sample 0 0 0
      (bio_file_of (image_two_sections (ascii "FREE 2.0") 0)) 0x20).ret = some (-1) ∧
    (meta_load metacollab_sample 0 0 0
      (bio_file_of (image_two_sections (ascii "FREE 2.0") 0)) 0x20).calls
      = [⟨LoadFn.fs_loadedges, 0x10⟩] :=
  (meta_load_newer_section_refused metacollab_sample 0x20 0 0 0
    (bio_file_of (image_two_sections (ascii "FREE 2.0") 0)) 1
    ⟨image_two_sections (ascii "FREE 2.0") 0, 32, true, 0, 0⟩ [⟨LoadFn.fs_loadedges, 0x10⟩]
    StoreFn.fs_storefree LoadFn.fs_loadfree (by decide) (by decide) (by decide) (by decide)
    (Or.inr (by decide)) (by decide)).2.elim (fun h1 h2 => ⟨h1, h2.1⟩)

/-! ## Metadata image: the length check of a section -/

/-- For a file below 2^63 bytes read forward, the 64-bit test of the length
check is the comparison of the integers. -/
theorem meta_section_short_iff (sleng offbegin posafter : Nat) (hL : sleng < U64 - 1)
    (h1 : offbegin ≤ posafter) (h2 : posafter < 2 ^ 63) :
    meta_section_short sleng offbegin posafter ↔ posafter ≠ offbegin + sleng := by
  unfold meta_section_short
  have hU : U64 = 2 ^ 64 := rfl
  have h63 : (2 : Nat) ^ 64 = 2 * 2 ^ 63 := by norm_num
  have ho : offbegin % U64 = offbegin := Nat.mod_eq_of_lt (by omega)
  rw [ho]
  by_cases hw : offbegin + sleng < U64
  · rw [Nat.mod_eq_of_lt hw]
    constructor
    · rintro ⟨_, _, h⟩
      exact fun e => h e.symm
    · intro h
      exact ⟨hL, by omega, fun e => h e.symm⟩
  · have hm : (offbegin + sleng) % U64 = offbegin + sleng - U64 := by
      rw [Nat.mod_eq_sub_mod (by omega)]
      exact Nat.mod_eq_of_lt (by omega)
    rw [hm]
    constructor
    · intro _
      omega
    · intro _
      exact ⟨hL, by omega, by omega⟩

/-- The length check within one turn. For a section read from a file (below
2^63 bytes) whose header length field `L` is not 0xFFFFFFFFFFFFFFFF and whose
body has ended without a `return -1`: if the position differs from the
position behind the 16-byte header plus `L`, the turn fails when the ignore
flag is 0 and goes on when it is not; if the positions agree, the turn goes
on. -/
theorem meta_load_section_length_check (c : MetaCollab) (fver ignoreflag maxnodeid : Nat)
    (fd : bio)
    (hseek : fd.seekable = true) (hsize : fd.data.length < 2 ^ 63)
    (hlen : (bio_read fd 16).2.length = 16)
    (hmark : (bio_read fd 16).2 ≠ ascii "[MFS EOF MARKER]")
    (hok : (meta_load_body c fver ignoreflag maxnodeid (bio_read fd 16).2
      (bio_read fd 16).1).ok = true)
    (hL : get64bit ((bio_read fd 16).2.drop 8) ≠ 0xFFFFFFFFFFFFFFFF) :
    (bio_file_position (meta_load_body c fver ignoreflag maxnodeid (bio_read fd 16).2
          (bio_read fd 16).1).fd
        ≠ bio_file_position (bio_read fd 16).1 + get64bit ((bio_read fd 16).2.drop 8) →
      (ignoreflag = 0 →
        meta_load_section c fver ignoreflag maxnodeid fd
          = SectionStep.fail
              (meta_load_body c fver ignoreflag maxnodeid (bio_read fd 16).2
                (bio_read fd 16).1).fd
              (meta_load_body c fver ignoreflag maxnodeid (bio_read fd 16).2
                (bio_read fd 16).1).calls) ∧
      (ignoreflag ≠ 0 →
        meta_load_section c fver ignoreflag maxnodeid fd
          = SectionStep.next
              (meta_load_body c fver ignoreflag maxnodeid (bio_read fd 16).2
                (bio_read fd 16).1).fd
              (meta_load_body c fver ignoreflag maxnodeid (bio_read fd 16).2
                (bio_read fd 16).1).calls)) ∧
    (bio_file_position (meta_load_body c fver ignoreflag maxnodeid (bio_read fd 16).2
          (bio_read fd 16).1).fd
        = bio_file_position (bio_read fd 16).1 + get64bit ((bio_read fd 16).2.drop 8) →
      meta_load_section c fver ignoreflag maxnodeid fd
        = SectionStep.next
            (meta_load_body c fver ignoreflag maxnodeid (bio_read fd 16).2
              (bio_read fd 16).1).fd
            (meta_load_body c fver ignoreflag maxnodeid (bio_read fd 16).2
              (bio_read fd 16).1).calls) := by
  obtain ⟨r1, r2, r3, r4⟩ := bio_read_full fd 16 (by decide) hlen
  obtain ⟨b1, b2, b3, b4⟩ := meta_load_body_after c fver ignoreflag maxnodeid (bio_read fd 16).2
    (bio_read fd 16).1 (by rw [r1]; exact r4)
  have hokf : ¬ (meta_load_body c fver ignoreflag maxnodeid (bio_read fd 16).2
      (bio_read fd 16).1).ok = false := by
    rw [hok]
    exact fun h => Bool.noConfusion h
  have p1 : bio_file_position (bio_read fd 16).1 = (bio_read fd 16).1.pos := by
    unfold bio_file_position
    rw [r2, hseek]
    rfl
  have p2 : bio_file_position (meta_load_body c fver ignoreflag maxnodeid (bio_read fd 16).2
      (bio_read fd 16).1).fd
      = (meta_load_body c fver ignoreflag maxnodeid (bio_read fd 16).2 (bio_read fd 16).1).fd.pos := by
    unfold bio_file_position
    rw [b2, r2, hseek]
    rfl
  have hlt := get64bit_lt ((bio_read fd 16).2.drop 8)
  have hU : U64 - 1 = 0xFFFFFFFFFFFFFFFF := by decide
  have hiff := meta_section_short_iff (get64bit ((bio_read fd 16).2.drop 8))
    (bio_read fd 16).1.pos
    (meta_load_body c fver ignoreflag maxnodeid (bio_read fd 16).2 (bio_read fd 16).1).fd.pos
    (by omega) b3 (by rw [r1] at b4; omega)
  have hstep : meta_load_section c fver ignoreflag maxnodeid fd
      = if meta_section_short (get64bit ((bio_read fd 16).2.drop 8))
            (bio_file_position (bio_read fd 16).1)
            (bio_file_position (meta_load_body c fver ignoreflag maxnodeid (bio_read fd 16).2
              (bio_read fd 16).1).fd) ∧ ignoreflag = 0 then
          SectionStep.fail
            (meta_load_body c fver ignoreflag maxnodeid (bio_read fd 16).2
              (bio_read fd 16).1).fd
            (meta_load_body c fver ignoreflag maxnodeid (bio_read fd 16).2
              (bio_read fd 16).1).calls
        else
          SectionStep.next
            (meta_load_body c fver ignoreflag maxnodeid (bio_read fd 16).2
              (bio_read fd 16).1).fd
            (meta_load_body c fver ignoreflag maxnodeid (bio_read fd 16).2
              (bio_read fd 16).1).calls := by
    unfold meta_load_section
    dsimp only
    rw [if_neg (not_not.2 hlen), if_neg hmark, if_neg hokf]
  rw [hstep, p1, p2]
  refine ⟨fun hne => ⟨fun hi => ?_, fun hi => ?_⟩, fun heq => ?_⟩
  · rw [if_pos ⟨hiff.2 hne, hi⟩]
  · rw [if_neg (fun h => hi h.2)]
  · rw [if_neg (fun h => hiff.1 h.1 heq)]

/-- C20: the length check of `meta_load`. In a sectioned image (format
version 1.6 or newer) read from a file below 2^63 bytes, for a section at any
place of the image (the section loop has gone through `k` sections before it,
which made the loader calls `calls`) whose header length field `L` is not
0xFFFFFFFFFFFFFFFF and whose body has ended without a `return -1` (the loader
has returned success): if the position differs from the position behind the
16-byte header plus `L`, then with the ignore flag 0 the turn fails and
`meta_load` returns -1, and with the ignore flag set the loop goes on to the
next section (it has then gone through `k + 1` sections and stands behind the
body); if the positions agree, the loop goes on to the next section. Here
`maxnodeid` is the value `meta_load` has taken from the header and `body` is
how the body of the section ends. -/
theorem meta_load_length_check (c : MetaCollab) (fver ignoreflag metaversion0 metaid0 : Nat)
    (fd0 : bio) (k : Nat) (fd : bio) (calls : List LoadCall) (maxnodeid : Nat)
    (body : SectionBody)
    (hfver : 0x16 ≤ fver)
    (h16 : (bio_read fd0 16).2.length = 16)
    (hmx : maxnodeid = if fver < 0x20 then get32bit (bio_read fd0 16).2 else 0)
    (hreach : meta_load_turns c fver ignoreflag maxnodeid k (bio_read fd0 16).1
      = some (fd, calls))
    (hseek : fd.seekable = true) (hsize : fd.data.length < 2 ^ 63)
    (hlen : (bio_read fd 16).2.length = 16)
    (hmark : (bio_read fd 16).2 ≠ ascii "[MFS EOF MARKER]")
    (hbody : body = meta_load_body c fver ignoreflag maxnodeid (bio_read fd 16).2
      (bio_read fd 16).1)
    (hok : body.ok = true)
    (hL : get64bit ((bio_read fd 16).2.drop 8) ≠ 0xFFFFFFFFFFFFFFFF) :
    (bio_file_position body.fd
        ≠ bio_file_position (bio_read fd 16).1 + get64bit ((bio_read fd 16).2.drop 8) →
      (ignoreflag = 0 →
        meta_load_section c fver ignoreflag maxnodeid fd
          = SectionStep.fail body.fd body.calls ∧
        (meta_load c ignoreflag metaversion0 metaid0 fd0 fver).ret = some (-1) ∧
        (meta_load c ignoreflag metaversion0 metaid0 fd0 fver).calls = calls ++ body.calls) ∧
      (ignoreflag ≠ 0 →
        meta_load_section c fver ignoreflag maxnodeid fd
          = SectionStep.next body.fd body.calls ∧
        meta_load_turns c fver ignoreflag maxnodeid (k + 1) (bio_read fd0 16).1
          = some (body.fd, calls ++ body.calls))) ∧
    (bio_file_position body.fd
        = bio_file_position (bio_read fd 16).1 + get64bit ((bio_read fd 16).2.drop 8) →
      meta_load_section c fver ignoreflag maxnodeid fd
        = SectionStep.next body.fd body.calls ∧
      meta_load_turns c fver ignoreflag maxnodeid (k + 1) (bio_read fd0 16).1
        = some (body.fd, calls ++ body.calls)) := by
  subst hbody
  obtain ⟨s1, s2⟩ := meta_load_section_length_check c fver ignoreflag maxnodeid fd hseek hsize
    hlen hmark hok hL
  refine ⟨fun hne => ⟨fun hi => ?_, fun hi => ?_⟩, fun heq => ?_⟩
  · have hf := (s1 hne).1 hi
    subst hmx
    exact ⟨hf, meta_load_turn_fails c ignoreflag metaversion0 metaid0 fd0 fver k fd _ calls _
      h16 hfver hreach hf⟩
  · have hn := (s1 hne).2 hi
    exact ⟨hn, meta_load_turns_snoc c fver ignoreflag maxnodeid k _ fd _ calls _ hreach hn⟩
  · have hn := s2 heq
    exact ⟨hn, meta_load_turns_snoc c fver ignoreflag maxnodeid k _ fd _ calls _ hreach hn⟩

/-- C20, witness: an image of format 2.0 whose second section, `FREE 1.0`,
announces 4 bytes while its loader takes none, with the ignore flag 0:
`meta_load` returns -1 after the loader calls of the two sections. -/
theorem meta_load_length_check_witness :
    (meta_load metacollab_sample 0 0 0
      (bio_file_of (image_two_sections (ascii "FREE 1.0") 4)) 0x20).ret = some (-1) ∧
    (meta_load metacollab_sample 0 0 0
      (bio_file_of (image_two_sections (ascii "FREE 1.0") 4)) 0x20).calls
      = [⟨LoadFn.fs_loadedges, 0x10⟩] ++ [⟨LoadFn.fs_loadfree, 0x10⟩] :=
  (((meta_load_length_check metacollab_sample 0x20 0 0 0
    (bio_file_of (image_two_sections (ascii "FREE 1.0") 4)) 1
    ⟨image_two_sections (ascii "FREE 1.0") 4, 32, true, 0, 0⟩ [⟨LoadFn.fs_loadedges, 0x10⟩] 0
    ⟨⟨image_two_sections (ascii "FREE 1.0") 4, 48, true, 0, 0⟩, true,
      [⟨LoadFn.fs_loadfree, 0x10⟩]⟩
    (by decide) (by decide) (by decide) (by decide) rfl (by decide) (by decide) (by decide)
    (by decide) rfl (by decide)).1 (by decide)).1 rfl).2

/-- A turn on a sample, `EDGE 1.0` announcing 4 bytes while the loader takes
none: the loader is called, then the check fails. -/
theorem meta_load_section_short_run :
    meta_load_section metacollab_sample 0x20 0 0
        (bio_file_of (ascii "EDGE 1.0" ++ put64bit 4 ++ ascii "[MFS EOF MARKER]"))
      = SectionStep.fail
          ⟨ascii "EDGE 1.0" ++ put64bit 4 ++ ascii "[MFS EOF MARKER]", 16, true, 0, 0⟩
          [⟨LoadFn.fs_loadedges, 0x10⟩] := by
  decide

/-! ## Metadata image: writing -/

theorem bio_write_sticky (fd : bio) (buf : List Nat) (h : fd.error ≠ 0) :
    (bio_write fd buf).1.error ≠ 0 ∧ (bio_write fd buf).2 = 0 := by
  unfold bio_write
  rw [if_pos (Or.inl h)]
  exact ⟨Nat.one_ne_zero, rfl⟩

theorem bio_write_failed (fd : bio) (buf : List Nat) (h : (bio_write fd buf).1.error ≠ 0) :
    (bio_write fd buf).2 = 0 := by
  unfold bio_write at h ⊢
  by_cases hc : fd.error ≠ 0 ∨ fd.room < buf.length
  · rw [if_pos hc]
  · rw [if_neg hc] at h
    exact absurd (not_not.1 (fun he => hc (Or.inl he))) h

/-- A write that leaves no error has stored the bytes at the position. -/
theorem bio_write_done (fd : bio) (buf : List Nat) (h : (bio_write fd buf).1.error = 0) :
    bio_write fd buf
      = (⟨fd.data.take fd.pos ++ buf ++ fd.data.drop (fd.pos + buf.length),
          fd.pos + buf.length, fd.seekable, fd.room - buf.length, 0⟩, buf.length) := by
  unfold bio_write at h ⊢
  by_cases hc : fd.error ≠ 0 ∨ fd.room < buf.length
  · rw [if_pos hc] at h
    exact absurd h Nat.one_ne_zero
  · rw [if_neg hc] at h ⊢
    dsimp only at h
    rw [h]

/-- A write at the end of a file that leaves no error has appended the bytes. -/
theorem bio_write_at_end (fd : bio) (buf : List Nat) (hend : bio_at_end fd)
    (h : (bio_write fd buf).1.error = 0) :
    bio_write fd buf
      = (⟨fd.data ++ buf, fd.pos + buf.length, true, fd.room - buf.length, 0⟩, buf.length) := by
  obtain ⟨_, h2, h3⟩ := hend
  rw [bio_write_done fd buf h, h2, h3, List.take_length,
    List.drop_of_length_le (Nat.le_add_right _ _), List.append_nil]

theorem bio_at_end_mk (d : List Nat) (p r : Nat) (h : p = d.length) :
    bio_at_end ⟨d, p, true, r, 0⟩ := ⟨rfl, rfl, h⟩

theorem meta_chunk_hdr_length (c : MetaCollab) (f : StoreFn) (name : List Nat)
    (hn : 4 ≤ name.length) : (meta_chunk_hdr c f name).length = 16 := by
  simp only [meta_chunk_hdr, List.length_append, List.length_take, List.length_cons,
    List.length_nil, List.length_replicate]
  omega

theorem meta_chunk_hdr_take (c : MetaCollab) (f : StoreFn) (name : List Nat)
    (hn : 4 ≤ name.length) :
    (meta_chunk_hdr c f name).take 8
      = name.take 4 ++ [0x20, 0x30 + c.mver f / 16, 0x2E, 0x30 + c.mver f % 16] := by
  have hv : c.mver f / 16 % 16 = c.mver f / 16 := by
    unfold MetaCollab.mver
    omega
  have hl : (name.take 4 ++ [0x20, 0x30 + c.mver f / 16 % 16, 0x2E, 0x30 + c.mver f % 16]).length
      = 8 := by
    simp only [List.length_append, List.length_take, List.length_cons, List.length_nil]
    omega
  unfold meta_chunk_hdr
  rw [List.take_left' hl, hv]

/-- The patch of the length field: the bytes 8-15 of the header in a file
that ends with the header and the payload are replaced. -/
theorem meta_patch_splice (d hdr payload p : List Nat) (hh : hdr.length = 16)
    (hp : p.length = 8) :
    (d ++ hdr ++ payload).take (d.length + 8) ++ p
        ++ (d ++ hdr ++ payload).drop (d.length + 8 + p.length)
      = d ++ (hdr.take 8 ++ p ++ payload) := by
  have e1 : (d ++ hdr ++ payload).take (d.length + 8) = d ++ hdr.take 8 := by
    rw [List.append_assoc, List.take_append, List.take_append_of_le_length (by omega)]
  have e2 : (d ++ hdr ++ payload).drop (d.length + 8 + p.length) = payload := by
    have : d.length + 8 + p.length = (d ++ hdr).length := by
      rw [List.length_append]
      omega
    rw [this, List.drop_left]
  rw [e1, e2]
  simp only [List.append_assoc]

theorem meta_patch_length (l n : Nat) (h : l + 16 + n < U64) :
    (l + 16 + n + 2 * U64 - (l + 16)) % U64 = n := by
  have e : l + 16 + n + 2 * U64 - (l + 16) = n + 2 * U64 := by omega
  rw [e, Nat.add_mul_mod_self_right]
  exact Nat.mod_eq_of_lt (by omega)

theorem bio_seek_error (fd : bio) (p : Nat) : (bio_seek fd p).error = fd.error := by
  unfold bio_seek
  split <;> rfl

theorem bio_file_position_file (fd : bio) (h : fd.seekable = true) :
    bio_file_position fd = fd.pos := by
  unfold bio_file_position
  rw [if_pos h]

/-- What `meta_store_chunk` leaves on a file positioned at its end, not at
offset 0, when no write fails. -/
theorem meta_store_chunk_done (c : MetaCollab) (fd : bio) (f : StoreFn) (name : List Nat)
    (hend : bio_at_end fd) (hpos : fd.pos ≠ 0) (hn : 4 ≤ name.length)
    (herr : (meta_store_chunk c fd (some f) name).1.error = 0) :
    meta_store_chunk c fd (some f) name
      = (⟨(fd.data ++ meta_chunk_hdr c f name ++ c.store_payload f).take
              ((fd.pos + 8) % U64)
            ++ put64bit ((fd.pos + 16 + (c.store_payload f).length + 2 * U64
                - (fd.pos + 16)) % U64)
            ++ (fd.data ++ meta_chunk_hdr c f name ++ c.store_payload f).drop
              ((fd.pos + 8) % U64 + 8),
          fd.pos + 16 + (c.store_payload f).length, true,
          fd.room - 16 - (c.store_payload f).length - 8, 0⟩, 0) := by
  have hh := meta_chunk_hdr_length c f name hn
  have hpf := bio_file_position_file fd hend.2.1
  unfold meta_store_chunk at herr ⊢
  dsimp only at herr ⊢
  rw [hpf] at herr ⊢
  rw [if_pos hpos] at herr ⊢
  by_cases e1 : (bio_write fd (meta_chunk_hdr c f name)).1.error = 0
  · have w1 := bio_write_at_end fd _ hend e1
    rw [hh] at w1
    rw [w1] at herr ⊢
    dsimp only at herr ⊢
    rw [if_neg (fun h => h rfl)] at herr ⊢
    by_cases e2 : (bio_write ⟨fd.data ++ meta_chunk_hdr c f name, fd.pos + 16, true,
        fd.room - 16, 0⟩ (c.store_payload f)).1.error = 0
    · have w2 := bio_write_at_end _ (c.store_payload f)
        (bio_at_end_mk (fd.data ++ meta_chunk_hdr c f name) (fd.pos + 16) (fd.room - 16)
          (by rw [List.length_append, hh, hend.2.2])) e2
      dsimp only at w2
      rw [w2] at herr ⊢
      dsimp only [bio_file_position, bio_seek] at herr ⊢
      simp only [if_true] at herr ⊢
      by_cases e3 : (bio_write ⟨fd.data ++ meta_chunk_hdr c f name ++ c.store_payload f,
          (fd.pos + 8) % U64, true, fd.room - 16 - (c.store_payload f).length, 0⟩
          (put64bit ((fd.pos + 16 + (c.store_payload f).length + 2 * U64
            - (fd.pos + 16)) % U64))).1.error = 0
      · have w3 := bio_write_done _ _ e3
        dsimp only at w3
        rw [w3] at herr ⊢
        dsimp only [put64bit_length] at herr ⊢
        rw [if_neg (fun h => h rfl), if_pos rfl]
      · have z := bio_write_failed _ _ e3
        rw [z, if_pos (by decide)] at herr
        exact absurd herr e3
    · have s1 := bio_write_sticky
        (bio_seek (bio_write ⟨fd.data ++ meta_chunk_hdr c f name, fd.pos + 16, true,
          fd.room - 16, 0⟩ (c.store_payload f)).1 ((fd.pos + 8) % U64))
        (put64bit ((bio_file_position (bio_write ⟨fd.data ++ meta_chunk_hdr c f name,
          fd.pos + 16, true, fd.room - 16, 0⟩ (c.store_payload f)).1 + 2 * U64
            - (fd.pos + 16)) % U64))
        (by rw [bio_seek_error]; exact e2)
      rw [s1.2, if_pos (by decide)] at herr
      exact absurd herr s1.1
  · have z := bio_write_failed fd _ e1
    rw [z, if_pos (by decide)] at herr
    exact absurd herr e1

theorem meta_store_chunk_sticky (c : MetaCollab) (fd : bio) (storefn : Option StoreFn)
    (name : List Nat) (h : fd.error ≠ 0) : (meta_store_chunk c fd storefn name).1.error ≠ 0 := by
  cases storefn with
  | none =>
    have s := bio_write_sticky fd (ascii "[MFS EOF MARKER]") h
    unfold meta_store_chunk
    dsimp only
    split <;> exact s.1
  | some f =>
    have s := bio_write_sticky fd (meta_chunk_hdr c f name) h
    unfold meta_store_chunk
    dsimp only
    rw [s.2, if_pos (by decide)]
    exact s.1

/-- A section written without error ends where the file ends, 16 bytes and
the payload behind the place where it began. -/
theorem meta_store_chunk_end (c : MetaCollab) (fd : bio) (f : StoreFn) (name : List Nat)
    (hend : bio_at_end fd) (hpos : fd.pos ≠ 0) (hn : 4 ≤ name.length)
    (herr : (meta_store_chunk c fd (some f) name).1.error = 0) :
    (meta_store_chunk c fd (some f) name).2 = 0 ∧
    bio_at_end (meta_store_chunk c fd (some f) name).1 ∧
    (meta_store_chunk c fd (some f) name).1.pos = fd.pos + 16 + (c.store_payload f).length := by
  have hh := meta_chunk_hdr_length c f name hn
  have hm : (fd.pos + 8) % U64 ≤ fd.pos + 8 := Nat.mod_le _ _
  rw [meta_store_chunk_done c fd f name hend hpos hn herr]
  refine ⟨rfl, ⟨rfl, rfl, ?_⟩, rfl⟩
  dsimp only
  simp only [List.length_append, List.length_take, List.length_drop, put64bit_length, hh,
    ← hend.2.2]
  omega

/-- The bytes of a section written without error to a file below 2^64 bytes:
the section in the words of the specification. -/
theorem meta_store_chunk_bytes (c : MetaCollab) (fd : bio) (f : StoreFn) (name : List Nat)
    (hend : bio_at_end fd) (hpos : fd.pos ≠ 0) (hn : 4 ≤ name.length)
    (herr : (meta_store_chunk c fd (some f) name).1.error = 0)
    (hsize : (meta_store_chunk c fd (some f) name).1.data.length < U64) :
    (meta_store_chunk c fd (some f) name).1.data
      = fd.data ++ meta_section_bytes c f (name.take 4) := by
  have hh := meta_chunk_hdr_length c f name hn
  obtain ⟨_, e1, e2⟩ := meta_store_chunk_end c fd f name hend hpos hn herr
  have hlen : fd.pos + 16 + (c.store_payload f).length < U64 := by
    rw [← e2, e1.2.2]
    exact hsize
  have hp : (fd.pos + 8) % U64 = fd.pos + 8 := Nat.mod_eq_of_lt (by omega)
  rw [meta_store_chunk_done c fd f name hend hpos hn herr]
  dsimp only
  rw [hp, meta_patch_length _ _ hlen, hend.2.2]
  have hs := meta_patch_splice fd.data (meta_chunk_hdr c f name) (c.store_payload f)
    (put64bit (c.store_payload f).length) hh (put64bit_length _)
  rw [put64bit_length] at hs
  rw [hs, meta_chunk_hdr_take c f name hn]
  rfl

/-- The end marker written without error to a file positioned at its end. -/
theorem meta_store_chunk_marker (c : MetaCollab) (fd : bio) (name : List Nat)
    (hend : bio_at_end fd) (herr : (meta_store_chunk c fd none name).1.error = 0) :
    meta_store_chunk c fd none name
      = (⟨fd.data ++ ascii "[MFS EOF MARKER]", fd.pos + 16, true, fd.room - 16, 0⟩, 0) := by
  have hl : (ascii "[MFS EOF MARKER]").length = 16 := by decide
  unfold meta_store_chunk at herr ⊢
  dsimp only at herr ⊢
  by_cases e : (bio_write fd (ascii "[MFS EOF MARKER]")).1.error = 0
  · have w := bio_write_at_end fd _ hend e
    rw [hl] at w
    rw [w]
    dsimp only
    rw [if_neg (fun h => h rfl)]
  · have z := bio_write_failed fd _ e
    rw [z, if_pos (by decide)] at herr
    exact absurd herr e

theorem meta_store_run_sticky (c : MetaCollab) :
    ∀ (plan : List (Option StoreFn × List Nat × List Nat)) (fd : bio) (crcfd : Option bio),
      fd.error ≠ 0 → (meta_store_run c plan fd crcfd).1.error ≠ 0 := by
  intro plan
  induction plan with
  | nil => intro fd crcfd h; exact h
  | cons e rest ih =>
    intro fd crcfd h
    obtain ⟨f, name, sect⟩ := e
    have hs := meta_store_chunk_sticky c fd f name h
    unfold meta_store_run
    split
    · exact hs
    · exact ih _ _ hs

/-- A plan of sections run without error on a file positioned at its end, not
at offset 0 and in the end below 2^64 bytes: the run reaches its end and has
appended the sections of the plan. -/
theorem meta_store_run_bytes (c : MetaCollab) :
    ∀ (plan : List (Option StoreFn × List Nat × List Nat)) (fd : bio) (crcfd : Option bio),
      (∀ e ∈ plan, e.1 = none ∨ 4 ≤ e.2.1.length) → bio_at_end fd → fd.pos ≠ 0 →
      (meta_store_run c plan fd crcfd).1.error = 0 →
      (meta_store_run c plan fd crcfd).1.data.length < U64 →
      (meta_store_run c plan fd crcfd).2.2 = true ∧
      (meta_store_run c plan fd crcfd).1.data = fd.data ++ meta_plan_bytes c plan ∧
      bio_at_end (meta_store_run c plan fd crcfd).1 := by
  intro plan
  induction plan with
  | nil =>
    intro fd crcfd _ hend _ _ _
    exact ⟨rfl, (List.append_nil _).symm, hend⟩
  | cons e rest ih =>
    intro fd crcfd hnames hend hpos herr hsize
    obtain ⟨f, name, sect⟩ := e
    have hrest : ∀ e ∈ rest, e.1 = none ∨ 4 ≤ e.2.1.length :=
      fun e he => hnames e (List.mem_cons_of_mem _ he)
    have hname := hnames (f, name, sect) (List.mem_cons_self _ _)
    unfold meta_store_run at herr hsize ⊢
    have hch : (meta_store_chunk c fd f name).1.error = 0 := by
      by_contra hne
      by_cases hneg : (meta_store_chunk c fd f name).2 < 0
      · rw [if_pos hneg] at herr
        exact hne herr
      · rw [if_neg hneg] at herr
        exact meta_store_run_sticky c rest _ _ hne herr
    cases f with
    | none =>
      have hm := meta_store_chunk_marker c fd name hend hch
      rw [hm] at herr hsize ⊢
      dsimp only at herr hsize ⊢
      rw [if_neg (by decide)] at herr hsize ⊢
      have hend1 : bio_at_end ⟨fd.data ++ ascii "[MFS EOF MARKER]", fd.pos + 16, true,
          fd.room - 16, 0⟩ :=
        bio_at_end_mk _ _ _ (by
          rw [List.length_append, hend.2.2]
          rfl)
      obtain ⟨i1, i2, i3⟩ := ih _ _ hrest hend1 (Nat.succ_ne_zero _) herr hsize
      refine ⟨i1, ?_, i3⟩
      rw [i2]
      simp only [meta_plan_bytes, List.append_assoc]
    | some f =>
      have hn : 4 ≤ name.length := by
        rcases hname with h | h
        · exact absurd h (by simp)
        · exact h
      obtain ⟨c1, c2, c3⟩ := meta_store_chunk_end c fd f name hend hpos hn hch
      rw [if_neg (by rw [c1]; decide)] at herr hsize ⊢
      obtain ⟨i1, i2, i3⟩ := ih _ _ hrest c2 (by rw [c3]; omega) herr hsize
      have hsz : (meta_store_chunk c fd (some f) name).1.data.length < U64 := by
        rw [i2, List.length_append] at hsize
        omega
      refine ⟨i1, ?_, i3⟩
      rw [i2, meta_store_chunk_bytes c fd f name hend hpos hn hch hsz]
      simp only [meta_plan_bytes, List.append_assoc]

theorem meta_store_plan_names :
    ∀ e ∈ meta_store_plan, e.1 = none ∨ 4 ≤ e.2.1.length := by
  decide

theorem meta_store_plan_bytes (c : MetaCollab) :
    meta_plan_bytes c meta_store_plan = meta_sections_bytes c ++ ascii "[MFS EOF MARKER]" := by
  have ht : ∀ t ∈ [ascii "SESS", ascii "SCLA", ascii "NODE", ascii "EDGE", ascii "FREE",
      ascii "QUOT", ascii "XATR", ascii "PACL", ascii "OPEN", ascii "FLCK", ascii "PLCK",
      ascii "CSDB", ascii "CHNK"], List.take 4 t = t := by decide
  simp only [List.mem_cons, List.mem_singleton, forall_eq_or_imp, forall_eq] at ht
  obtain ⟨t1, t2, t3, t4, t5, t6, t7, t8, t9, t10, t11, t12, t13, _⟩ := ht
  simp only [meta_store_plan, meta_plan_bytes, meta_sections_bytes, List.append_assoc,
    List.append_nil, t1, t2, t3, t4, t5, t6, t7, t8, t9, t10, t11, t12, t13]

/-- What `meta_store` writes, without error, to a file positioned at its end
and in the end below 2^64 bytes: the header, the thirteen sections, the end
marker. -/
theorem meta_store_bytes (c : MetaCollab) (metaversion metaid : Nat) (fd : bio)
    (crcfd : Option bio) (hend : bio_at_end fd)
    (herr : (meta_store c metaversion metaid fd crcfd).1.error = 0)
    (hsize : (meta_store c metaversion metaid fd crcfd).1.data.length < U64) :
    (meta_store c metaversion metaid fd crcfd).2.2 = true ∧
    (meta_store c metaversion metaid fd crcfd).1.data
      = fd.data ++ (put64bit metaversion ++ put64bit metaid) ++ meta_sections_bytes c
          ++ ascii "[MFS EOF MARKER]" ∧
    bio_at_end (meta_store c metaversion metaid fd crcfd).1 := by
  unfold meta_store at herr hsize ⊢
  by_cases e : (bio_write fd (put64bit metaversion ++ put64bit metaid)).1.error = 0
  · have w := bio_write_at_end fd _ hend e
    have hl : (put64bit metaversion ++ put64bit metaid).length = 16 := rfl
    rw [hl] at w
    rw [w] at herr hsize ⊢
    dsimp only at herr hsize ⊢
    rw [if_neg (fun h => h rfl)] at herr hsize ⊢
    have hend1 : bio_at_end ⟨fd.data ++ (put64bit metaversion ++ put64bit metaid), fd.pos + 16,
        true, fd.room - 16, 0⟩ :=
      bio_at_end_mk _ _ _ (by
        rw [List.length_append, hend.2.2]
        rfl)
    obtain ⟨i1, i2, i3⟩ := meta_store_run_bytes c meta_store_plan _ _ meta_store_plan_names
      hend1 (Nat.succ_ne_zero _) herr hsize
    refine ⟨i1, ?_, i3⟩
    rw [i2, meta_store_plan_bytes]
    simp only [List.append_assoc]
  · have z := bio_write_failed fd _ e
    rw [z, if_pos (by decide)] at herr
    exact absurd herr e

/-- What the writing of an image leaves, without error, in a new file: the
image in the words of the specification. -/
theorem meta_image_store_bytes (c : MetaCollab) (metaversion metaid room : Nat)
    (crcfd : Option bio)
    (herr : (meta_image_store c metaversion metaid (bio_file_new room) crcfd).1.error = 0)
    (hsize : (meta_image_store c metaversion metaid (bio_file_new room) crcfd).1.data.length
      < U64) :
    (meta_image_store c metaversion metaid (bio_file_new room) crcfd).2.2 = true ∧
    (meta_image_store c metaversion metaid (bio_file_new room) crcfd).1.data
      = meta_image_bytes c metaversion metaid := by
  unfold meta_image_store at herr hsize ⊢
  by_cases e : (bio_write (bio_file_new room) (ascii "MFSM 2.0")).1.error = 0
  · have w := bio_write_at_end (bio_file_new room) _ ⟨rfl, rfl, rfl⟩ e
    have hl : (ascii "MFSM 2.0").length = 8 := by decide
    rw [hl] at w
    rw [w] at herr hsize ⊢
    dsimp only at herr hsize ⊢
    rw [if_neg (fun h => h rfl)] at herr hsize ⊢
    have hend1 : bio_at_end ⟨(bio_file_new room).data ++ ascii "MFSM 2.0",
        (bio_file_new room).pos + 8, true, (bio_file_new room).room - 8, 0⟩ :=
      bio_at_end_mk _ _ _ (by rw [List.length_append, hl]; rfl)
    obtain ⟨i1, i2, _⟩ := meta_store_bytes c metaversion metaid _ crcfd hend1 herr hsize
    refine ⟨i1, ?_⟩
    rw [i2]
    rfl
  · have z := bio_write_failed _ _ e
    rw [z, if_pos (by decide)] at herr
    exact absurd herr e

/-! ## Metadata image: reading back what was written -/

theorem meta_image_bytes_split (c : MetaCollab) (metaversion metaid : Nat) :
    meta_image_bytes c metaversion metaid
      = ascii "MFSM 2.0" ++ (put64bit metaversion ++ (put64bit metaid
          ++ (meta_sections_bytes c ++ ascii "[MFS EOF MARKER]"))) := by
  simp only [meta_image_bytes, List.append_assoc]

/-- The check of an image `MFSM 2.0` that ends with the end marker: ok, with
the two 64-bit values of its header. -/
theorem meta_check_image (a b : Nat) (mid : List Nat) :
    meta_check_metadatafile (FileState.content
        (ascii "MFSM 2.0" ++ (put64bit a ++ (put64bit b ++ (mid ++ ascii "[MFS EOF MARKER]")))))
      = (META_CHECK_OK, a % U64, b % U64) := by
  have hsl : (ascii "MFSM 2.0").length = 8 := by decide
  have hml : (ascii "[MFS EOF MARKER]").length = 16 := by decide
  have ht : (ascii "MFSM 2.0" ++ (put64bit a ++ (put64bit b
      ++ (mid ++ ascii "[MFS EOF MARKER]")))).take 8 = ascii "MFSM 2.0" :=
    List.take_left' hsl
  have hd : (ascii "MFSM 2.0" ++ (put64bit a ++ (put64bit b
      ++ (mid ++ ascii "[MFS EOF MARKER]")))).drop 8
      = put64bit a ++ (put64bit b ++ (mid ++ ascii "[MFS EOF MARKER]")) :=
    List.drop_left' hsl
  have hh : (put64bit a ++ (put64bit b ++ (mid ++ ascii "[MFS EOF MARKER]"))).take 16
      = put64bit a ++ put64bit b := by
    rw [← List.append_assoc]
    exact List.take_left' rfl
  have hlast : ((ascii "MFSM 2.0" ++ (put64bit a ++ (put64bit b
      ++ (mid ++ ascii "[MFS EOF MARKER]")))).drop
        ((ascii "MFSM 2.0" ++ (put64bit a ++ (put64bit b
          ++ (mid ++ ascii "[MFS EOF MARKER]")))).length - 16)).take 16
      = ascii "[MFS EOF MARKER]" := by
    have e : ascii "MFSM 2.0" ++ (put64bit a ++ (put64bit b
        ++ (mid ++ ascii "[MFS EOF MARKER]")))
        = (ascii "MFSM 2.0" ++ put64bit a ++ put64bit b ++ mid) ++ ascii "[MFS EOF MARKER]" := by
      simp only [List.append_assoc]
    rw [e, List.drop_left' (by simp only [List.length_append, hml]; omega)]
    exact List.take_of_length_le (by rw [hml])
  have g1 : get64bit (put64bit a ++ put64bit b) = a % U64 := get64bit_put64bit a _
  have g2 : get64bit ((put64bit a ++ put64bit b).drop 8) = b % U64 := by
    rw [List.drop_left' (put64bit_length a)]
    have := get64bit_put64bit b []
    rwa [List.append_nil] at this
  unfold meta_check_metadatafile
  dsimp only
  rw [ht, hd, hh, hlast, g1, g2]
  rfl

/-- The load of an image `MFSM 2.0`: `meta_load` is called with format version
2.0 and takes `metaversion` and `metaid` from the header. -/
theorem meta_load_image (c : MetaCollab) (ignoreflag metaversion0 metaid0 a b : Nat)
    (rest : List Nat) :
    ∃ r, meta_loadfile_load c ignoreflag metaversion0 metaid0
        (ascii "MFSM 2.0" ++ (put64bit a ++ (put64bit b ++ rest))) = some r ∧
      (∃ v, r.ret = some v) ∧ r.metaversion = a % U64 ∧ r.metaid = b % U64 := by
  have hsl : (ascii "MFSM 2.0").length = 8 := by decide
  have hr2 : (bio_read (bio_file_of (ascii "MFSM 2.0" ++ (put64bit a ++ (put64bit b ++ rest))))
      8).2 = ascii "MFSM 2.0" := List.take_left' hsl
  have hr1 : (bio_read (bio_file_of (ascii "MFSM 2.0" ++ (put64bit a ++ (put64bit b ++ rest))))
      8).1 = ⟨ascii "MFSM 2.0" ++ (put64bit a ++ (put64bit b ++ rest)), 8, true, 0, 0⟩ := by
    have := congrArg List.length hr2
    unfold bio_read at this ⊢
    dsimp only at this ⊢
    rw [this]
    rfl
  have h16 : (bio_read ⟨ascii "MFSM 2.0" ++ (put64bit a ++ (put64bit b ++ rest)), 8, true, 0, 0⟩
      16).2 = put64bit a ++ put64bit b := by
    unfold bio_read
    dsimp only
    rw [List.drop_left' hsl, ← List.append_assoc]
    exact List.take_left' rfl
  have hm := meta_load_header c ignoreflag metaversion0 metaid0
    ⟨ascii "MFSM 2.0" ++ (put64bit a ++ (put64bit b ++ rest)), 8, true, 0, 0⟩ 0x20
    (by rw [h16]; rfl) (Nat.le_refl _)
  rw [h16] at hm
  have g1 : get64bit (put64bit a ++ put64bit b) = a % U64 := get64bit_put64bit a _
  have g2 : get64bit ((put64bit a ++ put64bit b).drop 8) = b % U64 := by
    rw [List.drop_left' (put64bit_length a)]
    have := get64bit_put64bit b []
    rwa [List.append_nil] at this
  rw [g1, g2] at hm
  refine ⟨meta_load c ignoreflag metaversion0 metaid0
    ⟨ascii "MFSM 2.0" ++ (put64bit a ++ (put64bit b ++ rest)), 8, true, 0, 0⟩ 0x20, ?_,
    meta_load_returns _ _ _ _ _ _, hm.1, hm.2⟩
  unfold meta_loadfile_load
  dsimp only
  rw [hr2, hr1]
  rfl

/-- C15: the round trip of `metaversion` and `metaid`. For every 64-bit
`metaversion` and `metaid` and whatever the section writers emit, the image
written without write error to a new file (signature `MFSM 2.0`, then
`meta_store`) is found ok by `meta_check_metadatafile`, which returns the
`metaversion` and `metaid` written; `meta_load`, called by `meta_loadfile` on
the same image, returns and has set `metaversion` and `metaid` to them. -/
theorem meta_image_round_trip (c : MetaCollab) (metaversion metaid room : Nat)
    (crcfd : Option bio) (ignoreflag metaversion0 metaid0 : Nat)
    (hv : metaversion < U64) (hi : metaid < U64)
    (herr : bio_error (meta_image_store c metaversion metaid (bio_file_new room) crcfd).1 = 0)
    (hsize : (meta_image_store c metaversion metaid (bio_file_new room) crcfd).1.data.length
      < U64) :
    meta_check_metadatafile (FileState.content
        (meta_image_store c metaversion metaid (bio_file_new room) crcfd).1.data)
      = (META_CHECK_OK, metaversion, metaid) ∧
    ∃ r, meta_loadfile_load c ignoreflag metaversion0 metaid0
        (meta_image_store c metaversion metaid (bio_file_new room) crcfd).1.data = some r ∧
      (∃ v, r.ret = some v) ∧ r.metaversion = metaversion ∧ r.metaid = metaid := by
  obtain ⟨_, hb⟩ := meta_image_store_bytes c metaversion metaid room crcfd herr hsize
  have h1 := meta_check_image metaversion metaid (meta_sections_bytes c)
  have h2 := meta_load_image c ignoreflag metaversion0 metaid0 metaversion metaid
    (meta_sections_bytes c ++ ascii "[MFS EOF MARKER]")
  rw [Nat.mod_eq_of_lt hv, Nat.mod_eq_of_lt hi] at h1 h2
  rw [hb, meta_image_bytes_split]
  exact ⟨h1, h2⟩

set_option maxRecDepth 20000 in
/-- C15, witness: version 5 and id 7 written with writers that emit nothing. -/
theorem meta_image_round_trip_witness :
    meta_check_metadatafile (FileState.content
        (meta_image_store metacollab_sample 5 7 (bio_file_new 1000) none).1.data)
      = (META_CHECK_OK, 5, 7) ∧
    ∃ r, meta_loadfile_load metacollab_sample 0 0 0
        (meta_image_store metacollab_sample 5 7 (bio_file_new 1000) none).1.data = some r ∧
      (∃ v, r.ret = some v) ∧ r.metaversion = 5 ∧ r.metaid = 7 :=
  meta_image_round_trip metacollab_sample 5 7 1000 none 0 0 0 (by decide) (by decide)
    rfl (by decide)

/-! ## Metadata image: the format of a section -/

/-- C16: the bytes of a section. On a file sink positioned at its end, when no
write fails and the file stays below 2^64 bytes: `meta_store_chunk` with tag
`t`, a writer of version byte `v` that emits `n` payload bytes, called behind
the first byte of the file, returns 0 and has appended `t`, a space, `'0'+(v>>4)`,
a dot, `'0'+(v&15)`, `n` as 8 bytes big-endian and the payload, and the sink
is positioned at the end of the payload; with a null writer it returns 0 and
has appended the 16 bytes `[MFS EOF MARKER]`; `meta_store` has appended the
header and the sections SESS, SCLA, NODE, EDGE, FREE, QUOT, XATR, PACL, OPEN,
FLCK, PLCK, CSDB, CHNK in this order (`meta_sections_bytes`), then the marker. -/
theorem meta_store_chunk_format (c : MetaCollab) (fd : bio) (hend : bio_at_end fd) :
    (∀ f t, fd.pos ≠ 0 → t.length = 4 →
      (meta_store_chunk c fd (some f) t).1.error = 0 →
      (meta_store_chunk c fd (some f) t).1.data.length < U64 →
      (meta_store_chunk c fd (some f) t).2 = 0 ∧
      (meta_store_chunk c fd (some f) t).1.data
        = fd.data ++ (t ++ [0x20, 0x30 + c.mver f / 16, 0x2E, 0x30 + c.mver f % 16]
            ++ put64bit (c.store_payload f).length ++ c.store_payload f) ∧
      (meta_store_chunk c fd (some f) t).1.pos
        = fd.pos + 16 + (c.store_payload f).length ∧
      (meta_store_chunk c fd (some f) t).1.pos
        = (meta_store_chunk c fd (some f) t).1.data.length) ∧
    (∀ t, (meta_store_chunk c fd none t).1.error = 0 →
      (meta_store_chunk c fd none t).2 = 0 ∧
      (meta_store_chunk c fd none t).1.data = fd.data ++ ascii "[MFS EOF MARKER]") ∧
    (∀ metaversion metaid crcfd,
      (meta_store c metaversion metaid fd crcfd).1.error = 0 →
      (meta_store c metaversion metaid fd crcfd).1.data.length < U64 →
      (meta_store c metaversion metaid fd crcfd).2.2 = true ∧
      (meta_store c metaversion metaid fd crcfd).1.data
        = fd.data ++ (put64bit metaversion ++ put64bit metaid) ++ meta_sections_bytes c
            ++ ascii "[MFS EOF MARKER]") := by
  refine ⟨?_, ?_, ?_⟩
  · intro f t hpos ht herr hsize
    have hn : 4 ≤ t.length := by omega
    have ht4 : t.take 4 = t := List.take_of_length_le (by omega)
    obtain ⟨e1, e2, e3⟩ := meta_store_chunk_end c fd f t hend hpos hn herr
    have hb := meta_store_chunk_bytes c fd f t hend hpos hn herr hsize
    rw [ht4] at hb
    exact ⟨e1, hb, e3, e2.2.2⟩
  · intro t herr
    rw [meta_store_chunk_marker c fd t hend herr]
    exact ⟨rfl, rfl⟩
  · intro metaversion metaid crcfd herr hsize
    obtain ⟨i1, i2, _⟩ := meta_store_bytes c metaversion metaid fd crcfd hend herr hsize
    exact ⟨i1, i2⟩

set_option maxRecDepth 20000 in
/-- C16, witness: the section `NODE` written behind the 24 bytes of a
signature and a header by a writer of version 1.0 that emits nothing. -/
theorem meta_store_chunk_format_witness :
    (meta_store_chunk metacollab_sample ⟨List.replicate 24 0, 24, true, 100, 0⟩
        (some StoreFn.fs_storenodes) (ascii "NODE")).1.data
      = List.replicate 24 0 ++ (ascii "NODE"
          ++ [0x20, 0x30 + metacollab_sample.mver StoreFn.fs_storenodes / 16, 0x2E,
              0x30 + metacollab_sample.mver StoreFn.fs_storenodes % 16]
          ++ put64bit (metacollab_sample.store_payload StoreFn.fs_storenodes).length
          ++ metacollab_sample.store_payload StoreFn.fs_storenodes) :=
  ((meta_store_chunk_format metacollab_sample ⟨List.replicate 24 0, 24, true, 100, 0⟩
    ⟨rfl, rfl, rfl⟩).1 StoreFn.fs_storenodes (ascii "NODE") (by decide) (by decide)
    (by decide) (by decide)).2.1

/-- The image written by writers of version 1.0 that emit nothing begins with
the signature, the header and the section header `SESS 1.0` with length 0. -/
theorem meta_image_store_run :
    (meta_image_store metacollab_sample 5 7 (bio_file_new 1000) none).1.data.take 40
      = ascii "MFSM 2.0" ++ put64bit 5 ++ put64bit 7 ++ ascii "SESS 1.0" ++ put64bit 0 := by
  decide

/-! ## Metadata image: the sidecar -/

theorem crc_records_flatten :
    ∀ (recs : List (List Nat)) (fuel : Nat), (∀ r ∈ recs, r.length = 8) → recs.length ≤ fuel →
      crc_records fuel recs.flatten = recs := by
  intro recs
  induction recs with
  | nil =>
    intro fuel _ _
    cases fuel with
    | zero => rfl
    | succ k => simp [crc_records]
  | cons r rs ih =>
    intro fuel hr hf
    have h8 : r.length = 8 := hr r (List.mem_cons_self _ _)
    cases fuel with
    | zero => simp at hf
    | succ k =>
      have hne : r ++ rs.flatten ≠ [] := by
        intro h
        have := congrArg List.length h
        rw [List.length_append, h8] at this
        simp at this
      rw [List.flatten_cons]
      unfold crc_records
      rw [if_neg hne, List.take_left' h8, List.drop_left' h8,
        ih k (fun x hx => hr x (List.mem_cons_of_mem _ hx)) (by simpa using hf)]

theorem crc_flatten_length :
    ∀ (recs : List (List Nat)), (∀ r ∈ recs, r.length = 8) → recs.length ≤ recs.flatten.length := by
  intro recs
  induction recs with
  | nil => intro _; simp
  | cons r rs ih =>
    intro hr
    have h8 : r.length = 8 := hr r (List.mem_cons_self _ _)
    have := ih (fun x hx => hr x (List.mem_cons_of_mem _ hx))
    rw [List.flatten_cons, List.length_append, List.length_cons, h8]
    omega

/-- The tags read back from a file of records `tag(4) | crc32(4)`. -/
theorem crc_tags_records :
    ∀ (tags : List (List Nat)) (crcs : List Nat), (∀ t ∈ tags, t.length = 4) →
      crcs.length = tags.length →
      crc_tags ((List.zipWith (fun t x => t.take 4 ++ put32bit x) tags crcs).flatten) = tags := by
  intro tags crcs ht hl
  have h8 : ∀ r ∈ List.zipWith (fun t x => t.take 4 ++ put32bit x) tags crcs, r.length = 8 := by
    intro r hr
    obtain ⟨i, hi, rfl⟩ := List.mem_iff_getElem.1 hr
    rw [List.getElem_zipWith, List.length_append, put32bit_length, List.length_take]
    have := ht _ (List.getElem_mem (l := tags) (n := i) (by
      rw [List.length_zipWith] at hi
      omega))
    omega
  unfold crc_tags
  rw [crc_records_flatten _ _ h8 (crc_flatten_length _ h8)]
  clear h8
  induction tags generalizing crcs with
  | nil => simp
  | cons t ts ih =>
    cases crcs with
    | nil => simp at hl
    | cons x xs =>
      have h4 : (t.take 4).length = 4 := by
        rw [List.length_take, ht t (List.mem_cons_self _ _)]
        rfl
      rw [List.zipWith_cons_cons, List.map_cons, List.take_left' h4,
        ih xs (fun y hy => ht y (List.mem_cons_of_mem _ hy)) (by simpa using hl),
        List.take_of_length_le (by rw [ht t (List.mem_cons_self _ _)])]

/-- The sidecar of a run that reaches its end: one record per step of the
plan, in the order of the plan, when the sidecar is a file positioned at its
end and no write to it fails. -/
theorem meta_store_run_sidecar (c : MetaCollab) :
    ∀ (plan : List (Option StoreFn × List Nat × List Nat)) (fd cf : bio),
      (meta_store_run c plan fd (some cf)).2.2 = true →
      ∃ sc, (meta_store_run c plan fd (some cf)).2.1 = some sc ∧
        (cf.error ≠ 0 → sc.error ≠ 0) ∧
        (bio_at_end cf → sc.error = 0 →
          ∃ crcs : List Nat, crcs.length = plan.length ∧
            sc.data = cf.data ++ (List.zipWith (fun t x => t.take 4 ++ put32bit x)
              (plan.map (fun e => e.2.2)) crcs).flatten) := by
  intro plan
  induction plan with
  | nil =>
    intro fd cf _
    exact ⟨cf, rfl, fun h => h, fun _ _ => ⟨[], rfl, by simp⟩⟩
  | cons e rest ih =>
    intro fd cf hdone
    obtain ⟨f, name, sect⟩ := e
    unfold meta_store_run at hdone ⊢
    by_cases hneg : (meta_store_chunk c fd f name).2 < 0
    · rw [if_pos hneg] at hdone
      exact absurd hdone (by simp)
    · rw [if_neg hneg] at hdone ⊢
      have hcrc : STORE_CRC c (meta_store_chunk c fd f name).1 (some cf) sect
          = some (bio_write cf (sect.take 4
              ++ put32bit (c.bio_crc (meta_store_chunk c fd f name).1))).1 := rfl
      rw [hcrc] at hdone ⊢
      obtain ⟨sc, h1, h2, h3⟩ := ih _ _ hdone
      refine ⟨sc, h1, fun he => h2 (bio_write_sticky cf _ he).1, ?_⟩
      intro hend herr
      have hw0 : (bio_write cf (sect.take 4
          ++ put32bit (c.bio_crc (meta_store_chunk c fd f name).1))).1.error = 0 := by
        by_contra hne
        exact h2 hne herr
      have hw := bio_write_at_end cf _ hend hw0
      rw [hw] at h3
      obtain ⟨crcs, l1, l2⟩ := h3 (bio_at_end_mk _ _ _ (by
        simp only [List.length_append, hend.2.2])) herr
      refine ⟨c.bio_crc (meta_store_chunk c fd f name).1 :: crcs, by simp [l1], ?_⟩
      rw [l2]
      simp only [List.map_cons, List.zipWith_cons_cons, List.flatten_cons, List.append_assoc]

set_option maxRecDepth 20000 in
/-- C17 as the code has it: the sidecar opens with a record `HEAD`, written
behind the 16-byte header of `meta_store`, and closes with a record `TAIL`,
written behind the end marker; neither is the tag of a section. With writers
that emit nothing and a checksum 0 the sidecar holds 15 records. -/
theorem meta_store_sidecar_head_tail :
    ∃ sc, (meta_store metacollab_sample 5 7 (bio_file_new 1000) (some (bio_file_new 1000))).2.1
        = some sc ∧
      (meta_store metacollab_sample 5 7 (bio_file_new 1000) (some (bio_file_new 1000))).2.2
        = true ∧
      sc.error = 0 ∧
      crc_tags sc.data
        = [ascii "HEAD", ascii "SESS", ascii "SCLA", ascii "NODE", ascii "EDGE", ascii "FREE",
           ascii "QUOT", ascii "XATR", ascii "PACL", ascii "OPEN", ascii "FLCK", ascii "PLCK",
           ascii "CSDB", ascii "CHNK", ascii "TAIL"] ∧
      crc_tags sc.data
        ≠ [ascii "SESS", ascii "SCLA", ascii "NODE", ascii "EDGE", ascii "FREE", ascii "QUOT",
           ascii "XATR", ascii "PACL", ascii "OPEN", ascii "FLCK", ascii "PLCK", ascii "CSDB",
           ascii "CHNK"] := by
  refine ⟨_, rfl, ?_, ?_, ?_, ?_⟩ <;> decide

/-- C17, amended: when `meta_store` is given a sidecar that opens as a new
file and runs to its end, and no write to the sidecar fails, the 4-byte tags
of the 8-byte records of the sidecar are HEAD, then the section tags SESS,
SCLA, NODE, EDGE, FREE, QUOT, XATR, PACL, OPEN, FLCK, PLCK, CSDB, CHNK in the
order of the image, then TAIL, and there is no other record. -/
theorem meta_store_sidecar_tags (c : MetaCollab) (metaversion metaid room : Nat) (fd : bio)
    (hdone : (meta_store c metaversion metaid fd (some (bio_file_new room))).2.2 = true) :
    ∃ sc, (meta_store c metaversion metaid fd (some (bio_file_new room))).2.1 = some sc ∧
      (bio_error sc = 0 →
        crc_tags sc.data
          = [ascii "HEAD", ascii "SESS", ascii "SCLA", ascii "NODE", ascii "EDGE", ascii "FREE",
             ascii "QUOT", ascii "XATR", ascii "PACL", ascii "OPEN", ascii "FLCK", ascii "PLCK",
             ascii "CSDB", ascii "CHNK", ascii "TAIL"]) := by
  unfold meta_store at hdone ⊢
  by_cases hw : (bio_write fd (put64bit metaversion ++ put64bit metaid)).2 ≠ 16
  · rw [if_pos hw] at hdone
    exact absurd hdone (by simp)
  · rw [if_neg hw] at hdone ⊢
    have hcrc : STORE_CRC c (bio_write fd (put64bit metaversion ++ put64bit metaid)).1
        (some (bio_file_new room)) (ascii "HEAD")
        = some (bio_write (bio_file_new room) ((ascii "HEAD").take 4 ++ put32bit
            (c.bio_crc (bio_write fd (put64bit metaversion ++ put64bit metaid)).1))).1 := rfl
    rw [hcrc] at hdone ⊢
    obtain ⟨sc, h1, h2, h3⟩ := meta_store_run_sidecar c meta_store_plan _ _ hdone
    refine ⟨sc, h1, fun herr => ?_⟩
    have hw0 : (bio_write (bio_file_new room) ((ascii "HEAD").take 4 ++ put32bit
        (c.bio_crc (bio_write fd (put64bit metaversion ++ put64bit metaid)).1))).1.error
        = 0 := by
      by_contra hne
      exact h2 hne herr
    have hwr := bio_write_at_end (bio_file_new room) _ ⟨rfl, rfl, rfl⟩ hw0
    rw [hwr] at h3
    obtain ⟨crcs, l1, l2⟩ := h3 (bio_at_end_mk _ _ _ (by
      simp only [List.length_append, bio_file_new, List.length_nil])) herr
    have ht := crc_tags_records (ascii "HEAD" :: meta_store_plan.map (fun e => e.2.2))
      (c.bio_crc (bio_write fd (put64bit metaversion ++ put64bit metaid)).1 :: crcs)
      (by decide) (by
        rw [List.length_cons, List.length_cons, List.length_map, l1])
    rw [List.zipWith_cons_cons, List.flatten_cons] at ht
    dsimp only at l2
    have hnil : (bio_file_new room).data = [] := rfl
    rw [hnil, List.nil_append] at l2
    rw [l2, ht]
    rfl

set_option maxRecDepth 20000 in
/-- C17, witness: the sidecar of an image written with writers that emit
nothing. -/
theorem meta_store_sidecar_tags_witness :
    ∃ sc, (meta_store metacollab_sample 5 7 (bio_file_new 1000) (some (bio_file_new 200))).2.1
        = some sc ∧
      (bio_error sc = 0 →
        crc_tags sc.data
          = [ascii "HEAD", ascii "SESS", ascii "SCLA", ascii "NODE", ascii "EDGE", ascii "FREE",
             ascii "QUOT", ascii "XATR", ascii "PACL", ascii "OPEN", ascii "FLCK", ascii "PLCK",
             ascii "CSDB", ascii "CHNK", ascii "TAIL"]) :=
  meta_store_sidecar_tags metacollab_sample 5 7 200 (bio_file_new 1000) (by decide)

/-! ## Job pool: the worker counters -/

theorem job_close_worker_counters (jp : jobpool) (h1 : 1 ≤ jp.workers_avail)
    (h2 : jp.workers_avail ≤ jp.workers_total) (h3 : jp.workers_total < U32) :
    (job_close_worker jp).workers_avail = jp.workers_avail - 1 ∧
    (job_close_worker jp).workers_total = jp.workers_total - 1 ∧
    (job_close_worker jp).workers_max = jp.workers_max := by
  have hU : U32 = 4294967296 := by decide
  have e1 : (jp.workers_avail + U32 - 1) % U32 = jp.workers_avail - 1 := by
    rw [hU] at h3 ⊢
    omega
  have e2 : (jp.workers_total + U32 - 1) % U32 = jp.workers_total - 1 := by
    rw [hU] at h3 ⊢
    omega
  unfold job_close_worker
  dsimp only
  exact ⟨e1, e2, rfl⟩

theorem job_worker_occupy_counters (jp : jobpool) (created : Bool) (h1 : 1 ≤ jp.workers_avail)
    (hinv : workers_inv jp) (hmax : jp.workers_max < U32) :
    workers_inv (job_worker_occupy jp created) ∧
    (job_worker_occupy jp created).workers_max = jp.workers_max := by
  obtain ⟨ha, ht⟩ := hinv
  have hU : U32 = 4294967296 := by decide
  have e1 : (jp.workers_avail + U32 - 1) % U32 = jp.workers_avail - 1 := by
    rw [hU] at hmax ⊢
    omega
  unfold job_worker_occupy
  rw [e1]
  by_cases hc : jp.workers_avail - 1 = 0 ∧ jp.workers_total < jp.workers_max
  · rw [if_pos hc]
    cases created with
    | false =>
      unfold job_spawn_worker workers_inv
      dsimp only
      rw [if_neg (by decide)]
      dsimp only
      exact ⟨⟨by omega, ht⟩, rfl⟩
    | true =>
      have e2 : (jp.workers_avail - 1 + 1) % U32 = 1 := by
        rw [hU]
        omega
      have e3 : (jp.workers_total + 1) % U32 = jp.workers_total + 1 := by
        rw [hU] at hmax ⊢
        omega
      unfold job_spawn_worker workers_inv
      dsimp only
      rw [if_pos rfl]
      dsimp only
      rw [e2, e3]
      exact ⟨⟨by omega, by omega⟩, rfl⟩
  · rw [if_neg hc]
    unfold workers_inv
    dsimp only
    exact ⟨⟨by omega, ht⟩, rfl⟩

theorem job_worker_promote_counters (jp : jobpool) (jptr : Nat) :
    (job_worker_promote jp jptr).1.workers_avail = jp.workers_avail ∧
    (job_worker_promote jp jptr).1.workers_total = jp.workers_total ∧
    (job_worker_promote jp jptr).1.workers_max = jp.workers_max := by
  unfold job_worker_promote
  split
  · split <;> exact ⟨rfl, rfl, rfl⟩
  · exact ⟨rfl, rfl, rfl⟩

theorem job_send_status_counters (jp : jobpool) (jobid status : Nat) :
    (job_send_status jp jobid status).workers_avail = jp.workers_avail ∧
    (job_send_status jp jobid status).workers_total = jp.workers_total ∧
    (job_send_status jp jobid status).workers_max = jp.workers_max ∧
    (job_send_status jp jobid status).workers_max_idle = jp.workers_max_idle :=
  ⟨rfl, rfl, rfl, rfl⟩

theorem job_worker_done_counters (jp : jobpool) (jobid status : Nat)
    (h1 : jp.workers_avail < jp.workers_total) (hinv : workers_inv jp)
    (hmax : jp.workers_max < U32) :
    workers_inv (job_worker_done jp jobid status).1 ∧
    (job_worker_done jp jobid status).1.workers_max = jp.workers_max := by
  obtain ⟨ha, ht⟩ := hinv
  have hU : U32 = 4294967296 := by decide
  have e1 : (jp.workers_avail + 1) % U32 = jp.workers_avail + 1 := by
    rw [hU] at hmax ⊢
    omega
  obtain ⟨s1, s2, s3, s4⟩ := job_send_status_counters jp jobid status
  unfold job_worker_done
  dsimp only
  rw [s1, e1]
  split
  · have hc := job_close_worker_counters
      { job_send_status jp jobid status with workers_avail := jp.workers_avail + 1 }
      (Nat.succ_le_succ (Nat.zero_le _)) (by dsimp only; rw [s2]; omega)
      (by dsimp only; rw [s2]; omega)
    obtain ⟨c1, c2, c3⟩ := hc
    dsimp only at c1 c2 c3
    unfold workers_inv
    rw [c1, c2, c3, s2, s3]
    exact ⟨⟨by omega, by omega⟩, rfl⟩
  · unfold workers_inv
    dsimp only
    rw [s2, s3]
    exact ⟨⟨by omega, ht⟩, rfl⟩

theorem job_init_counters (junk : jobpool) (cfg_queue cfg_max cfg_idle : Nat) (created : Bool)
    (h1 : 1 ≤ cfg_max) :
    workers_inv (job_init junk cfg_queue cfg_max cfg_idle created) ∧
    (job_init junk cfg_queue cfg_max cfg_idle created).workers_max = cfg_max := by
  cases created with
  | false =>
    refine ⟨⟨?_, ?_⟩, rfl⟩
    · show (0 : Nat) ≤ 0
      exact Nat.le_refl _
    · show (0 : Nat) ≤ cfg_max
      exact Nat.zero_le _
  | true =>
    have e : (0 + 1) % U32 = 1 := by decide
    refine ⟨⟨?_, ?_⟩, rfl⟩
    · show (0 + 1) % U32 ≤ (0 + 1) % U32
      exact Nat.le_refl _
    · show (0 + 1) % U32 ≤ cfg_max
      rw [e]
      exact h1

/-- A tame step keeps the worker counters within the limits. -/
theorem pool_step_counters (jp jp1 : jobpool) (a : PoolAct) (hinv : workers_inv jp)
    (hmax : jp.workers_max < U32) (ht : pool_act_tame jp a) (hs : pool_step jp a = some jp1) :
    workers_inv jp1 ∧ jp1.workers_max < U32 := by
  have hU : U32 = 4294967296 := by decide
  cases a with
  | pickup jobid op jptr created =>
    simp only [pool_step] at hs
    by_cases h0 : jp.workers_avail = 0
    · rw [if_pos h0] at hs
      exact absurd hs (by simp)
    · rw [if_neg h0] at hs
      have h1 : 1 ≤ jp.workers_avail := Nat.one_le_iff_ne_zero.2 h0
      by_cases hsen : jobid = 0 ∧ op = 0 ∧ jptr = 0
      · have htk : job_worker_take jp jobid op jptr created
            = (job_close_worker jp, Taken.retired) := by
          unfold job_worker_take
          rw [if_pos hsen]
        rw [htk] at hs
        dsimp only at hs
        injection hs with hs
        subst hs
        obtain ⟨c1, c2, c3⟩ := job_close_worker_counters jp h1 hinv.1
          (Nat.lt_of_le_of_lt hinv.2 hmax)
        unfold workers_inv
        rw [c1, c2, c3]
        have := hinv.1
        have := hinv.2
        exact ⟨⟨by omega, by omega⟩, hmax⟩
      · have hop : 1 ≤ op ∧ op ≤ 9 := by
          rcases ht with h | h
          · exact absurd h hsen
          · exact h
        have htk : job_worker_take jp jobid op jptr created
            = ((job_worker_promote (job_worker_occupy jp created) jptr).1,
                Taken.running (job_worker_promote (job_worker_occupy jp created) jptr).2) := by
          unfold job_worker_take
          rw [if_neg hsen]
        rw [htk] at hs
        dsimp only at hs
        rw [if_pos hop] at hs
        injection hs with hs
        subst hs
        obtain ⟨o1, o2⟩ := job_worker_occupy_counters jp created h1 hinv hmax
        obtain ⟨p1, p2, p3⟩ := job_worker_promote_counters (job_worker_occupy jp created) jptr
        unfold workers_inv at o1 ⊢
        rw [o2] at o1
        rw [p1, p2, p3, o2]
        exact ⟨o1, hmax⟩
  | complete jobid status =>
    simp only [pool_step] at hs
    by_cases h0 : jp.workers_avail < jp.workers_total
    · rw [if_pos h0] at hs
      injection hs with hs
      subst hs
      obtain ⟨d1, d2⟩ := job_worker_done_counters jp jobid status h0 hinv hmax
      rw [d2]
      exact ⟨d1, hmax⟩
    · rw [if_neg h0] at hs
      exact absurd hs (by simp)
  | reload cfg_max cfg_idle =>
    obtain ⟨t1, t2⟩ := ht
    simp only [pool_step] at hs
    injection hs with hs
    subst hs
    have e : cfg_max % U32 = cfg_max := Nat.mod_eq_of_lt t2
    refine ⟨⟨?_, ?_⟩, ?_⟩
    · show jp.workers_avail ≤ jp.workers_total
      exact hinv.1
    · show jp.workers_total ≤ cfg_max % U32
      rw [e]
      exact t1
    · show cfg_max % U32 < U32
      rw [e]
      exact t2

theorem pool_run_counters :
    ∀ (acts : List PoolAct) (jp0 jp : jobpool), workers_inv jp0 → jp0.workers_max < U32 →
      pool_run_tame jp0 acts = true → pool_run jp0 acts = some jp →
      workers_inv jp ∧ jp.workers_max < U32 := by
  intro acts
  induction acts with
  | nil =>
    intro jp0 jp hinv hmax _ hr
    unfold pool_run at hr
    injection hr with hr
    subst hr
    exact ⟨hinv, hmax⟩
  | cons a rest ih =>
    intro jp0 jp hinv hmax ht hr
    unfold pool_run at hr
    unfold pool_run_tame at ht
    cases hs : pool_step jp0 a with
    | none =>
      rw [hs] at hr
      exact absurd hr (by simp)
    | some jp1 =>
      rw [hs] at hr ht
      dsimp only at hr ht
      rw [Bool.and_eq_true, decide_eq_true_eq] at ht
      obtain ⟨s1, s2⟩ := pool_step_counters jp0 jp1 a hinv hmax ht.1 hs
      exact ih jp1 jp s1 s2 ht.2 hr

/-- C27 as the code has it: `job_reload` stores the new `WORKERS_MAX` and
leaves the workers alone. From `job_init` with `WORKERS_MAX = 250`, a worker
picks up a job and, as no worker is left available, spawns a second one; a
reload with `WORKERS_MAX = 1` then leaves `workers_total = 2` above
`workers_max = 1`. -/
theorem pool_reload_below_total :
    (pool_run (job_init jobpool_empty 250 250 40 true)
        [PoolAct.pickup 1 3 0 true, PoolAct.reload 1 40]).map
      (fun jp => (jp.workers_avail, jp.workers_total, jp.workers_max)) = some (1, 2, 1) := by
  decide

/-- A worker that retires in the `default` arm of the `switch` has lowered
`workers_avail` when it took the record and lowers it again in
`job_close_worker`: with one worker and `WORKERS_MAX = 1` the counter wraps. -/
theorem pool_exit_lowers_avail_twice :
    (pool_run (job_init jobpool_empty 250 1 40 true) [PoolAct.pickup 7 0 0 true]).map
      (fun jp => (jp.workers_avail, jp.workers_total, jp.workers_max))
      = some (4294967295, 0, 1) := by
  decide

/-- C27, amended: in every state reached from `job_init` with
`1 ≤ WORKERS_MAX < 2^32` through pickups of the closed-queue sentinel or of a
job with `op` in 1..9 (with the spawn a pickup may make), completions (with
the retirement on idle surplus) and reloads that do not set `WORKERS_MAX` below
`workers_total`, `0 ≤ workers_avail ≤ workers_total ≤ workers_max` holds. -/
theorem pool_workers_inv (junk : jobpool) (cfg_queue cfg_max cfg_idle : Nat) (created : Bool)
    (acts : List PoolAct) (jp : jobpool) (h1 : 1 ≤ cfg_max) (h2 : cfg_max < U32)
    (htame : pool_run_tame (job_init junk cfg_queue cfg_max cfg_idle created) acts = true)
    (hrun : pool_run (job_init junk cfg_queue cfg_max cfg_idle created) acts = some jp) :
    0 ≤ jp.workers_avail ∧ jp.workers_avail ≤ jp.workers_total ∧
    jp.workers_total ≤ jp.workers_max := by
  obtain ⟨i1, i2⟩ := job_init_counters junk cfg_queue cfg_max cfg_idle created h1
  obtain ⟨r1, _⟩ := pool_run_counters acts _ jp i1 (by rw [i2]; exact h2) htame hrun
  exact ⟨Nat.zero_le _, r1.1, r1.2⟩

/-- C27, witness: a pickup that spawns a second worker, the completion of the
job, a reload with a larger limit, and the sentinel. -/
theorem pool_workers_inv_witness :
    ∃ jp, pool_run (job_init jobpool_empty 250 250 40 true)
        [PoolAct.pickup 1 3 0 true, PoolAct.complete 1 0, PoolAct.reload 300 40,
         PoolAct.pickup 0 0 0 true] = some jp ∧
      0 ≤ jp.workers_avail ∧ jp.workers_avail ≤ jp.workers_total ∧
      jp.workers_total ≤ jp.workers_max :=
  ⟨_, rfl, pool_workers_inv jobpool_empty 250 250 40 true
    [PoolAct.pickup 1 3 0 true, PoolAct.complete 1 0, PoolAct.reload 300 40,
     PoolAct.pickup 0 0 0 true] _ (by decide) (by decide) (by decide) rfl⟩

/-! ## Job pool: the wake-pipe protocol -/

theorem status_send_step (jp : jobpool) (jobid status : Nat)
    (hcl : jp.statusqueue.closed = 0) (hunb : jp.statusqueue.maxsize = 0)
    (hcount : jp.statusqueue.elements = jp.statusqueue.entries.length)
    (hroom : jp.statusqueue.entries.length + 1 < U32) (hw : wake_inv jp) :
    (job_send_status jp jobid status).statusqueue.entries
      = jp.statusqueue.entries ++ [⟨jobid, status, 0, 1⟩] ∧
    (job_send_status jp jobid status).statusqueue.closed = 0 ∧
    (job_send_status jp jobid status).statusqueue.maxsize = 0 ∧
    (job_send_status jp jobid status).statusqueue.elements
      = (job_send_status jp jobid status).statusqueue.entries.length ∧
    wake_inv (job_send_status jp jobid status) := by
  have hput : queue_put jp.statusqueue jobid status 0 1
      = (queue_link jp.statusqueue ⟨jobid, status, 0, 1⟩, Outcome.ok) := by
    simp [queue_put, hunb]
  refine ⟨by simp [job_send_status, hput, queue_link],
    by simp [job_send_status, hput, queue_link, hcl],
    by simp [job_send_status, hput, queue_link, hunb], ?_, ?_⟩
  · simp only [job_send_status, hput, queue_link, hcount, List.length_append,
      List.length_singleton]
    exact Nat.mod_eq_of_lt hroom
  · unfold wake_inv at hw ⊢
    simp only [job_send_status, hput, queue_link, queue_isempty]
    by_cases h0 : jp.statusqueue.entries = []
    · have hz : jp.statusqueue.elements = 0 := by simp [hcount, h0]
      have hp : jp.pipe = [] := by
        rw [if_pos h0] at hw
        exact List.length_eq_zero.mp hw
      simp [h0, hz, hp]
    · have hz : jp.statusqueue.elements ≠ 0 := by
        rw [hcount]
        exact fun h => h0 (List.length_eq_zero.mp h)
      rw [if_neg h0] at hw
      simp [hz, hw]

theorem status_receive_step (jp : jobpool) (e : qentry) (es : List qentry)
    (hent : jp.statusqueue.entries = e :: es) (hcl : jp.statusqueue.closed = 0)
    (hcount : jp.statusqueue.elements = (e :: es).length) (hlen : (e :: es).length < U32)
    (hpipe : jp.pipe.length = 1) :
    ∃ m, job_receive_status jp = some m ∧ m.jp.statusqueue.entries = es ∧
      m.jp.statusqueue.closed = 0 ∧ m.jp.statusqueue.maxsize = jp.statusqueue.maxsize ∧
      m.jp.statusqueue.elements = es.length ∧ (m.notlast = 0 ↔ es = []) ∧
      m.jp.pipe.length = (if es = [] then 0 else 1) ∧ m.jobid = e.id := by
  have hel : jp.statusqueue.elements ≠ 0 := by simp [hcount]
  have hget : queue_get jp.statusqueue
      = ((queue_unlink jp.statusqueue).1, Outcome.ok, e) := by
    simp [queue_get, hel, hcl, queue_unlink, hent]
  have hsqe : (queue_unlink jp.statusqueue).1.elements = es.length := by
    simp only [queue_unlink, hent, hcount, List.length_cons, U32] at *
    omega
  have hse : (queue_unlink jp.statusqueue).1.entries = es := by simp [queue_unlink, hent]
  have hsc : (queue_unlink jp.statusqueue).1.closed = 0 := by simp [queue_unlink, hent, hcl]
  have hsm : (queue_unlink jp.statusqueue).1.maxsize = jp.statusqueue.maxsize := by
    simp [queue_unlink, hent]
  obtain ⟨b, hb⟩ : ∃ b, jp.pipe = [b] := List.length_eq_one.mp hpipe
  by_cases h0 : es = []
  · have hz : (queue_unlink jp.statusqueue).1.elements = 0 := by simp [hsqe, h0]
    refine ⟨⟨{ jp with statusqueue := (queue_unlink jp.statusqueue).1, pipe := [] }, 0, e.id,
      e.op % 256⟩, ?_, hse, hsc, hsm, hsqe, ?_, ?_, rfl⟩
    · simp [job_receive_status, hget, queue_isempty, hz, hb]
    · simp [h0]
    · simp [h0]
  · have hz : (queue_unlink jp.statusqueue).1.elements ≠ 0 := by
      rw [hsqe]
      exact fun h => h0 (List.length_eq_zero.mp h)
    refine ⟨⟨{ jp with statusqueue := (queue_unlink jp.statusqueue).1 }, 1, e.id,
      e.op % 256⟩, ?_, hse, hsc, hsm, hsqe, ?_, ?_, rfl⟩
    · simp [job_receive_status, hget, queue_isempty, hz]
    · simp [h0]
    · simp [h0, hpipe]

theorem status_run_inv :
    ∀ (acts : List StatusAct) (jp0 jp : jobpool),
      jp0.statusqueue.closed = 0 → jp0.statusqueue.maxsize = 0 →
      jp0.statusqueue.elements = jp0.statusqueue.entries.length → wake_inv jp0 →
      jp0.statusqueue.entries.length < U32 →
      status_run_small jp0 acts = true → status_run jp0 acts = some jp →
      jp.statusqueue.closed = 0 ∧ jp.statusqueue.maxsize = 0 ∧
      jp.statusqueue.elements = jp.statusqueue.entries.length ∧ wake_inv jp ∧
      jp.statusqueue.entries.length < U32 := by
  intro acts
  induction acts with
  | nil =>
    intro jp0 jp h1 h2 h3 h4 h5 _ hr
    unfold status_run at hr
    injection hr with hr
    subst hr
    exact ⟨h1, h2, h3, h4, h5⟩
  | cons a rest ih =>
    intro jp0 jp h1 h2 h3 h4 h5 hsm hr
    unfold status_run at hr
    unfold status_run_small at hsm
    rw [Bool.and_eq_true, decide_eq_true_eq] at hsm
    obtain ⟨hroom, hsm⟩ := hsm
    cases a with
    | send jobid status =>
      simp only [status_step] at hr hsm
      obtain ⟨s1, s2, s3, s4, s5⟩ := status_send_step jp0 jobid status h1 h2 h3 hroom h4
      exact ih _ jp s2 s3 s4 s5
        (by rw [s1, List.length_append, List.length_singleton]; exact hroom) hsm hr
    | receive =>
      simp only [status_step] at hr hsm
      cases hent : jp0.statusqueue.entries with
      | nil =>
        rw [if_pos hent] at hr
        exact absurd hr (by simp)
      | cons e es =>
        have hne : ¬ jp0.statusqueue.entries = [] := by simp [hent]
        rw [if_neg hne] at hr hsm
        have hpipe : jp0.pipe.length = 1 := by
          unfold wake_inv at h4
          rw [if_neg hne] at h4
          exact h4
        obtain ⟨m, m1, m2, m3, m4, m5, _, m7, _⟩ := status_receive_step jp0 e es hent h1
          (by rw [← hent]; exact h3) (by rw [← hent]; omega) hpipe
        rw [m1] at hr hsm
        dsimp only at hr hsm
        exact ih m.jp jp m3 (by rw [m4]; exact h2) (by rw [m5, m2])
          (by unfold wake_inv; rw [m7, m2])
          (by rw [m2]; rw [hent, List.length_cons] at h5; omega) hsm hr

/-- C28, amended: the wake-pipe protocol. In every state reached from an empty
status queue and an empty wake-pipe through `job_send_status` steps and
`job_receive_status` steps (the latter taken only when the status queue holds
an entry), as long as the status queue holds fewer than `2^32 - 1` entries
when a step is taken: the wake-pipe holds one unread byte if the status queue
holds an entry and none if it is empty, and when it holds an entry
`job_receive_status` returns, takes the first entry off, and returns 0 exactly
when the queue is empty afterwards. -/
theorem status_wake_protocol (jp0 : jobpool) (acts : List StatusAct) (jp : jobpool)
    (hq : jp0.statusqueue = queue_new 0) (hp : jp0.pipe = [])
    (hsmall : status_run_small jp0 acts = true) (hrun : status_run jp0 acts = some jp) :
    (jp.pipe.length = if jp.statusqueue.entries = [] then 0 else 1) ∧
    (jp.statusqueue.entries ≠ [] →
      ∃ m, job_receive_status jp = some m ∧
        m.jp.statusqueue.entries = jp.statusqueue.entries.tail ∧
        (m.notlast = 0 ↔ m.jp.statusqueue.entries = []) ∧
        (m.jp.pipe.length = if m.jp.statusqueue.entries = [] then 0 else 1)) := by
  have hw0 : wake_inv jp0 := by
    unfold wake_inv
    rw [hq, hp]
    rfl
  obtain ⟨r1, r2, r3, r4, hlen⟩ := status_run_inv acts jp0 jp (by rw [hq]; rfl)
    (by rw [hq]; rfl) (by rw [hq]; rfl) hw0 (by rw [hq]; decide) hsmall hrun
  refine ⟨r4, ?_⟩
  intro hne
  cases hent : jp.statusqueue.entries with
  | nil => exact absurd hent hne
  | cons e es =>
    have hpipe : jp.pipe.length = 1 := by
      unfold wake_inv at r4
      rw [if_neg hne] at r4
      exact r4
    obtain ⟨m, m1, m2, _, _, _, m6, m7, _⟩ := status_receive_step jp e es hent r1
      (by rw [← hent]; exact r3) (by rw [← hent]; exact hlen) hpipe
    exact ⟨m, m1, by rw [m2]; rfl, by rw [m2]; exact m6, by rw [m2]; exact m7⟩

/-- C28, witness: two statuses sent, one received: one entry and one wake
byte are left. -/
theorem status_wake_protocol_witness :
    ∃ jp, status_run jobpool_empty
        [StatusAct.send 1 0, StatusAct.send 2 0, StatusAct.receive] = some jp ∧
      (jp.pipe.length = if jp.statusqueue.entries = [] then 0 else 1) ∧
      (jp.statusqueue.entries ≠ [] →
        ∃ m, job_receive_status jp = some m ∧
          m.jp.statusqueue.entries = jp.statusqueue.entries.tail ∧
          (m.notlast = 0 ↔ m.jp.statusqueue.entries = []) ∧
          (m.jp.pipe.length = if m.jp.statusqueue.entries = [] then 0 else 1)) :=
  ⟨_, rfl, status_wake_protocol jobpool_empty
    [StatusAct.send 1 0, StatusAct.send 2 0, StatusAct.receive] _ rfl rfl (by decide) rfl⟩

/-- The run of the witness: the second status is left, with the one wake byte
written by the first send. -/
theorem status_wake_run :
    (status_run jobpool_empty
        [StatusAct.send 1 0, StatusAct.send 2 0, StatusAct.receive]).map
      (fun jp => (jp.pipe, jp.statusqueue.entries)) = some ([0], [⟨2, 0, 0, 1⟩]) := by
  decide

theorem status_run_append (a : StatusAct) :
    ∀ (l : List StatusAct) (jp : jobpool),
      status_run jp (l ++ [a]) = (status_run jp l).bind (fun x => status_step x a) := by
  intro l
  induction l with
  | nil =>
    intro jp
    show status_run jp [a] = status_step jp a
    unfold status_run
    cases status_step jp a <;> rfl
  | cons b rest ih =>
    intro jp
    show status_run jp (b :: (rest ++ [a])) = (status_run jp (b :: rest)).bind _
    unfold status_run
    cases status_step jp b with
    | none => rfl
    | some jp1 => exact ih jp1

/-- The states reached by sends alone: the 32-bit field `elements` counts the
entries modulo `2^32`, and up to `2^32` entries there is one wake byte. -/
theorem status_sends (jobid status : Nat) :
    ∀ n, n ≤ U32 → ∃ jp, status_run jobpool_empty
        (List.replicate n (StatusAct.send jobid status)) = some jp ∧
      jp.statusqueue.closed = 0 ∧ jp.statusqueue.maxsize = 0 ∧
      jp.statusqueue.elements = n % U32 ∧ jp.statusqueue.entries.length = n ∧
      jp.pipe.length = (if n = 0 then 0 else 1) := by
  intro n
  induction n with
  | zero =>
    intro _
    exact ⟨jobpool_empty, rfl, rfl, rfl, rfl, rfl, rfl⟩
  | succ k ih =>
    intro hk
    obtain ⟨jp, h1, h2, h3, h4, h5, h6⟩ := ih (by omega)
    have hput : queue_put jp.statusqueue jobid status 0 1
        = (queue_link jp.statusqueue ⟨jobid, status, 0, 1⟩, Outcome.ok) := by
      simp [queue_put, h3]
    have hkm : k % U32 = k := Nat.mod_eq_of_lt (by omega)
    refine ⟨job_send_status jp jobid status, ?_, ?_, ?_, ?_, ?_, ?_⟩
    · rw [List.replicate_succ', status_run_append, h1]
      rfl
    · simp [job_send_status, hput, queue_link, h2]
    · simp [job_send_status, hput, queue_link, h3]
    · simp only [job_send_status, hput, queue_link, h4, hkm]
    · simp [job_send_status, hput, queue_link, h5]
    · simp only [job_send_status, queue_isempty, h4, hkm]
      by_cases hz : k = 0
      · simp [hz, h6]
      · simp [hz, h6]

/-- C28 as the code has it: `queue_isempty` looks at the 32-bit field
`elements`, which reads 0 again once `2^32` statuses are queued: the next
`job_send_status` writes a second wake byte. -/
theorem status_wake_second_byte :
    (status_run jobpool_empty (List.replicate (U32 + 1) (StatusAct.send 1 0))).map
      (fun jp => (jp.pipe.length, jp.statusqueue.entries.length)) = some (2, U32 + 1) := by
  obtain ⟨jp, h1, h2, h3, h4, h5, h6⟩ := status_sends 1 0 U32 (Nat.le_refl _)
  have hput : queue_put jp.statusqueue 1 0 0 1
      = (queue_link jp.statusqueue ⟨1, 0, 0, 1⟩, Outcome.ok) := by
    simp [queue_put, h3]
  have hz : jp.statusqueue.elements = 0 := by
    rw [h4]
    exact Nat.mod_self _
  have hne : ¬ U32 = 0 := by decide
  rw [if_neg hne] at h6
  have hp : (job_send_status jp 1 0).pipe.length = 2 := by
    simp [job_send_status, queue_isempty, hz, h6]
  have he : (job_send_status jp 1 0).statusqueue.entries.length = U32 + 1 := by
    simp [job_send_status, hput, queue_link, h5]
  rw [List.replicate_succ', status_run_append, h1]
  show some ((job_send_status jp 1 0).pipe.length,
    (job_send_status jp 1 0).statusqueue.entries.length) = some (2, U32 + 1)
  rw [hp, he]

/-! ## Main loop: the rebase after a backward clock jump -/

/-- C29: the rebase after a backward clock jump. When `usecnow < prevtime`,
for a timer with period `p`, offset `o` (as `main_msectime_register` makes
it) and old next-fire time `e ≥ prevtime`: if `v` is the smallest value
congruent to `o` modulo `p` that is strictly greater than
`usecnow + min(e - prevtime, p)`, and `v` is a `uint64_t` value, then the
rebase ends and sets `nextevent = v`; the timer does not fire in that turn, and
`v - usecnow` is more than `min(e - prevtime, p)`. -/
theorem timer_rebase_back_smallest (fuel prevtime usecnow : Nat) (te : timeentry) (v : Nat)
    (hok : timer_ok te) (hback : usecnow < prevtime) (hdue : prevtime ≤ te.nextevent)
    (he : te.nextevent < U64)
    (hv1 : v % te.useconds = te.usecoffset)
    (hv2 : usecnow + min (te.nextevent - prevtime) te.useconds < v)
    (hv3 : ∀ m, m % te.useconds = te.usecoffset →
      usecnow + min (te.nextevent - prevtime) te.useconds < m → v ≤ m)
    (hrep : v < U64) (hf : 2 ≤ fuel) :
    timer_rebase fuel prevtime usecnow te = some { te with nextevent := v } ∧
    timer_turn fuel prevtime usecnow te = some ({ te with nextevent := v }, 0) ∧
    min (te.nextevent - prevtime) te.useconds < v - usecnow := by
  obtain ⟨hp, ho⟩ := hok
  generalize hptr : min (te.nextevent - prevtime) te.useconds = ptr at hv2 hv3
  have hptrp : ptr ≤ te.useconds := by
    rw [← hptr]
    exact Nat.min_le_right _ _
  -- the grid point
  have hX1 : usecnow / te.useconds * te.useconds ≤ usecnow := Nat.div_mul_le_self _ _
  have hX2 : usecnow < usecnow / te.useconds * te.useconds + te.useconds :=
    Nat.lt_div_mul_add hp
  have hV : v / te.useconds * te.useconds + te.usecoffset = v := by
    rw [← hv1, Nat.mul_comm]
    exact Nat.div_add_mod v te.useconds
  have hq : usecnow / te.useconds ≤ v / te.useconds := by
    apply Nat.le_of_lt_succ
    apply Nat.lt_of_mul_lt_mul_right (a := te.useconds)
    rw [Nat.succ_mul]
    omega
  have hXY : usecnow / te.useconds * te.useconds ≤ v / te.useconds * te.useconds :=
    Nat.mul_le_mul_right _ hq
  have hgrid : timer_grid usecnow te = usecnow / te.useconds * te.useconds + te.usecoffset := by
    unfold timer_grid
    rw [Nat.mod_eq_of_lt (a := usecnow / te.useconds * te.useconds) (by omega),
      Nat.mod_eq_of_lt (by omega)]
  -- the value claimed is at most one period above the bound
  have hvb : v ≤ usecnow + ptr + te.useconds := by
    by_contra hc
    have hge : te.useconds ≤ v := by omega
    have hm : (v - te.useconds) % te.useconds = te.usecoffset := by
      have h := Nat.add_mod_right (v - te.useconds) te.useconds
      rw [Nat.sub_add_cancel hge] at h
      rw [← h]
      exact hv1
    have := hv3 (v - te.useconds) hm (by omega)
    omega
  -- the number of additions
  have hk : (v / te.useconds - usecnow / te.useconds) * te.useconds
      = v / te.useconds * te.useconds - usecnow / te.useconds * te.useconds :=
    Nat.sub_mul _ _ _
  have hk2 : v / te.useconds - usecnow / te.useconds ≤ 2 := by
    apply Nat.le_of_lt_succ
    apply Nat.lt_of_mul_lt_mul_right (a := te.useconds)
    rw [hk]
    omega
  have hbm : (usecnow + ptr) % U64 = usecnow + ptr := Nat.mod_eq_of_lt (by omega)
  obtain ⟨r, r1, r2, r3, _, j, r5⟩ := timer_skip_reaches (usecnow + ptr) te.useconds
    (v / te.useconds - usecnow / te.useconds) fuel (timer_grid usecnow te) (by omega)
    (by rw [hgrid, hk]; omega) (by rw [hgrid, hk]; omega)
  have hrv : r = v := by
    have hrm : r % te.useconds = te.usecoffset := by
      rw [r5, hgrid, Nat.add_right_comm, ← Nat.add_mul, Nat.add_comm, Nat.add_mul_mod_self_right]
      exact Nat.mod_eq_of_lt ho
    have h1 := hv3 r hrm r2
    rw [hgrid, hk] at r3
    omega
  rw [hrv] at r1
  have hptr0 : (te.nextevent + U64 - prevtime) % U64 = te.nextevent - prevtime := by
    have : te.nextevent + U64 - prevtime = te.nextevent - prevtime + U64 := by omega
    rw [this, Nat.add_mod_right]
    exact Nat.mod_eq_of_lt (by omega)
  have hreb : timer_rebase fuel prevtime usecnow te = some { te with nextevent := v } := by
    unfold timer_rebase
    rw [if_pos hback]
    unfold timer_rebase_back
    dsimp only
    rw [hptr0]
    have hmin : (if te.nextevent - prevtime > te.useconds then te.useconds
        else te.nextevent - prevtime) = ptr := by
      rw [← hptr]
      split_ifs with hc
      · exact (Nat.min_eq_right (Nat.le_of_lt hc)).symm
      · exact (Nat.min_eq_left (Nat.le_of_not_lt hc)).symm
    rw [hmin, hbm, r1]
  refine ⟨hreb, ?_, by omega⟩
  unfold timer_turn
  rw [hreb]
  dsimp only
  unfold timer_pass
  dsimp only
  rw [if_neg (by omega)]

/-- C29, witness: period 1000, offset 0, due at 10000 when the clock stood at
9500; the clock now reads 5000, so the timer was due in 500: its next fire
time becomes 6000. -/
theorem timer_rebase_back_smallest_witness :
    timer_rebase 2 9500 5000 ⟨10000, 1000, 0, 7⟩ = some ⟨6000, 1000, 0, 7⟩ ∧
    timer_turn 2 9500 5000 ⟨10000, 1000, 0, 7⟩ = some (⟨6000, 1000, 0, 7⟩, 0) ∧
    min (10000 - 9500) 1000 < 6000 - 5000 :=
  timer_rebase_back_smallest 2 9500 5000 ⟨10000, 1000, 0, 7⟩ 6000 (by decide) (by decide)
    (by decide) (by decide) (by decide) (by decide)
    (by
      intro m h1 h2
      have h3 : (10000 : Nat) - 9500 = 500 := by decide
      have h4 : min 500 1000 = 500 := by decide
      simp only [h3, h4] at h2
      show 6000 ≤ m
      have h5 : m % 1000 = 0 := h1
      omega)
    (by decide) (by decide)

/-! ## Metadata image: the emergency saves -/

theorem meta_emergency_walk_spec (store : List Nat → Int) :
    ∀ (table : List (List Nat)),
      (meta_emergency_walk store table).2 <+: table ∧
      ((meta_emergency_walk store table).1 = 0 ∨ (meta_emergency_walk store table).1 = -1) ∧
      ((meta_emergency_walk store table).1 = 0 →
        ∃ last, (meta_emergency_walk store table).2.getLast? = some last ∧ store last = 0) ∧
      (∀ p ∈ (meta_emergency_walk store table).2.dropLast, store p ≠ 0) ∧
      ((meta_emergency_walk store table).1 = -1 →
        (meta_emergency_walk store table).2 = table ∧ ∀ p ∈ table, store p ≠ 0) := by
  intro table
  induction table with
  | nil =>
    refine ⟨List.prefix_refl _, Or.inr rfl, ?_, ?_, ?_⟩
    · intro h
      simp [meta_emergency_walk] at h
    · intro p hp
      simp [meta_emergency_walk] at hp
    · intro _
      exact ⟨rfl, by simp⟩
  | cons f rest ih =>
    obtain ⟨i1, i2, i3, i4, i5⟩ := ih
    unfold meta_emergency_walk
    by_cases hs : store f = 0
    · rw [if_pos hs]
      refine ⟨by simp, Or.inl rfl, fun _ => ⟨f, rfl, hs⟩, by simp, ?_⟩
      intro h
      simp at h
    · rw [if_neg hs]
      dsimp only
      refine ⟨(List.prefix_cons_inj f).2 i1, i2, ?_, ?_, ?_⟩
      · intro h
        obtain ⟨last, l1, l2⟩ := i3 h
        refine ⟨last, ?_, l2⟩
        rw [List.getLast?_cons, l1]
        rfl
      · intro p hp
        cases hw : (meta_emergency_walk store rest).2 with
        | nil =>
          rw [hw] at hp
          simp at hp
        | cons x xs =>
          rw [hw, List.dropLast_cons₂] at hp
          rcases List.mem_cons.1 hp with h | h
          · rw [h]
            exact hs
          · exact i4 p (by rw [hw]; exact h)
      · intro h
        obtain ⟨j1, j2⟩ := i5 h
        refine ⟨by rw [j1], ?_⟩
        intro p hp
        rcases List.mem_cons.1 hp with h | h
        · rw [h]
          exact hs
        · exact j2 p h

/-- The function `meta_emergency_saves` is the walk over its paths. -/
theorem meta_emergency_saves_walk (c : MetaCollab) (metaversion metaid : Nat)
    (open_w : List Nat → Option bio) (pw_dir : Option (List Nat)) :
    meta_emergency_saves c metaversion metaid open_w pw_dir
      = meta_emergency_walk
          (fun fname => (meta_file_storeall c metaversion metaid (open_w fname)).1)
          (meta_emergency_paths pw_dir) := by
  unfold meta_emergency_saves meta_emergency_paths
  dsimp only
  cases pw_dir with
  | none =>
    simp only [meta_create_homedir_emergency_filename, Option.toList, List.nil_append]
    rw [meta_emergency_walk]
  | some d =>
    simp only [meta_create_homedir_emergency_filename, Option.toList, List.singleton_append]
    rw [meta_emergency_walk, meta_emergency_walk]
    try (split <;> first | rfl | (split <;> rfl))

set_option maxRecDepth 20000 in
/-- C21 as the code has it: the table `meta_emergency_locations` begins with
`/metadata.mfs.emergency`, in the root directory. On a device where only that
file can be written, `meta_emergency_saves` returns 0 after its third attempt,
made at a path that is none of the paths of the specification. -/
theorem meta_emergency_saves_root :
    meta_emergency_saves metacollab_sample 5 7 open_w_root_only (some (ascii "/root"))
      = (0, [ascii "metadata.mfs.emergency", ascii "/root/metadata.mfs.emergency",
             ascii "/metadata.mfs.emergency"]) ∧
    ascii "/metadata.mfs.emergency" ∉ meta_emergency_spec_paths (ascii "/root") := by
  constructor <;> decide

/-- C21, amended: `meta_emergency_saves` passes to `meta_file_storeall`, in
this order, `metadata.mfs.emergency` in the working directory, the one in the
home directory (when the password entry gives one), then
`/metadata.mfs.emergency` and `metadata.mfs.emergency` under `/tmp`, `/var`,
`/usr`, `/usr/share`, `/usr/local`, `/usr/local/var`, `/usr/local/share`; it
stops and returns 0 at the first store that succeeds, returns -1 only if all
fail, and attempts no other path. -/
theorem meta_emergency_saves_order (c : MetaCollab) (metaversion metaid : Nat)
    (open_w : List Nat → Option bio) (pw_dir : Option (List Nat)) :
    (meta_emergency_saves c metaversion metaid open_w pw_dir).2
      <+: meta_emergency_paths pw_dir ∧
    ((meta_emergency_saves c metaversion metaid open_w pw_dir).1 = 0 ∨
      (meta_emergency_saves c metaversion metaid open_w pw_dir).1 = -1) ∧
    ((meta_emergency_saves c metaversion metaid open_w pw_dir).1 = 0 →
      ∃ last, (meta_emergency_saves c metaversion metaid open_w pw_dir).2.getLast? = some last ∧
        (meta_file_storeall c metaversion metaid (open_w last)).1 = 0) ∧
    (∀ p ∈ (meta_emergency_saves c metaversion metaid open_w pw_dir).2.dropLast,
      (meta_file_storeall c metaversion metaid (open_w p)).1 ≠ 0) ∧
    ((meta_emergency_saves c metaversion metaid open_w pw_dir).1 = -1 →
      (meta_emergency_saves c metaversion metaid open_w pw_dir).2 = meta_emergency_paths pw_dir ∧
      ∀ p ∈ meta_emergency_paths pw_dir,
        (meta_file_storeall c metaversion metaid (open_w p)).1 ≠ 0) ∧
    (∀ home, meta_emergency_paths (some home)
      = [ascii "metadata.mfs.emergency",
         home ++ ascii "/metadata.mfs.emergency",
         ascii "/metadata.mfs.emergency",
         ascii "/tmp/metadata.mfs.emergency",
         ascii "/var/metadata.mfs.emergency",
         ascii "/usr/metadata.mfs.emergency",
         ascii "/usr/share/metadata.mfs.emergency",
         ascii "/usr/local/metadata.mfs.emergency",
         ascii "/usr/local/var/metadata.mfs.emergency",
         ascii "/usr/local/share/metadata.mfs.emergency"]) ∧
    meta_emergency_paths none
      = [ascii "metadata.mfs.emergency",
         ascii "/metadata.mfs.emergency",
         ascii "/tmp/metadata.mfs.emergency",
         ascii "/var/metadata.mfs.emergency",
         ascii "/usr/metadata.mfs.emergency",
         ascii "/usr/share/metadata.mfs.emergency",
         ascii "/usr/local/metadata.mfs.emergency",
         ascii "/usr/local/var/metadata.mfs.emergency",
         ascii "/usr/local/share/metadata.mfs.emergency"] := by
  rw [meta_emergency_saves_walk]
  obtain ⟨w1, w2, w3, w4, w5⟩ := meta_emergency_walk_spec
    (fun fname => (meta_file_storeall c metaversion metaid (open_w fname)).1)
    (meta_emergency_paths pw_dir)
  exact ⟨w1, w2, w3, w4, w5, fun _ => rfl, rfl⟩

/-! ## Metadata image: the rotation of the copies -/

theorem dir_rename_other (d : Dir) (old new f : FName) (h1 : f ≠ old) (h2 : f ≠ new) :
    dir_rename d old new f = d f := by
  unfold dir_rename
  cases d old with
  | none => rfl
  | some x =>
    show Function.update (Function.update d old none) new (some x) f = d f
    rw [Function.update_noteq h2, Function.update_noteq h1]

theorem dir_rename_moved (d : Dir) (old new : FName) (x : List Nat) (h : d old = some x) :
    dir_rename d old new new = some x := by
  unfold dir_rename
  rw [h]
  exact Function.update_same _ _ _

theorem dir_rename_gone (d : Dir) (old new : FName) (hne : old ≠ new) :
    dir_rename d old new old = none := by
  unfold dir_rename
  cases h : d old with
  | none => exact h
  | some x =>
    show Function.update (Function.update d old none) new (some x) old = none
    rw [Function.update_noteq hne, Function.update_same]

/-- The rotation loop: each copy `1..k` that is there moves up by one, the
copies above `k+1` and the other names are left alone. -/
theorem meta_rotate_spec :
    ∀ (k : Nat) (d : Dir),
      (∀ j x, 1 ≤ j → j ≤ k → d (FName.back_n j) = some x →
        meta_rotate k d (FName.back_n (j + 1)) = some x) ∧
      (∀ N, k + 1 < N → meta_rotate k d (FName.back_n N) = d (FName.back_n N)) ∧
      (∀ f, (∀ N, f ≠ FName.back_n N) → meta_rotate k d f = d f) := by
  intro k
  induction k with
  | zero =>
    intro d
    refine ⟨?_, fun _ _ => rfl, fun _ _ => rfl⟩
    intro j x h1 h2
    omega
  | succ k ih =>
    intro d
    obtain ⟨i1, i2, i3⟩ := ih (dir_rename d (FName.back_n (k + 1)) (FName.back_n (k + 2)))
    refine ⟨?_, ?_, ?_⟩
    · intro j x h1 h2 hx
      show meta_rotate k (dir_rename d (FName.back_n (k + 1)) (FName.back_n (k + 2)))
        (FName.back_n (j + 1)) = some x
      by_cases hj : j = k + 1
      · subst hj
        rw [i2 (k + 1 + 1) (by omega)]
        exact dir_rename_moved d _ _ x hx
      · apply i1 j x h1 (by omega)
        rw [dir_rename_other d _ _ _ (by simp; omega) (by simp; omega)]
        exact hx
    · intro N hN
      show meta_rotate k (dir_rename d (FName.back_n (k + 1)) (FName.back_n (k + 2)))
        (FName.back_n N) = d (FName.back_n N)
      rw [i2 N (by omega)]
      exact dir_rename_other d _ _ _ (by simp; omega) (by simp; omega)
    · intro f hf
      show meta_rotate k (dir_rename d (FName.back_n (k + 1)) (FName.back_n (k + 2))) f = d f
      rw [i3 f hf]
      exact dir_rename_other d _ _ _ (hf _) (hf _)

/-- The renames at the end of a store, on a directory that holds the new image
as `metadata.mfs.back.tmp`. -/
theorem meta_storeall_rename_spec (n : Nat) (d : Dir) (img : List Nat)
    (htmp : d FName.back_tmp = some img) :
    meta_storeall_rename n d FName.back = some img ∧
    meta_storeall_rename n d FName.back_tmp = none ∧
    meta_storeall_rename n d FName.mfs = none ∧
    (1 ≤ n → ∀ x, d FName.back = some x → meta_storeall_rename n d (FName.back_n 1) = some x) ∧
    (∀ k x, 1 ≤ k → k < n → d (FName.back_n k) = some x →
      meta_storeall_rename n d (FName.back_n (k + 1)) = some x) ∧
    (∀ N, n < N → meta_storeall_rename n d (FName.back_n N) = d (FName.back_n N)) := by
  obtain ⟨r1, r2, r3⟩ := meta_rotate_spec (n - 1) d
  have hfin : ∀ (da : Dir) (f : FName), f ≠ FName.back_tmp → f ≠ FName.back → f ≠ FName.mfs →
      dir_unlink (dir_rename da FName.back_tmp FName.back) FName.mfs f = da f := by
    intro da f h1 h2 h3
    unfold dir_unlink
    rw [Function.update_noteq h3]
    exact dir_rename_other da _ _ _ h1 h2
  have hda : (if n > 0 then dir_rename (meta_rotate (n - 1) d) FName.back (FName.back_n 1)
      else d) FName.back_tmp = some img := by
    split
    · rw [dir_rename_other _ _ _ _ (by simp) (by simp), r3 _ (by simp)]
      exact htmp
    · exact htmp
  unfold meta_storeall_rename
  refine ⟨?_, ?_, ?_, ?_, ?_, ?_⟩
  · unfold dir_unlink
    rw [Function.update_noteq (by simp)]
    exact dir_rename_moved _ _ _ img hda
  · unfold dir_unlink
    rw [Function.update_noteq (by simp)]
    exact dir_rename_gone _ _ _ (by simp)
  · unfold dir_unlink
    exact Function.update_same _ _ _
  · intro hn x hx
    rw [hfin _ _ (by simp) (by simp) (by simp), if_pos (by omega)]
    apply dir_rename_moved
    rw [r3 _ (by simp)]
    exact hx
  · intro k x hk1 hk2 hx
    rw [hfin _ _ (by simp) (by simp) (by simp), if_pos (by omega),
      dir_rename_other _ _ _ _ (by simp) (by simp; omega)]
    exact r1 k x hk1 (by omega) hx
  · intro N hN
    rw [hfin _ _ (by simp) (by simp) (by simp)]
    split
    · rw [dir_rename_other _ _ _ _ (by simp) (by simp; omega)]
      exact r2 N (by omega)
    · rfl

/-- A save that has stored the image has written it, without error, to
`metadata.mfs.back.tmp` and has made the renames. -/
theorem meta_storeall_stored_dir (c : MetaCollab) (metaversion metaid n : Nat) (env : StoreEnv)
    (bg : Nat) (d : Dir) (h : meta_storeall_stored c metaversion metaid n env bg d) :
    ∃ room d1, env.tmp_room = some room ∧
      bio_error (meta_image_store c metaversion metaid (bio_file_new room)
        (env.crc_room.map bio_file_new)).1 = 0 ∧
      (∀ N, d1 (FName.back_n N) = d (FName.back_n N)) ∧ d1 FName.back = d FName.back ∧
      (meta_storeall c metaversion metaid n env bg d).dir
        = meta_storeall_rename n (Function.update d1 FName.back_tmp
            (some (meta_image_store c metaversion metaid (bio_file_new room)
              (env.crc_room.map bio_file_new)).1.data)) := by
  obtain ⟨hrun, hok⟩ := h
  unfold meta_storeall at hok ⊢
  have hfail : ∀ (child : Bool) (dd : Dir),
      ¬ ((meta_storeall_failed c metaversion metaid env child dd).outcome = StoreOutcome.exited 0 ∨
        (meta_storeall_failed c metaversion metaid env child dd).outcome
          = StoreOutcome.returned 1) := by
    intro child dd
    unfold meta_storeall_failed
    dsimp only
    cases child
    · simp
    · simp only [if_true]
      split <;> simp
  by_cases h0 : metaversion = 0
  · rw [if_pos h0] at hok
    simp at hok
  · rw [if_neg h0] at hok ⊢
    by_cases h1 : env.tmp_locked = true
    · rw [if_pos h1] at hok
      simp at hok
    · rw [if_neg h1, if_neg hrun] at hok ⊢
      dsimp only at hok ⊢
      cases hroom : env.tmp_room with
      | none =>
        rw [hroom] at hok
        exact absurd hok (hfail _ _)
      | some room =>
        rw [hroom] at hok
        dsimp only at hok ⊢
        by_cases h2 : decide (bg ≠ 0 ∧ env.fork = 0) = true ∧ env.tlock_fails = true
        · rw [if_pos h2] at hok
          exact absurd hok (hfail _ _)
        · rw [if_neg h2] at hok ⊢
          by_cases h4 : bio_error (meta_image_store c metaversion metaid (bio_file_new room)
              (env.crc_room.map bio_file_new)).1 ≠ 0
          · rw [if_pos h4] at hok
            exact absurd hok (hfail _ _)
          · rw [if_neg h4]
            have hm : ∀ (o : Option bio) (f : FName), f ≠ FName.crc →
                (if (bio_write (bio_file_new room) (ascii "MFSM 2.0")).2 ≠ 8 then d
                  else
                    match o with
                    | none => d
                    | some cf => Function.update d FName.crc (some cf.data)) f = d f := by
              intro o f hf
              split
              · rfl
              · cases o with
                | none => rfl
                | some cf => exact Function.update_noteq hf _ _
            exact ⟨room, _, rfl, not_not.1 h4, fun N => hm _ _ (by simp), hm _ _ (by simp), rfl⟩

/-- What one save that has stored the image leaves in the working directory. -/
theorem meta_storeall_stored_spec (c : MetaCollab) (metaversion metaid n : Nat) (env : StoreEnv)
    (bg : Nat) (d : Dir) (h : meta_storeall_stored c metaversion metaid n env bg d) :
    ∃ room, env.tmp_room = some room ∧
      bio_error (meta_image_store c metaversion metaid (bio_file_new room)
        (env.crc_room.map bio_file_new)).1 = 0 ∧
      (meta_storeall c metaversion metaid n env bg d).dir FName.back
        = some (meta_image_store c metaversion metaid (bio_file_new room)
            (env.crc_room.map bio_file_new)).1.data ∧
      (meta_storeall c metaversion metaid n env bg d).dir FName.back_tmp = none ∧
      (meta_storeall c metaversion metaid n env bg d).dir FName.mfs = none ∧
      (1 ≤ n → ∀ x, d FName.back = some x →
        (meta_storeall c metaversion metaid n env bg d).dir (FName.back_n 1) = some x) ∧
      (∀ k x, 1 ≤ k → k < n → d (FName.back_n k) = some x →
        (meta_storeall c metaversion metaid n env bg d).dir (FName.back_n (k + 1)) = some x) ∧
      (∀ N, n < N →
        (meta_storeall c metaversion metaid n env bg d).dir (FName.back_n N)
          = d (FName.back_n N)) := by
  obtain ⟨room, d1, hroom, herr, hn, hb, hdir⟩ :=
    meta_storeall_stored_dir c metaversion metaid n env bg d h
  obtain ⟨s1, s2, s3, s4, s5, s6⟩ := meta_storeall_rename_spec n
    (Function.update d1 FName.back_tmp
      (some (meta_image_store c metaversion metaid (bio_file_new room)
        (env.crc_room.map bio_file_new)).1.data)) _ (Function.update_same _ _ _)
  rw [hdir]
  refine ⟨room, hroom, herr, s1, s2, s3, ?_, ?_, ?_⟩
  · intro h1 x hx
    apply s4 h1
    rw [Function.update_noteq (by simp), hb]
    exact hx
  · intro k x hk1 hk2 hx
    apply s5 k x hk1 hk2
    rw [Function.update_noteq (by simp), hn]
    exact hx
  · intro N hN
    rw [s6 N hN, Function.update_noteq (by simp), hn]

/-- C22: one save that has stored the image leaves the fresh image as
`metadata.mfs.back`, no `metadata.mfs.back.tmp` and no `metadata.mfs`; when
`BackMetaCopies = n` is at least 1 the old `metadata.mfs.back` is then
`metadata.mfs.back.1` and every old `metadata.mfs.back.k` with `1 ≤ k < n` is
`metadata.mfs.back.(k+1)`; a name `metadata.mfs.back.N` with `N > n` is as it
was before, so none is created. With `n = 3` and `metadata.mfs.back` present,
three such saves leave `metadata.mfs.back`, `.back.1`, `.back.2` and `.back.3`
(the last one the file that was `metadata.mfs.back` at the start) and no
`metadata.mfs.back.tmp`. -/
theorem meta_storeall_rotation (c : MetaCollab) (metaversion metaid n : Nat) (env : StoreEnv)
    (bg : Nat) (d : Dir) (h : meta_storeall_stored c metaversion metaid n env bg d) :
    (∃ room, env.tmp_room = some room ∧
      bio_error (meta_image_store c metaversion metaid (bio_file_new room)
        (env.crc_room.map bio_file_new)).1 = 0 ∧
      (meta_storeall c metaversion metaid n env bg d).dir FName.back
        = some (meta_image_store c metaversion metaid (bio_file_new room)
            (env.crc_room.map bio_file_new)).1.data ∧
      (meta_storeall c metaversion metaid n env bg d).dir FName.back_tmp = none ∧
      (meta_storeall c metaversion metaid n env bg d).dir FName.mfs = none ∧
      (1 ≤ n → ∀ x, d FName.back = some x →
        (meta_storeall c metaversion metaid n env bg d).dir (FName.back_n 1) = some x) ∧
      (∀ k x, 1 ≤ k → k < n → d (FName.back_n k) = some x →
        (meta_storeall c metaversion metaid n env bg d).dir (FName.back_n (k + 1)) = some x) ∧
      (∀ N, n < N →
        (meta_storeall c metaversion metaid n env bg d).dir (FName.back_n N)
          = d (FName.back_n N))) ∧
    (∀ (v1 i1 v2 i2 v3 i3 : Nat) (e1 e2 e3 : StoreEnv) (b1 b2 b3 : Nat) (d0 : Dir) (x : List Nat),
      d0 FName.back = some x →
      meta_storeall_stored c v1 i1 3 e1 b1 d0 →
      meta_storeall_stored c v2 i2 3 e2 b2 (meta_storeall c v1 i1 3 e1 b1 d0).dir →
      meta_storeall_stored c v3 i3 3 e3 b3
        (meta_storeall c v2 i2 3 e2 b2 (meta_storeall c v1 i1 3 e1 b1 d0).dir).dir →
      ((meta_storeall c v3 i3 3 e3 b3
        (meta_storeall c v2 i2 3 e2 b2 (meta_storeall c v1 i1 3 e1 b1 d0).dir).dir).dir
          FName.back).isSome = true ∧
      ((meta_storeall c v3 i3 3 e3 b3
        (meta_storeall c v2 i2 3 e2 b2 (meta_storeall c v1 i1 3 e1 b1 d0).dir).dir).dir
          (FName.back_n 1)).isSome = true ∧
      ((meta_storeall c v3 i3 3 e3 b3
        (meta_storeall c v2 i2 3 e2 b2 (meta_storeall c v1 i1 3 e1 b1 d0).dir).dir).dir
          (FName.back_n 2)).isSome = true ∧
      (meta_storeall c v3 i3 3 e3 b3
        (meta_storeall c v2 i2 3 e2 b2 (meta_storeall c v1 i1 3 e1 b1 d0).dir).dir).dir
          (FName.back_n 3) = some x ∧
      (meta_storeall c v3 i3 3 e3 b3
        (meta_storeall c v2 i2 3 e2 b2 (meta_storeall c v1 i1 3 e1 b1 d0).dir).dir).dir
          FName.back_tmp = none) := by
  refine ⟨meta_storeall_stored_spec c metaversion metaid n env bg d h, ?_⟩
  intro v1 i1 v2 i2 v3 i3 e1 e2 e3 b1 b2 b3 d0 x hx h1 h2 h3
  obtain ⟨_, _, _, a1, _, _, a4, _, _⟩ := meta_storeall_stored_spec c v1 i1 3 e1 b1 d0 h1
  obtain ⟨_, _, _, b1, _, _, b4, b5, _⟩ := meta_storeall_stored_spec c v2 i2 3 e2 b2 _ h2
  obtain ⟨_, _, _, c1, c2, _, c4, c5, _⟩ := meta_storeall_stored_spec c v3 i3 3 e3 b3 _ h3
  have p1 := a4 (by decide) x hx
  have p2 := b5 1 x (by decide) (by decide) p1
  have p3 := c5 2 x (by decide) (by decide) p2
  have q1 := b4 (by decide) _ a1
  have q2 := c5 1 _ (by decide) (by decide) q1
  have q3 := c4 (by decide) _ b1
  refine ⟨?_, ?_, ?_, p3, c2⟩
  · rw [c1]; rfl
  · rw [q3]; rfl
  · rw [q2]; rfl

set_option maxRecDepth 20000 in
/-- The rotation on a sample: a background save with `BackMetaCopies = 3` in a
directory that holds `metadata.mfs` and `metadata.mfs.back`. -/
theorem meta_storeall_rotation_witness :
    meta_storeall_stored metacollab_sample 5 7 3 storeenv_sample 1 dir_sample ∧
    (meta_storeall metacollab_sample 5 7 3 storeenv_sample 1 dir_sample).dir (FName.back_n 1)
      = some [2] ∧
    (meta_storeall metacollab_sample 5 7 3 storeenv_sample 1 dir_sample).dir FName.back_tmp
      = none :=
  have h : meta_storeall_stored metacollab_sample 5 7 3 storeenv_sample 1 dir_sample := by
    decide
  ⟨h,
    (meta_storeall_rotation metacollab_sample 5 7 3 storeenv_sample 1 dir_sample h).1.elim
      (fun _ hr => hr.2.2.2.2.2.1 (by decide) [2] rfl),
    (meta_storeall_rotation metacollab_sample 5 7 3 storeenv_sample 1 dir_sample h).1.elim
      (fun _ hr => hr.2.2.2.1)⟩

/-- C26: with `METADATA_SAVE_FREQ = 0`, and with `BACK_LOGS = 1` whatever the
frequency, `meta_reload` leaves `MetaSaveFreq = 0` and the remainder in
`meta_dostoreall` is a division by zero; the value is the smaller of the two
numbers for every configuration. -/
theorem meta_reload_zero_divisor :
    (meta_reload 0 50 1).1 = 0 ∧ meta_dostoreall 7200 (meta_reload 0 50 1).1 = none ∧
    (meta_reload 1 1 1).1 = 0 ∧ meta_dostoreall 7200 (meta_reload 1 1 1).1 = none ∧
    (meta_reload 24 0 1).1 = 0 ∧ meta_dostoreall 7200 (meta_reload 24 0 1).1 = none := by
  decide

/-- The frequency part of the configuration: `MetaSaveFreq` is the smaller of
`METADATA_SAVE_FREQ` and half of `BACK_LOGS`; when the first is at least 1 and
the second at least 2 it is at least 1 and `meta_dostoreall` starts a save
exactly when the hour count is a multiple of it. -/
theorem meta_reload_min (freq back_logs keep main_time : Nat) :
    (meta_reload freq back_logs keep).1 = min freq (back_logs / 2) ∧
    (1 ≤ freq → 2 ≤ back_logs →
      1 ≤ (meta_reload freq back_logs keep).1 ∧
      meta_dostoreall main_time (meta_reload freq back_logs keep).1
        = some (decide ((main_time / 3600) % (meta_reload freq back_logs keep).1 = 0))) := by
  have hmin : (meta_reload freq back_logs keep).1 = min freq (back_logs / 2) := by
    unfold meta_reload
    dsimp only
    split <;> omega
  refine ⟨hmin, ?_⟩
  intro h1 h2
  have h3 : 1 ≤ (meta_reload freq back_logs keep).1 := by
    rw [hmin]
    omega
  refine ⟨h3, ?_⟩
  unfold meta_dostoreall
  rw [if_neg (by omega)]

/-! ## Loading at start: the choice of the file -/

/-- One turn of the scan keeps what the scan knows. -/
theorem meta_loadall_scan_entry_inv (file : List Nat → FileState) (ignoreflag : Nat)
    (seen : List (List Nat)) (b b1 : BestFile) (name : List Nat)
    (h : meta_loadall_scan_entry file ignoreflag b name = some b1)
    (hinv : meta_scan_inv file seen b) : meta_scan_inv file (seen ++ [name]) b1 := by
  obtain ⟨i1, i2, i3⟩ := hinv
  have keep : (meta_name_matches name →
      (meta_check_metadatafile (file name)).1 = META_CHECK_OK →
      (meta_check_metadatafile (file name)).2.1 ≤ b.bestver) →
      meta_scan_inv file (seen ++ [name]) b := by
    intro hle
    refine ⟨?_, ?_, ?_⟩
    · intro n hn hm hok
      rcases List.mem_append.1 hn with hs | hs
      · exact i1 n hs hm hok
      · rw [List.mem_singleton] at hs
        subst hs
        exact hle hm hok
    · rcases i2 with h0 | ⟨a1, a2, a3, a4⟩
      · exact Or.inl h0
      · exact Or.inr ⟨List.mem_append_left _ a1, a2, a3, a4⟩
    · intro hid
      obtain ⟨p, n, hn, q⟩ := i3 hid
      exact ⟨p, n, List.mem_append_left _ hn, q⟩
  unfold meta_loadall_scan_entry at h
  by_cases hm : meta_name_matches name
  · rw [if_pos hm] at h
    dsimp only at h
    by_cases hok : (meta_check_metadatafile (file name)).1 = META_CHECK_OK
    · rw [if_pos hok] at h
      split at h
      · exact absurd h (by simp)
      · by_cases hv : (meta_check_metadatafile (file name)).2.1 > b.bestver
        · rw [if_pos hv] at h
          have hb := Option.some.inj h
          subst hb
          refine ⟨?_, ?_, ?_⟩
          · intro n hn hmn hokn
            rcases List.mem_append.1 hn with hs | hs
            · exact Nat.le_trans (i1 n hs hmn hokn) (Nat.le_of_lt hv)
            · rw [List.mem_singleton] at hs
              subst hs
              exact Nat.le_refl _
          · exact Or.inr ⟨List.mem_append_right _ (List.mem_singleton.2 rfl), hm, hok, rfl⟩
          · intro hid
            refine ⟨Nat.lt_of_le_of_lt (Nat.zero_le _) hv, ?_⟩
            by_cases hz : (meta_check_metadatafile (file name)).2.2 ≠ 0
            · refine ⟨name, List.mem_append_right _ (List.mem_singleton.2 rfl), hm, hok, ?_⟩
              dsimp only
              rw [if_pos hz]
            · dsimp only at hid ⊢
              rw [if_neg hz] at hid ⊢
              obtain ⟨_, n, hn, q⟩ := i3 hid
              exact ⟨n, List.mem_append_left _ hn, q⟩
        · rw [if_neg hv] at h
          have hb := Option.some.inj h
          subst hb
          exact keep (fun _ _ => Nat.le_of_not_gt hv)
    · rw [if_neg hok] at h
      have hb := Option.some.inj h
      subst hb
      exact keep (fun _ h2 => absurd h2 hok)
  · rw [if_neg hm] at h
    have hb := Option.some.inj h
    subst hb
    exact keep (fun h1 _ => absurd h1 hm)

/-- The scan keeps what it knows, over all the names it is given. -/
theorem meta_loadall_scan_inv (file : List Nat → FileState) (ignoreflag : Nat)
    (l : List (List Nat)) : ∀ (seen : List (List Nat)) (b b1 : BestFile),
    meta_loadall_scan file ignoreflag b l = some b1 → meta_scan_inv file seen b →
    meta_scan_inv file (seen ++ l) b1 := by
  induction l with
  | nil =>
    intro seen b b1 h hinv
    simp only [meta_loadall_scan] at h
    have hb := Option.some.inj h
    subst hb
    rw [List.append_nil]
    exact hinv
  | cons name rest ih =>
    intro seen b b1 h hinv
    simp only [meta_loadall_scan] at h
    cases he : meta_loadall_scan_entry file ignoreflag b name with
    | none =>
      rw [he] at h
      exact absurd h (by simp)
    | some b2 =>
      rw [he] at h
      have := ih (seen ++ [name]) b2 b1 h
        (meta_loadall_scan_entry_inv file ignoreflag seen b b2 name he hinv)
      rw [List.append_assoc] at this
      exact this

/-- The home file and the emergency locations: the id found in the working
directory stays, the version does not go down, no file among them that
validates ok with that id has a version above the result, and the name is
the one the scan found or such a file with the version of the result. -/
theorem meta_loadall_extras_inv (file : List Nat → FileState) (l : List (List Nat)) :
    ∀ b : BestFile,
    (l.foldl (meta_loadall_extra file) b).bestid = b.bestid ∧
    b.bestver ≤ (l.foldl (meta_loadall_extra file) b).bestver ∧
    (∀ e, e ∈ l → (meta_check_metadatafile (file e)).1 = META_CHECK_OK →
      (meta_check_metadatafile (file e)).2.2 = b.bestid →
      (meta_check_metadatafile (file e)).2.1 ≤ (l.foldl (meta_loadall_extra file) b).bestver) ∧
    (((l.foldl (meta_loadall_extra file) b).bestfname = b.bestfname ∧
        (l.foldl (meta_loadall_extra file) b).bestver = b.bestver) ∨
      ((l.foldl (meta_loadall_extra file) b).bestfname ∈ l ∧
        (meta_check_metadatafile (file (l.foldl (meta_loadall_extra file) b).bestfname)).1
          = META_CHECK_OK ∧
        (meta_check_metadatafile (file (l.foldl (meta_loadall_extra file) b).bestfname)).2.2
          = b.bestid ∧
        (meta_check_metadatafile (file (l.foldl (meta_loadall_extra file) b).bestfname)).2.1
          = (l.foldl (meta_loadall_extra file) b).bestver)) := by
  induction l with
  | nil =>
    intro b
    exact ⟨rfl, Nat.le_refl _, fun e he => absurd he (List.not_mem_nil e), Or.inl ⟨rfl, rfl⟩⟩
  | cons x rest ih =>
    intro b
    rw [List.foldl_cons]
    obtain ⟨j1, j2, j3, j4⟩ := ih (meta_loadall_extra file b x)
    by_cases hc : (meta_check_metadatafile (file x)).1 = META_CHECK_OK ∧
        (meta_check_metadatafile (file x)).2.1 > b.bestver ∧
        (meta_check_metadatafile (file x)).2.2 = b.bestid
    · have hx : meta_loadall_extra file b x
          = { b with bestver := (meta_check_metadatafile (file x)).2.1, bestfname := x } := by
        unfold meta_loadall_extra
        dsimp only
        rw [if_pos hc]
      rw [hx] at j1 j2 j3 j4 ⊢
      dsimp only at j1 j2 j3 j4
      refine ⟨j1, Nat.le_trans (Nat.le_of_lt hc.2.1) j2, ?_, ?_⟩
      · intro e he hok hid
        rcases List.mem_cons.1 he with hs | hs
        · subst hs
          exact j2
        · exact j3 e hs hok hid
      · rcases j4 with ⟨a1, a2⟩ | ⟨a1, a2, a3, a4⟩
        · refine Or.inr ⟨?_, ?_, ?_, ?_⟩
          · rw [a1]
            exact List.mem_cons_self _ _
          · rw [a1]
            exact hc.1
          · rw [a1]
            exact hc.2.2
          · rw [a1, a2]
        · exact Or.inr ⟨List.mem_cons_of_mem _ a1, a2, a3, a4⟩
    · have hx : meta_loadall_extra file b x = b := by
        unfold meta_loadall_extra
        dsimp only
        rw [if_neg hc]
      rw [hx] at j1 j2 j3 j4 ⊢
      refine ⟨j1, j2, ?_, ?_⟩
      · intro e he hok hid
        rcases List.mem_cons.1 he with hs | hs
        · subst hs
          have hle : (meta_check_metadatafile (file e)).2.1 ≤ b.bestver := by
            by_contra hgt
            exact hc ⟨hok, Nat.lt_of_not_le hgt, hid⟩
          exact Nat.le_trans hle j2
        · exact j3 e hs hok hid
      · rcases j4 with a | ⟨a1, a2, a3, a4⟩
        · exact Or.inl a
        · exact Or.inr ⟨List.mem_cons_of_mem _ a1, a2, a3, a4⟩

/-- The function `meta_loadfile` returns, whatever is found under the name. -/
theorem meta_loadfile_returns (c : MetaCollab) (ignoreflag metaversion0 metaid0 : Nat)
    (file : FileState) : ∃ r, meta_loadfile c ignoreflag metaversion0 metaid0 file = some r := by
  unfold meta_loadfile
  cases file with
  | missing => exact ⟨_, rfl⟩
  | unreadable => exact ⟨_, rfl⟩
  | content b =>
    dsimp only
    split
    · exact ⟨_, rfl⟩
    · split
      · exact ⟨_, rfl⟩
      · split
        · obtain ⟨v, hv⟩ := meta_load_returns c ignoreflag metaversion0 metaid0
            (bio_read (bio_file_of b) 8).1 (meta_fver (bio_read (bio_file_of b) 8).2)
          rw [hv]
          dsimp only
          split
          · exact ⟨_, rfl⟩
          · split <;> exact ⟨_, rfl⟩
        · exact ⟨_, rfl⟩

/-- The function `meta_loadall` returns. -/
theorem meta_loadall_returns (c : MetaCollab) (env : LoadAllEnv) (metaversion0 metaid0 : Nat) :
    ∃ r, meta_loadall c env metaversion0 metaid0 = some r := by
  unfold meta_loadall
  split
  · split
    · exact ⟨_, rfl⟩
    · split
      · exact ⟨_, rfl⟩
      · rename_i b _ _
        obtain ⟨r, hr⟩ := meta_loadfile_returns c env.ignoreflag metaversion0 metaid0
          (env.file b.bestfname)
        rw [hr]
        dsimp only
        split <;> exact ⟨_, rfl⟩
  · dsimp only
    split
    · exact ⟨_, rfl⟩
    · split
      · exact ⟨_, rfl⟩
      · obtain ⟨r, hr⟩ := meta_loadfile_returns c env.ignoreflag metaversion0 metaid0
          (env.file (ascii "metadata.mfs"))
        rw [hr]
        dsimp only
        split
        · exact ⟨_, rfl⟩
        · split <;> exact ⟨_, rfl⟩

/-- In auto-restore mode the name given to `meta_loadfile` is the best name
found, and its version is not 0. -/
theorem meta_loadall_loaded (c : MetaCollab) (env : LoadAllEnv) (metaversion0 metaid0 : Nat)
    (r : LoadAllResult) (name : List Nat) (hauto : env.allowautorestore = true)
    (h : meta_loadall c env metaversion0 metaid0 = some r) (hl : r.loaded = some name) :
    ∃ b, meta_loadall_best env = some b ∧ b.bestver ≠ 0 ∧ b.bestfname = name := by
  unfold meta_loadall at h
  rw [if_pos hauto] at h
  cases hb : meta_loadall_best env with
  | none =>
    rw [hb] at h
    have := Option.some.inj h
    subst this
    exact absurd hl (by simp)
  | some b =>
    rw [hb] at h
    dsimp only at h
    by_cases h0 : b.bestver = 0
    · rw [if_pos h0] at h
      have := Option.some.inj h
      subst this
      exact absurd hl (by simp)
    · rw [if_neg h0] at h
      refine ⟨b, rfl, h0, ?_⟩
      cases hf : meta_loadfile c env.ignoreflag metaversion0 metaid0 (env.file b.bestfname) with
      | none =>
        rw [hf] at h
        exact absurd h (by simp)
      | some rr =>
        rw [hf] at h
        dsimp only at h
        have hrep : ∀ mv mid, (meta_loadall_replay env b mv mid).loaded = some b.bestfname := by
          intro mv mid
          unfold meta_loadall_replay
          dsimp only
          split
          · split <;> rfl
          · rfl
        split at h
        · have := Option.some.inj h
          subst this
          exact Option.some.inj hl
        · have := Option.some.inj h
          subst this
          rw [hrep] at hl
          exact Option.some.inj hl

/-- What the choice of the file guarantees, with `bestid` as the scan leaves
it. In auto-restore mode `meta_loadall` returns, and when it gives a file to
`meta_loadfile` the scan of the working directory has ended with some
`bestid` (when not 0, the id of a valid file of the working directory), the
file validates ok with a version above 0, and no valid file of the working
directory, and no home or emergency file that validates ok with the id
`bestid` when `bestid` is not 0, has a greater version. The `bestid` of the
scan is the id of the last file that raised the best version while carrying
an id, not any id met. When no valid file of the working directory has a
version above 0, `meta_loadall` returns -1 and loads nothing. -/
theorem meta_loadall_loads_newest (c : MetaCollab) (env : LoadAllEnv)
    (metaversion0 metaid0 : Nat) (hauto : env.allowautorestore = true) :
    (∃ r, meta_loadall c env metaversion0 metaid0 = some r) ∧
    (∀ r name, meta_loadall c env metaversion0 metaid0 = some r → r.loaded = some name →
      ∃ b0, meta_loadall_scan env.file env.ignoreflag ⟨0, 0, []⟩ (env.readdir.getD []) = some b0 ∧
        (b0.bestid ≠ 0 → ∃ n, meta_candidate env n ∧
          (meta_check_metadatafile (env.file n)).2.2 = b0.bestid) ∧
        (meta_candidate env name ∨ meta_candidate_extra env b0.bestid name) ∧
        0 < (meta_check_metadatafile (env.file name)).2.1 ∧
        (∀ n, meta_candidate env n ∨ meta_candidate_extra env b0.bestid n →
          (meta_check_metadatafile (env.file n)).2.1
            ≤ (meta_check_metadatafile (env.file name)).2.1)) ∧
    ((∀ n, meta_candidate env n → (meta_check_metadatafile (env.file n)).2.1 = 0) →
      ∃ r, meta_loadall c env metaversion0 metaid0 = some r ∧ r.ret = -1 ∧ r.loaded = none) := by
  have hinit : meta_scan_inv env.file [] ⟨0, 0, []⟩ :=
    ⟨fun n hn => absurd hn (List.not_mem_nil n), Or.inl rfl, fun h => absurd rfl h⟩
  refine ⟨meta_loadall_returns c env metaversion0 metaid0, ?_, ?_⟩
  · intro r name h hl
    obtain ⟨b, hb, hv, hn⟩ := meta_loadall_loaded c env metaversion0 metaid0 r name hauto h hl
    unfold meta_loadall_best at hb
    cases hs : meta_loadall_scan env.file env.ignoreflag ⟨0, 0, []⟩ (env.readdir.getD []) with
    | none =>
      rw [hs] at hb
      exact absurd hb (by simp)
    | some b0 =>
      rw [hs] at hb
      dsimp only at hb
      have hinv := meta_loadall_scan_inv env.file env.ignoreflag (env.readdir.getD []) []
        ⟨0, 0, []⟩ b0 hs hinit
      rw [List.nil_append] at hinv
      obtain ⟨i1, i2, i3⟩ := hinv
      have hid : b0.bestid ≠ 0 → ∃ n, meta_candidate env n ∧
          (meta_check_metadatafile (env.file n)).2.2 = b0.bestid := by
        intro hz
        obtain ⟨_, n, q1, q2, q3, q4⟩ := i3 hz
        exact ⟨n, ⟨q1, q2, q3⟩, q4⟩
      refine ⟨b0, rfl, hid, ?_⟩
      by_cases hz : b0.bestid ≠ 0
      · rw [if_pos hz] at hb
        have hbe := Option.some.inj hb
        obtain ⟨j1, j2, j3, j4⟩ := meta_loadall_extras_inv env.file
          (meta_loadall_extras env.pw_dir) b0
        rw [hbe] at j1 j2 j3 j4
        rw [hn] at j4
        have hcand : (meta_candidate env name ∨ meta_candidate_extra env b0.bestid name) ∧
            (meta_check_metadatafile (env.file name)).2.1 = b.bestver := by
          rcases j4 with ⟨a1, a2⟩ | ⟨a1, a2, a3, a4⟩
          · rcases i2 with h0 | ⟨q1, q2, q3, q4⟩
            · exact absurd (a2.trans h0) hv
            · rw [← a1] at q1 q2 q3 q4
              exact ⟨Or.inl ⟨q1, q2, q3⟩, q4.trans a2.symm⟩
          · exact ⟨Or.inr ⟨hz, a1, a2, a3⟩, a4⟩
        refine ⟨hcand.1, ?_, ?_⟩
        · rw [hcand.2]
          exact Nat.pos_of_ne_zero hv
        · intro n hc
          rw [hcand.2]
          rcases hc with ⟨q1, q2, q3⟩ | ⟨_, q2, q3, q4⟩
          · exact Nat.le_trans (i1 n q1 q2 q3) j2
          · exact j3 n q2 q3 q4
      · rw [if_neg hz] at hb
        have hbe := Option.some.inj hb
        subst hbe
        rcases i2 with h0 | ⟨q1, q2, q3, q4⟩
        · exact absurd h0 hv
        · rw [hn] at q1 q2 q3 q4
          refine ⟨Or.inl ⟨q1, q2, q3⟩, ?_, ?_⟩
          · rw [q4]
            exact Nat.pos_of_ne_zero hv
          · intro n hc
            rw [q4]
            rcases hc with ⟨p1, p2, p3⟩ | ⟨p0, _⟩
            · exact i1 n p1 p2 p3
            · exact absurd p0 hz
  · intro hnone
    unfold meta_loadall
    rw [if_pos hauto]
    unfold meta_loadall_best
    cases hs : meta_loadall_scan env.file env.ignoreflag ⟨0, 0, []⟩ (env.readdir.getD []) with
    | none => exact ⟨_, rfl, rfl, rfl⟩
    | some b0 =>
      have hinv := meta_loadall_scan_inv env.file env.ignoreflag (env.readdir.getD []) []
        ⟨0, 0, []⟩ b0 hs hinit
      rw [List.nil_append] at hinv
      obtain ⟨_, i2, i3⟩ := hinv
      have hv0 : b0.bestver = 0 := by
        rcases i2 with h0 | ⟨q1, q2, q3, q4⟩
        · exact h0
        · rw [← q4]
          exact hnone _ ⟨q1, q2, q3⟩
      have hid0 : ¬ b0.bestid ≠ 0 := by
        intro hz
        have := (i3 hz).1
        omega
      dsimp only
      rw [if_neg hid0]
      dsimp only
      rw [if_pos hv0]
      exact ⟨_, rfl, rfl, rfl⟩

set_option maxRecDepth 20000 in
/-- The choice on a sample: of three images in the working directory, with
the versions 10, 3 and 2, the one with version 10 is loaded. -/
theorem meta_loadall_loads_newest_witness :
    (loadenv_sample true 1 0
      [ascii "metadata.mfs.back.2", ascii "metadata.mfs.back", ascii "metadata.mfs.back.1"]
      files_three_ids).allowautorestore = true ∧
    (∃ r, meta_loadall metacollab_sample (loadenv_sample true 1 0
      [ascii "metadata.mfs.back.2", ascii "metadata.mfs.back", ascii "metadata.mfs.back.1"]
      files_three_ids) 0 0 = some r) ∧
    (meta_loadall metacollab_sample (loadenv_sample true 1 0
      [ascii "metadata.mfs.back.2", ascii "metadata.mfs.back", ascii "metadata.mfs.back.1"]
      files_three_ids) 0 0).map (fun r => (r.ret, r.loaded, r.metaversion))
      = some (0, some (ascii "metadata.mfs.back"), 10) :=
  ⟨rfl,
    (meta_loadall_loads_newest metacollab_sample (loadenv_sample true 1 0
      [ascii "metadata.mfs.back.2", ascii "metadata.mfs.back", ascii "metadata.mfs.back.1"]
      files_three_ids) 0 0 rfl).1,
    by decide⟩

set_option maxRecDepth 20000 in
/-- C23: a working directory that holds `metadata.mfs.back` (valid, version
10, no id) and `metadata.mfs.back.1` (valid, version 3, id 7), with
`/metadata.mfs.emergency` valid with version 20 and the same id 7. Enumerated
with the file without id first, `meta_loadall` loads version 10: the id 7 was
met but not kept, so the emergency file is not looked at, although it is a
candidate with a greater version. Enumerated with the file without id last,
the same files make it load the emergency file, version 20. -/
theorem meta_loadall_emergency_skipped :
    (meta_loadall metacollab_sample
      (loadenv_sample true 0 0 [ascii "metadata.mfs.back", ascii "metadata.mfs.back.1"]
        files_emergency_id) 0 0).map (fun r => (r.ret, r.loaded, r.metaversion))
      = some (0, some (ascii "metadata.mfs.back"), 10) ∧
    (meta_loadall metacollab_sample
      (loadenv_sample true 0 0 [ascii "metadata.mfs.back.1", ascii "metadata.mfs.back"]
        files_emergency_id) 0 0).map (fun r => (r.ret, r.loaded, r.metaversion))
      = some (0, some (ascii "/metadata.mfs.emergency"), 20) ∧
    meta_check_metadatafile (files_emergency_id (ascii "metadata.mfs.back"))
      = (META_CHECK_OK, 10, 0) ∧
    meta_check_metadatafile (files_emergency_id (ascii "metadata.mfs.back.1"))
      = (META_CHECK_OK, 3, 7) ∧
    meta_check_metadatafile (files_emergency_id (ascii "/metadata.mfs.emergency"))
      = (META_CHECK_OK, 20, 7) ∧
    ascii "/metadata.mfs.emergency" ∈ meta_loadall_extras none := by
  decide

/-! ## Loading at start: files with different ids -/

set_option maxRecDepth 20000 in
/-- C24: with ignore-mode off, a working directory that holds three images
that validate ok, with the ids 0, 7 and 9 and the versions 10, 3 and 2, is
accepted when the image without id is enumerated first (it is loaded and
`meta_loadall` returns 0), although two of the files carry distinct non-zero
ids; enumerated with that image last, the same directory is refused. -/
theorem meta_loadall_distinct_ids_accepted :
    (meta_loadall metacollab_sample
      (loadenv_sample true 0 0
        [ascii "metadata.mfs.back", ascii "metadata.mfs.back.1", ascii "metadata.mfs.back.2"]
        files_three_ids) 0 0).map (fun r => (r.ret, r.loaded))
      = some (0, some (ascii "metadata.mfs.back")) ∧
    (meta_loadall metacollab_sample
      (loadenv_sample true 0 0
        [ascii "metadata.mfs.back.1", ascii "metadata.mfs.back.2", ascii "metadata.mfs.back"]
        files_three_ids) 0 0).map (fun r => (r.ret, r.loaded))
      = some (-1, none) ∧
    (meta_check_metadatafile (files_three_ids (ascii "metadata.mfs.back.1"))
      = (META_CHECK_OK, 3, 7)) ∧
    (meta_check_metadatafile (files_three_ids (ascii "metadata.mfs.back.2"))
      = (META_CHECK_OK, 2, 9)) := by
  decide

/-! ## Loading at start: the changelogs given to the merger -/

/-- The printing loop leaves 0 in the variable when it has as many turns as
the value has digits. -/
theorem meta_loadall_digits_zero (fuel : Nat) : ∀ lv, lv < 10 ^ fuel →
    meta_loadall_digits fuel lv = 0 := by
  induction fuel with
  | zero =>
    intro lv h
    simp only [meta_loadall_digits]
    simpa using h
  | succ k ih =>
    intro lv h
    simp only [meta_loadall_digits]
    split
    · apply ih
      apply Nat.div_lt_of_lt_mul
      rw [Nat.pow_succ] at h
      omega
    · omega

/-- The second changelog loop: the names kept are, in order, those the
collaborator takes for changelogs whose last version is not below
`metaversion` and whose first version is not 0, for every verbosity level;
the greatest last version of the names kept is in `maxlastlv` when
`verboselevel` is 0, and `maxlastlv` is as it was when `verboselevel` is above
0 and the versions are 64-bit values. -/
theorem meta_loadall_changelog_kept (env : LoadAllEnv) (metaversion : Nat)
    (names : List (List Nat)) : ∀ s : ChangelogSel,
    (names.foldl (meta_loadall_changelog env metaversion) s).filenames
      = s.filenames ++ names.filter (fun n => env.changelog_checkname n &&
          !decide (env.changelog_findlastversion n < metaversion
            ∨ env.changelog_findfirstversion n = 0)) ∧
    (env.verboselevel = 0 →
      (names.foldl (meta_loadall_changelog env metaversion) s).maxlastlv
        = ((names.filter (fun n => env.changelog_checkname n &&
            !decide (env.changelog_findlastversion n < metaversion
              ∨ env.changelog_findfirstversion n = 0))).map
            env.changelog_findlastversion).foldl max s.maxlastlv) ∧
    (env.verboselevel > 0 → (∀ n, env.changelog_findlastversion n < U64) →
      (names.foldl (meta_loadall_changelog env metaversion) s).maxlastlv = s.maxlastlv) := by
  induction names with
  | nil =>
    intro s
    simp
  | cons x rest ih =>
    intro s
    rw [List.foldl_cons]
    obtain ⟨k1, k2, k3⟩ := ih (meta_loadall_changelog env metaversion s x)
    rw [k1]
    by_cases hc : env.changelog_checkname x = true
    · by_cases hs : env.changelog_findlastversion x < metaversion
          ∨ env.changelog_findfirstversion x = 0
      · have hx : meta_loadall_changelog env metaversion s x
            = { s with files := (s.files + U32 - 1) % U32 } := by
          unfold meta_loadall_changelog
          rw [if_pos hc]
          dsimp only
          rw [if_pos (decide_eq_true hs)]
        have hf : (x :: rest).filter (fun n => env.changelog_checkname n &&
            !decide (env.changelog_findlastversion n < metaversion
              ∨ env.changelog_findfirstversion n = 0))
            = rest.filter (fun n => env.changelog_checkname n &&
            !decide (env.changelog_findlastversion n < metaversion
              ∨ env.changelog_findfirstversion n = 0)) := by
          rw [List.filter_cons]
          simp [hc, hs]
        rw [hf]
        rw [hx] at k2 k3 ⊢
        exact ⟨rfl, k2, k3⟩
      · have hx : meta_loadall_changelog env metaversion s x
            = ⟨s.files, s.filenames ++ [x],
                if (if env.verboselevel > 0 then
                      meta_loadall_digits 20 (env.changelog_findlastversion x)
                    else env.changelog_findlastversion x) > s.maxlastlv
                then (if env.verboselevel > 0 then
                      meta_loadall_digits 20 (env.changelog_findlastversion x)
                    else env.changelog_findlastversion x)
                else s.maxlastlv⟩ := by
          unfold meta_loadall_changelog
          rw [if_pos hc]
          dsimp only
          rw [if_neg (by simpa using hs)]
        have hf : (x :: rest).filter (fun n => env.changelog_checkname n &&
            !decide (env.changelog_findlastversion n < metaversion
              ∨ env.changelog_findfirstversion n = 0))
            = x :: rest.filter (fun n => env.changelog_checkname n &&
            !decide (env.changelog_findlastversion n < metaversion
              ∨ env.changelog_findfirstversion n = 0)) := by
          rw [List.filter_cons]
          simp [hc, hs]
        rw [hf]
        rw [hx] at k2 k3 ⊢
        dsimp only at k2 k3 ⊢
        refine ⟨by simp, ?_, ?_⟩
        · intro hv
          rw [k2 hv, List.map_cons, List.foldl_cons]
          have hv0 : ¬ env.verboselevel > 0 := by omega
          rw [if_neg hv0]
          congr 1
          rw [Nat.max_def]
          split <;> split <;> omega
        · intro hv hb
          rw [k3 hv hb, if_pos hv,
            meta_loadall_digits_zero 20 _ (Nat.lt_trans (hb x) (by decide))]
          rw [if_neg (Nat.not_lt_zero _)]
    · have hx : meta_loadall_changelog env metaversion s x = s := by
        unfold meta_loadall_changelog
        rw [if_neg hc]
      have hf : (x :: rest).filter (fun n => env.changelog_checkname n &&
          !decide (env.changelog_findlastversion n < metaversion
            ∨ env.changelog_findfirstversion n = 0))
          = rest.filter (fun n => env.changelog_checkname n &&
          !decide (env.changelog_findlastversion n < metaversion
            ∨ env.changelog_findfirstversion n = 0)) := by
        rw [List.filter_cons]
        simp [hc]
      rw [hf]
      rw [hx] at k2 k3 ⊢
      exact ⟨rfl, k2, k3⟩

set_option maxRecDepth 20000 in
/-- C25: with `verboselevel = 1`, an image of version 10 and one changelog
file with the versions 5 to 42, `merger_start` is called with that file, the
gap 10000, the start 10 and the end 0, not 42: the loop that prints the last
version has divided the variable down to 0 before it is compared with
`maxlastlv`. With `verboselevel = 0` the end is 42. -/
theorem meta_loadall_verbose_range_end :
    (meta_loadall metacollab_sample
      (loadenv_sample true 0 1 [ascii "metadata.mfs.back", ascii "changelog.0.mfs"]
        files_three_ids) 0 0).map (fun r => (r.ret, r.merger))
      = some (0, some ⟨1, [ascii "changelog.0.mfs"], 10000, 10, 0⟩) ∧
    (meta_loadall metacollab_sample
      (loadenv_sample true 0 0 [ascii "metadata.mfs.back", ascii "changelog.0.mfs"]
        files_three_ids) 0 0).map (fun r => (r.ret, r.merger))
      = some (0, some ⟨1, [ascii "changelog.0.mfs"], 10000, 10, 42⟩) := by
  decide

/-! ## Loading at start: a newer backup without auto-restore -/

set_option maxRecDepth 20000 in
/-- C30: without auto-restore, `metadata.mfs` of version 5 and
`metadata.mfs.back` of version 9, both valid, with the same id 7 or both
without id: `meta_loadall` loads `metadata.mfs` and returns 0. It refuses
when the two ids are distinct and not 0. -/
theorem meta_loadall_newer_back_loaded :
    (meta_loadall metacollab_sample
      (loadenv_sample false 0 0 [ascii "metadata.mfs", ascii "metadata.mfs.back"]
        (files_newer_back 7 7)) 0 0).map (fun r => (r.ret, r.loaded, r.metaversion))
      = some (0, some (ascii "metadata.mfs"), 5) ∧
    (meta_loadall metacollab_sample
      (loadenv_sample false 0 0 [ascii "metadata.mfs", ascii "metadata.mfs.back"]
        (files_newer_back 0 0)) 0 0).map (fun r => (r.ret, r.loaded, r.metaversion))
      = some (0, some (ascii "metadata.mfs"), 5) ∧
    (meta_loadall metacollab_sample
      (loadenv_sample false 0 0 [ascii "metadata.mfs", ascii "metadata.mfs.back"]
        (files_newer_back 7 8)) 0 0).map (fun r => (r.ret, r.loaded, r.metaversion))
      = some (-1, none, 0) ∧
    meta_check_metadatafile (files_newer_back 7 7 (ascii "metadata.mfs"))
      = (META_CHECK_OK, 5, 7) ∧
    meta_check_metadatafile (files_newer_back 7 7 (ascii "metadata.mfs.back"))
      = (META_CHECK_OK, 9, 7) := by
  decide

end MooseFS
